import Mathlib

/-!
# SwiftEmbedded: beacon ranging pipeline and gateway distance smoother

A shallow embedding of `beacon/main/main.c` and `gateway/main/main.c`.

* C `float`/`double` values are rationals (`ℚ`): every statement below is about
  the program in exact arithmetic.
* An array `float *data` with a fill count is a `List ℚ` buffer together with a
  `Nat` count; loops `for (i = 0; i < n; i++)` are recursions on the number of
  remaining iterations, carrying the index and the loop variables.
* Driver calls (`esp_wifi_ftm_initiate_session`, `xEventGroupWaitBits`, the tick
  counter) are inputs of the functions that make them.
* A quotient of rationals with divisor zero has no value: `kalman_filter_update` returns
  `none` there (the C code stores a NaN or an infinity), and `some` result otherwise.
* `char` and byte arrays are lists of bytes; a C string is the bytes up to the first NUL.
* The global `floor_list[20]` is a list of 20 cells with the count `floor_count`; the
  arrays of the scan, which are only ever filled by `a[count++] = v`, are lists that grow
  at the end.
* The ESP-NOW calls of `send_data_with_retry` are inputs (one outcome per gateway index
  and retry); the function returns, next to its result, the sends it made, and the
  channel loop is followed by the list of gateways it ranges.
-/

namespace Beacon

/-! ## Constants of `beacon/main/main.c` -/

def MAX_FTM_RETRY : Nat := 2
def MIN_VALID_SAMPLES : Nat := 6
def FTM_CALIBRATION_FACTOR : ℚ := 0.20
def MAX_VARIANCE_THRESHOLD : ℚ := 0.10
def UINT32_MAX : Nat := 4294967295

/-! ## Statistics kernel -/

/-- The comparator handed to `qsort`: `(fa > fb) - (fa < fb)`. -/
def compare_floats (fa fb : ℚ) : Int :=
  (if fa > fb then 1 else 0) - (if fa < fb then 1 else 0)

/-- The libc call `qsort(base, n, sizeof(float), cmp)`: the array reordered so that
`cmp a b ≤ 0` for neighbours `a`, `b`.  Realised here by insertion sort. -/
def qsort (cmp : ℚ → ℚ → Int) (base : List ℚ) : List ℚ :=
  base.insertionSort (fun a b => cmp a b ≤ 0)

/-- The function `calculate_median` with the caller's array threaded through: the result
is the returned median together with the contents of `data` on return.  The
working array `sorted` is a `memcpy` of the first `count` cells. -/
def calculate_median_st (data : List ℚ) (count : Nat) : ℚ × List ℚ :=
  if count = 0 then (0, data)
  else
    let sorted := qsort compare_floats (data.take count)
    let median :=
      if count % 2 = 0 then (sorted.getD (count / 2 - 1) 0 + sorted.getD (count / 2) 0) / 2
      else sorted.getD (count / 2) 0
    (median, data)

/-- The value returned by `calculate_median(data, count)`. -/
def calculate_median (data : List ℚ) (count : Nat) : ℚ :=
  (calculate_median_st data count).1

/-- The compaction loop of `remove_outliers_iqr`:
`for (i = 0; i < *count; i++) if (lower ≤ data[i] ≤ upper) data[new_count++] = data[i];`
The first argument is the number of iterations still to run; the result is the
array and `new_count` when the loop ends. -/
def iqr_loop (lower_bound upper_bound : ℚ) : Nat → Nat → Nat → List ℚ → List ℚ × Nat
  | 0, _, new_count, data => (data, new_count)
  | k + 1, i, new_count, data =>
    if data.getD i 0 ≥ lower_bound ∧ data.getD i 0 ≤ upper_bound then
      iqr_loop lower_bound upper_bound k (i + 1) (new_count + 1) (data.set new_count (data.getD i 0))
    else
      iqr_loop lower_bound upper_bound k (i + 1) new_count data

/-- The function `remove_outliers_iqr(data, &count)`: returns the array and the count as
the call leaves them. -/
def remove_outliers_iqr (data : List ℚ) (count : Nat) : List ℚ × Nat :=
  if count < 4 then (data, count)
  else
    let sorted := qsort compare_floats (data.take count)
    let q1_idx := count / 4
    let q3_idx := (3 * count) / 4
    let q1 := sorted.getD q1_idx 0
    let q3 := sorted.getD q3_idx 0
    let iqr := q3 - q1
    let lower_bound := q1 - 1.5 * iqr
    let upper_bound := q3 + 1.5 * iqr
    iqr_loop lower_bound upper_bound count 0 0 data

/-! ## One ranging attempt (`perform_ftm_measurement`, report processing) -/

/-- The first test of the collection loop: the entry is skipped (`continue`) when
`rtt == 0 || rtt == UINT32_MAX || rtt < 1000 || rtt > 333000`. -/
def rtt_invalid (rtt : Nat) : Bool :=
  rtt = 0 || rtt = UINT32_MAX || rtt < 1000 || rtt > 333000

/-- The calibrated distance of an entry:
`dist_raw = rtt * 1e-12 * 299792458.0 / 2.0; dist_calibrated = dist_raw * FTM_CALIBRATION_FACTOR`. -/
def dist_calibrated (rtt : Nat) : ℚ :=
  let dist_raw : ℚ := ((rtt : ℚ) * 1e-12 * 299792458.0) / 2.0
  dist_raw * FTM_CALIBRATION_FACTOR

/-- The body of the collection loop for one report entry: `some d` when the entry stores
the sample `d` in `distances`, `none` when it stores nothing. -/
def ftm_sample (rtt : Nat) : Option ℚ :=
  if rtt_invalid rtt then none
  else if dist_calibrated rtt ≥ 0.15 ∧ dist_calibrated rtt ≤ 50.0 then some (dist_calibrated rtt)
  else none

/-- The collection loop `for (i = 0; i < ftm_report_num_entries; i++)`, writing
`distances[valid_count++]` for every accepted entry. -/
def collect_loop (ftm_report_data : List Nat) : Nat → Nat → Nat → List ℚ → List ℚ × Nat
  | 0, _, valid_count, distances => (distances, valid_count)
  | k + 1, i, valid_count, distances =>
    match ftm_sample (ftm_report_data.getD i 0) with
    | some d => collect_loop ftm_report_data k (i + 1) (valid_count + 1) (distances.set valid_count d)
    | none => collect_loop ftm_report_data k (i + 1) valid_count distances

/-- The variance loop: `for (i = 0; i < valid_count; i++) sum_sq += diff * diff`. -/
def sum_sq_loop (distances : List ℚ) (attempt_distance : ℚ) : Nat → Nat → ℚ → ℚ
  | 0, _, sum_sq => sum_sq
  | k + 1, i, sum_sq =>
    let diff := distances.getD i 0 - attempt_distance
    sum_sq_loop distances attempt_distance k (i + 1) (sum_sq + diff * diff)

/-- The per-attempt locals `result`, `attempt_distance`, `attempt_variance`,
`attempt_valid_count` (`result = true` is `ESP_OK`). -/
structure Attempt where
  result : Bool
  attempt_distance : ℚ
  attempt_variance : ℚ
  attempt_valid_count : Nat
  deriving DecidableEq, Repr

/-- The values the locals are initialised with before the wait result is examined. -/
def Attempt.init : Attempt :=
  { result := false, attempt_distance := 0, attempt_variance := 999999.0, attempt_valid_count := 0 }

/-- The `FTM_REPORT_BIT` branch.  `ftm_report_data` is the copy made by the event
handler (`none` is `NULL`); `ftm_report_num_entries` is its length.  The block
`malloc(ftm_report_num_entries * sizeof(float))` is a buffer of that many cells. -/
def process_report (ftm_report_data : Option (List Nat)) : Attempt :=
  match ftm_report_data with
  | none => Attempt.init
  | some entries =>
    let ftm_report_num_entries := entries.length
    if ftm_report_num_entries = 0 then Attempt.init
    else
      let c := collect_loop entries ftm_report_num_entries 0 0 (List.replicate ftm_report_num_entries 0)
      let f := if c.2 ≥ MIN_VALID_SAMPLES then remove_outliers_iqr c.1 c.2 else c
      let distances := f.1
      let valid_count := f.2
      if valid_count > 0 then
        let attempt_distance := calculate_median distances valid_count
        let sum_sq := sum_sq_loop distances attempt_distance valid_count 0 0
        { result := true, attempt_distance := attempt_distance,
          attempt_variance := sum_sq / valid_count, attempt_valid_count := valid_count }
      else
        { Attempt.init with attempt_valid_count := valid_count }

/-- The accepted calibrated distances of a report, in report order (the list `V` of the
specification of one ranging attempt). -/
def accepted_distances (entries : List Nat) : List ℚ :=
  entries.filterMap ftm_sample

/-- The samples an attempt works with (the list `S`): the accepted distances, passed
through `remove_outliers_iqr` when there are at least `MIN_VALID_SAMPLES` of them. -/
def surviving_distances (entries : List Nat) : List ℚ :=
  let V := accepted_distances entries
  if V.length ≥ MIN_VALID_SAMPLES then
    (remove_outliers_iqr V V.length).1.take (remove_outliers_iqr V V.length).2
  else V

/-- The RTT values of the accepted entries of a report, in report order. -/
def accepted_rtts (entries : List Nat) : List Nat :=
  entries.filter (fun rtt => (ftm_sample rtt).isSome)

/-! ## The retry loop of `perform_ftm_measurement` -/

/-- What the driver does in one loop iteration: the return value of
`esp_wifi_ftm_initiate_session` and, when the session started, the bits returned by
`xEventGroupWaitBits` together with the report copied by `ftm_event_handler`. -/
inductive DriverOutcome where
  /-- `esp_wifi_ftm_initiate_session` returned an error. -/
  | start_refused
  /-- `xEventGroupWaitBits` returned after 6000 ms with no bit set. -/
  | timeout
  /-- Only `FTM_FAILURE_BIT` was set. -/
  | failure_bit
  /-- `FTM_REPORT_BIT` was set (the loop tests this bit first); the argument is
  `ftm_report_data`. -/
  | report (ftm_report_data : Option (List Nat))
  deriving DecidableEq

/-- The locals of one iteration after the wait: a report is processed, any other
outcome leaves the initial values (`result = ESP_FAIL`). -/
def run_attempt : DriverOutcome → Attempt
  | .report d => process_report d
  | _ => Attempt.init

/-- The four output parameters `*distance`, `*variance`, `*valid_count`, `*rtt_ns` as
cells owned by the caller. -/
structure FtmOut where
  distance : ℚ
  variance : ℚ
  valid_count : Int
  rtt_ns : Nat
  deriving DecidableEq, Repr

/-- The running best: `final_result`, `best_distance`, `best_variance`,
`best_valid_count`, `best_rtt_ns`. -/
structure Best where
  final_result : Bool
  best_distance : ℚ
  best_variance : ℚ
  best_valid_count : Nat
  best_rtt_ns : Nat
  deriving DecidableEq, Repr

def Best.init : Best :=
  { final_result := false, best_distance := 0, best_variance := 999999.0,
    best_valid_count := 0, best_rtt_ns := 0 }

/-- The return value (`err = true` is `ESP_OK`), the output cells on return, and the
number of loop iterations that were entered. -/
structure FtmReturn where
  err : Bool
  out : FtmOut
  attempts : Nat
  deriving DecidableEq, Repr

/-- The cast `(uint32_t)((best_distance / FTM_CALIBRATION_FACTOR) * 2.0 / 0.299792458)`. -/
def rtt_from_distance (best_distance : ℚ) : Nat :=
  (Int.toNat ⌊(best_distance / FTM_CALIBRATION_FACTOR) * 2.0 / 0.299792458⌋) % 2 ^ 32

/-- The code after the loop: the best values are written through the pointers only when
`final_result == ESP_OK`. -/
def ftm_finish (best : Best) (out : FtmOut) (attempts : Nat) : FtmReturn :=
  if best.final_result then
    { err := true,
      out := { distance := best.best_distance, variance := best.best_variance,
               valid_count := best.best_valid_count, rtt_ns := best.best_rtt_ns },
      attempts := attempts }
  else { err := false, out := out, attempts := attempts }

/-- The loop `for (attempt = 0; attempt < MAX_FTM_RETRY; attempt++)`.  `pow` is the
libm function, `drv attempt` the driver outcome of iteration `attempt`; the first
`Nat` is the number of iterations left. -/
def ftm_loop (pow : ℚ → ℚ → ℚ) (drv : Nat → DriverOutcome) (out : FtmOut) :
    Nat → Nat → Best → FtmReturn
  | 0, attempt, best => ftm_finish best out attempt
  | k + 1, attempt, best =>
    match drv attempt with
    | .start_refused =>
      let rssi : ℚ := -70
      let path_loss_exp : ℚ := 2.0
      let ref_rssi : ℚ := -40.0
      { err := true,
        out := { out with distance := pow 10.0 ((ref_rssi - rssi) / (10.0 * path_loss_exp)),
                          variance := 10.0 },
        attempts := attempt + 1 }
    | o =>
      let a := run_attempt o
      if a.result = true ∧ a.attempt_variance < best.best_variance then
        let best1 : Best :=
          { final_result := true, best_distance := a.attempt_distance,
            best_variance := a.attempt_variance, best_valid_count := a.attempt_valid_count,
            best_rtt_ns := rtt_from_distance a.attempt_distance }
        if best1.best_variance < MAX_VARIANCE_THRESHOLD then ftm_finish best1 out (attempt + 1)
        else ftm_loop pow drv out k (attempt + 1) best1
      else ftm_loop pow drv out k (attempt + 1) best

/-- The function `perform_ftm_measurement`; `out` holds the output cells as the caller
left them. -/
def perform_ftm_measurement (pow : ℚ → ℚ → ℚ) (drv : Nat → DriverOutcome) (out : FtmOut) :
    FtmReturn :=
  ftm_loop pow drv out MAX_FTM_RETRY 0 Best.init

/-- The output cells as `perform_ftm_measurement` fills them from the locals of an
attempt that became the running best. -/
def attempt_out (a : Attempt) : FtmOut :=
  { distance := a.attempt_distance, variance := a.attempt_variance,
    valid_count := a.attempt_valid_count, rtt_ns := rtt_from_distance a.attempt_distance }

/-- The output cells after the RSSI fallback: `*distance` and `*variance` are written,
the other two cells are left as the caller had them. -/
def fallback_out (pow : ℚ → ℚ → ℚ) (out : FtmOut) : FtmOut :=
  { out with distance := pow 10 (3 / 2), variance := 10 }

/-- An attempt in which the session started and then timed out, reported failure, or
produced no surviving sample. -/
def attempt_failed : DriverOutcome → Prop
  | .start_refused => False
  | .timeout => True
  | .failure_bit => True
  | .report none => True
  | .report (some entries) => surviving_distances entries = []

/-! ## Recording observations in `app_main` -/

structure gateway_info_t where
  mac : List Nat
  channel : Nat
  rssi : Int
  deriving DecidableEq, Repr

structure ftm_result_t where
  mac : List Nat
  distance : ℚ
  variance : ℚ
  rssi : Int
  sample_count : Int
  rtt_nanoseconds : Nat
  deriving DecidableEq, Repr

/-- The body of the gateway loop for a gateway on the current channel.  `stack` holds
the values of the uninitialised locals `distance`, `variance`; `valid_samples` and
`rtt_ns` start at `0`.  A successful measurement is appended to
`final_ftm_results`. -/
def range_gateway (pow : ℚ → ℚ → ℚ) (gw : gateway_info_t) (drv : Nat → DriverOutcome)
    (stack : ℚ × ℚ) (final_ftm_results : List ftm_result_t) : List ftm_result_t :=
  let r := perform_ftm_measurement pow drv
    { distance := stack.1, variance := stack.2, valid_count := 0, rtt_ns := 0 }
  if r.err then
    final_ftm_results ++
      [{ mac := gw.mac, distance := r.out.distance, variance := r.out.variance,
         rssi := gw.rssi, sample_count := r.out.valid_count, rtt_nanoseconds := r.out.rtt_ns }]
  else final_ftm_results

/-- The loop `for (gw_idx = 0; gw_idx < gateway_count; gw_idx++)` for one channel:
gateways on another channel are skipped.  `drv gw_idx` and `stack gw_idx` are the
driver outcomes and stack contents met when ranging gateway `gw_idx`. -/
def range_all (pow : ℚ → ℚ → ℚ) (drv : Nat → Nat → DriverOutcome) (stack : Nat → ℚ × ℚ)
    (current_channel : Nat) : List gateway_info_t → Nat → List ftm_result_t → List ftm_result_t
  | [], _, final_ftm_results => final_ftm_results
  | gw :: rest, gw_idx, final_ftm_results =>
    if gw.channel ≠ current_channel then
      range_all pow drv stack current_channel rest (gw_idx + 1) final_ftm_results
    else
      range_all pow drv stack current_channel rest (gw_idx + 1)
        (range_gateway pow gw (drv gw_idx) (stack gw_idx) final_ftm_results)

/-- The channel loop `for (ch_idx = 0; ch_idx < unique_channel_count; ch_idx++)`, as far
as `final_ftm_results` is concerned. -/
def channel_sweep (pow : ℚ → ℚ → ℚ) (drv : Nat → Nat → Nat → DriverOutcome)
    (stack : Nat → Nat → ℚ × ℚ) (gateway_list : List gateway_info_t) :
    List Nat → Nat → List ftm_result_t → List ftm_result_t
  | [], _, final_ftm_results => final_ftm_results
  | current_channel :: rest, ch_idx, final_ftm_results =>
    channel_sweep pow drv stack gateway_list rest (ch_idx + 1)
      (range_all pow (drv ch_idx) (stack ch_idx) current_channel gateway_list 0 final_ftm_results)

/-! ## Floor reports (`floor_recv_cb`, `calculate_floor_mode`) -/

structure floor_info_t where
  gateway_mac : List Nat
  floor : Nat
  rssi : Int
  channel : Nat
  deriving DecidableEq, Repr

def floor_info_zero : floor_info_t :=
  { gateway_mac := List.replicate 6 0, floor := 0, rssi := 0, channel := 0 }

/-- The globals `floor_list[20]` and `floor_count`. -/
structure FloorState where
  floor_list : List floor_info_t
  floor_count : Nat
  deriving DecidableEq, Repr

/-- The globals at boot (static storage is zeroed), which is also their state when the
channel loop starts: `app_main` sets `floor_count = 0` before it. -/
def FloorState.init : FloorState :=
  { floor_list := List.replicate 20 floor_info_zero, floor_count := 0 }

/-- The arguments of one call of the receive callback: source address, payload bytes,
payload length, the RSSI of the frame, and the channel `esp_wifi_get_channel` reports. -/
structure FloorPacket where
  src_addr : List Nat
  data : List Nat
  len : Int
  rssi : Int
  primary_channel : Nat
  deriving DecidableEq, Repr

/-- The function `floor_recv_cb`: a one-byte payload is stored while there is room. -/
def floor_recv_cb (s : FloorState) (p : FloorPacket) : FloorState :=
  if p.len = 1 ∧ s.floor_count < 20 then
    let e : floor_info_t :=
      { gateway_mac := p.src_addr, floor := p.data.getD 0 0 % 256, rssi := p.rssi,
        channel := p.primary_channel }
    { floor_list := s.floor_list.set s.floor_count e, floor_count := s.floor_count + 1 }
  else s

/-- The globals after the callback has run for each packet of a wake cycle, in order. -/
def floor_discovery (packets : List FloorPacket) : FloorState :=
  packets.foldl floor_recv_cb FloorState.init

/-- The tally loop of `calculate_floor_mode`: `floor_counts[floor]++` on `uint8_t`
counters, for the entries with `floor < 10`. -/
def tally_loop (floor_list : List floor_info_t) : Nat → Nat → List Nat → List Nat
  | 0, _, floor_counts => floor_counts
  | k + 1, i, floor_counts =>
    let floor := (floor_list.getD i floor_info_zero).floor
    if floor < 10 then
      tally_loop floor_list k (i + 1)
        (floor_counts.set floor ((floor_counts.getD floor 0 + 1) % 256))
    else tally_loop floor_list k (i + 1) floor_counts

/-- The search loop of `calculate_floor_mode`, returning `(mode_floor, max_count)`. -/
def mode_loop (floor_counts : List Nat) : Nat → Nat → Nat → Nat → Nat × Nat
  | 0, _, mode_floor, max_count => (mode_floor, max_count)
  | k + 1, i, mode_floor, max_count =>
    if floor_counts.getD i 0 > max_count then
      mode_loop floor_counts k (i + 1) (i % 256) (floor_counts.getD i 0)
    else mode_loop floor_counts k (i + 1) mode_floor max_count

/-- The function `calculate_floor_mode`, reading the globals. -/
def calculate_floor_mode (s : FloorState) : Nat :=
  if s.floor_count = 0 then 0
  else
    let floor_counts := tally_loop s.floor_list s.floor_count 0 (List.replicate 10 0)
    (mode_loop floor_counts 10 0 0 0).1

/-- The floor bytes of the reports held in `floor_list[0 .. floor_count)`. -/
def stored_floors (s : FloorState) : List Nat :=
  (s.floor_list.take s.floor_count).map (fun e => e.floor)

/-! ## The sorting loops of `app_main` and `send_data_with_retry`

Both are the same pair of loops, `for (i = 0; i < count - 1; i++) for (j = i + 1; j <
count; j++) if (test(a[j], a[i])) swap(a[i], a[j])`, with a different test. -/

/-- The inner loop for a fixed `i`; the first `Nat` is the number of iterations left. -/
def exchange_inner {α : Type} (test : α → α → Bool) (dflt : α) (i : Nat) :
    Nat → Nat → List α → List α
  | 0, _, a => a
  | k + 1, j, a =>
    if test (a.getD j dflt) (a.getD i dflt) then
      let temp := a.getD i dflt
      let a1 := a.set i (a.getD j dflt)
      exchange_inner test dflt i k (j + 1) (a1.set j temp)
    else exchange_inner test dflt i k (j + 1) a

/-- The outer loop; the first `Nat` is the number of iterations left. -/
def exchange_outer {α : Type} (test : α → α → Bool) (dflt : α) (count : Nat) :
    Nat → Nat → List α → List α
  | 0, _, a => a
  | k + 1, i, a =>
    exchange_outer test dflt count k (i + 1)
      (exchange_inner test dflt i (count - (i + 1)) (i + 1) a)

/-- The two loops on the first `count` cells of `a`. -/
def exchange_sort {α : Type} (test : α → α → Bool) (dflt : α) (a : List α) (count : Nat) :
    List α :=
  exchange_outer test dflt count (count - 1) 0 a

/-! ## Building the measurement slots of the packet (`app_main`) -/

/-- One element of `packet.measurements`. -/
structure measurement_t where
  anchor_mac : List Nat
  distance_meters : ℚ
  variance : ℚ
  rssi : Int
  sample_count : Nat
  rtt_nanoseconds : Nat
  deriving DecidableEq, Repr

/-- A slot of `beacon_data_packet_t packet = {0}`. -/
def measurement_zero : measurement_t :=
  { anchor_mac := List.replicate 6 0, distance_meters := 0, variance := 0, rssi := 0,
    sample_count := 0, rtt_nanoseconds := 0 }

def ftm_result_zero : ftm_result_t :=
  { mac := List.replicate 6 0, distance := 0, variance := 0, rssi := 0, sample_count := 0,
    rtt_nanoseconds := 0 }

/-- The copy loop `for (i = 0; i < result_count; i++)` into `packet.measurements`;
`sample_count` is cast to `uint8_t`. -/
def fill_loop (final_ftm_results : List ftm_result_t) :
    Nat → Nat → List measurement_t → List measurement_t
  | 0, _, measurements => measurements
  | k + 1, i, measurements =>
    let r := final_ftm_results.getD i ftm_result_zero
    fill_loop final_ftm_results k (i + 1)
      (measurements.set i
        { anchor_mac := r.mac, distance_meters := r.distance, variance := r.variance,
          rssi := r.rssi, sample_count := Int.toNat (r.sample_count % 256),
          rtt_nanoseconds := r.rtt_nanoseconds })

/-- The array `final_ftm_results` after the sort by variance. -/
def sort_results (final_ftm_results : List ftm_result_t) : List ftm_result_t :=
  exchange_sort (fun a b => decide (a.variance < b.variance)) ftm_result_zero
    final_ftm_results final_ftm_results.length

/-- The part of `app_main` from `beacon_data_packet_t packet = {0}` to the end of the copy
loop: `none` when `final_ftm_count < 1` (deep sleep, nothing is sent), otherwise
`packet.measurements`.  `final_ftm_count` is the length of `final_ftm_results`. -/
def pack_measurements (final_ftm_results : List ftm_result_t) : Option (List measurement_t) :=
  let final_ftm_count := final_ftm_results.length
  if final_ftm_count < 1 then none
  else
    let sorted := sort_results final_ftm_results
    let result_count := if final_ftm_count < 3 then final_ftm_count else 3
    some (fill_loop sorted result_count 0 (List.replicate 3 measurement_zero))

/-! ## Sending with retry (`send_data_with_retry`) -/

def MAX_RETRY_ATTEMPTS : Nat := 3

/-- What one `esp_now_send` call brings: whether it returned `ESP_OK`, and the value of
`upload_successful` (reset before the call, set by `data_send_cb`) after the 100 ms wait. -/
structure SendOutcome where
  result_ok : Bool
  upload_successful : Bool
  deriving DecidableEq, Repr

/-- The loop `for (retry = 0; retry < MAX_RETRY_ATTEMPTS; retry++)` for one gateway:
whether it returned `ESP_OK` from inside, and the values of `retry` at which
`esp_now_send` was called, in order. -/
def retry_loop (send : Nat → SendOutcome) : Nat → Nat → Bool × List Nat
  | 0, _ => (false, [])
  | k + 1, retry =>
    let o := send retry
    if o.result_ok then
      if o.upload_successful then (true, [retry])
      else ((retry_loop send k (retry + 1)).1, retry :: (retry_loop send k (retry + 1)).2)
    else ((retry_loop send k (retry + 1)).1, retry :: (retry_loop send k (retry + 1)).2)

/-- The loop `for (gw = 0; gw < max_gateways; gw++)`.  `peer_exist gw` is the value of
`esp_now_is_peer_exist`, `add_ok gw` whether `esp_now_add_peer` returned `ESP_OK`,
`send gw retry` the outcome of the send.  Returns whether the function returned `ESP_OK`
and the pairs `(gw, retry)` of the sends made, in order. -/
def gateway_loop (peer_exist add_ok : Nat → Bool) (send : Nat → Nat → SendOutcome) :
    Nat → Nat → Bool × List (Nat × Nat)
  | 0, _ => (false, [])
  | k + 1, gw =>
    if !peer_exist gw && !add_ok gw then gateway_loop peer_exist add_ok send k (gw + 1)
    else
      let r := retry_loop (send gw) MAX_RETRY_ATTEMPTS 0
      if r.1 then (true, r.2.map (fun retry => (gw, retry)))
      else
        ((gateway_loop peer_exist add_ok send k (gw + 1)).1,
          r.2.map (fun retry => (gw, retry)) ++
            (gateway_loop peer_exist add_ok send k (gw + 1)).2)

/-- The return value (`err = true` is `ESP_OK`), the global `floor_list` on return, and
the sends made: `(gw, retry)` stands for a send to `floor_list[gw].gateway_mac`. -/
structure SendReturn where
  err : Bool
  floor_list : List floor_info_t
  sends : List (Nat × Nat)
  deriving DecidableEq, Repr

/-- The function `send_data_with_retry`.  The packet is passed through to the driver
unchanged and has no influence on the control flow. -/
def send_data_with_retry (s : FloorState) (peer_exist add_ok : Nat → Bool)
    (send : Nat → Nat → SendOutcome) : SendReturn :=
  let floor_list := exchange_sort (fun a b => decide (a.rssi > b.rssi)) floor_info_zero
    s.floor_list s.floor_count
  let max_gateways := if s.floor_count < 2 then s.floor_count else 2
  let r := gateway_loop peer_exist add_ok send max_gateways 0
  { err := r.1, floor_list := floor_list, sends := r.2 }

/-! ## The scan loop of `app_main` and the visits of the channel loop -/

/-- The fields of `wifi_ap_record_t` the scan loop reads; `ssid` is a NUL-terminated
byte array. -/
structure wifi_ap_record_t where
  bssid : List Nat
  ssid : List Nat
  primary : Nat
  rssi : Int
  deriving DecidableEq, Repr

/-- The constant `WIFI_SSID`: the bytes of `"Gateway_Network"`. -/
def WIFI_SSID : List Nat :=
  [71, 97, 116, 101, 119, 97, 121, 95, 78, 101, 116, 119, 111, 114, 107]

/-- The test `strcmp((char*)ssid, lit) == 0` for a literal `lit`. -/
def strcmp_zero (ssid lit : List Nat) : Bool :=
  ssid.takeWhile (fun b => b ≠ 0) = lit

/-- The search `for (j = 0; j < unique_channel_count; j++)` with its `break`. -/
def channel_search (primary : Nat) : List Nat → Bool
  | [] => false
  | c :: rest => if c = primary then true else channel_search primary rest

/-- The arrays `gateway_list` and `unique_channel_list`; each is filled by
`a[count++] = v` only, so the list is the filled part and its length the count. -/
structure ScanLists where
  gateway_list : List gateway_info_t
  unique_channel_list : List Nat
  deriving DecidableEq, Repr

/-- The loop `for (i = 0; i < ap_count; i++)` over the scan records. -/
def scan_loop : List wifi_ap_record_t → ScanLists → ScanLists
  | [], s => s
  | ap :: rest, s =>
    if strcmp_zero ap.ssid [71, 97, 116, 101, 119, 97, 121, 95, 78, 101, 116, 119, 111, 114, 107]
        || strcmp_zero ap.ssid WIFI_SSID then
      let gw : gateway_info_t := { mac := ap.bssid, channel := ap.primary, rssi := ap.rssi }
      let channel_exists := channel_search ap.primary s.unique_channel_list
      scan_loop rest
        { gateway_list := s.gateway_list ++ [gw],
          unique_channel_list :=
            if !channel_exists then s.unique_channel_list ++ [ap.primary]
            else s.unique_channel_list }
    else scan_loop rest s

/-- The two lists after the scan. -/
def scan_gateways (ap_records : List wifi_ap_record_t) : ScanLists :=
  scan_loop ap_records { gateway_list := [], unique_channel_list := [] }

/-- The gateway loop of one channel iteration, as far as the `continue` test goes: the
pairs `(ch_idx, gw_idx)` for which the body runs past it and ranges the gateway. -/
def range_visits (current_channel ch_idx : Nat) : List gateway_info_t → Nat → List (Nat × Nat)
  | [], _ => []
  | gw :: rest, gw_idx =>
    if gw.channel ≠ current_channel then range_visits current_channel ch_idx rest (gw_idx + 1)
    else (ch_idx, gw_idx) :: range_visits current_channel ch_idx rest (gw_idx + 1)

/-- The channel loop: the gateways ranged, in order, as pairs `(ch_idx, gw_idx)`. -/
def sweep_visits (gateway_list : List gateway_info_t) : List Nat → Nat → List (Nat × Nat)
  | [], _ => []
  | current_channel :: rest, ch_idx =>
    range_visits current_channel ch_idx gateway_list 0 ++ sweep_visits gateway_list rest (ch_idx + 1)

end Beacon

namespace Gateway

/-! ## Kalman filter of `gateway/main/main.c` -/

structure kalman_filter_state_t where
  x : ℚ
  P : ℚ
  Q : ℚ
  R : ℚ
  last_update_time : Nat
  initialized : Bool
  deriving DecidableEq, Repr

/-- The function `kalman_filter_init`; `now` is `xTaskGetTickCount() * portTICK_PERIOD_MS`. -/
def kalman_filter_init (kf : kalman_filter_state_t) (initial_value initial_variance : ℚ)
    (now : Nat) : kalman_filter_state_t :=
  let kf := { kf with x := initial_value }
  let kf := { kf with P := initial_variance }
  let kf := { kf with Q := 0.05 }
  let kf := { kf with R := 0.0 }
  let kf := { kf with last_update_time := now % 2 ^ 32 }
  { kf with initialized := true }

/-- The function `kalman_filter_update`: the returned value and the state on return.
The gain `P_pred / (P_pred + kf->R)` is a quotient of rationals: when `P_pred + kf->R` is
zero it has no value (the C code then stores and returns a NaN or an infinity), and the
result is `none`. -/
def kalman_filter_update (kf : kalman_filter_state_t)
    (measurement measurement_variance dt : ℚ) (now : Nat) : Option (ℚ × kalman_filter_state_t) :=
  if !kf.initialized then some (measurement, kf)
  else
    let x_pred := kf.x
    let P_pred := kf.P + kf.Q * dt
    let kf := { kf with R := measurement_variance }
    if P_pred + kf.R = 0 then none
    else
      let K := P_pred / (P_pred + kf.R)
      let kf := { kf with x := x_pred + K * (measurement - x_pred) }
      let kf := { kf with P := (1.0 - K) * P_pred }
      let kf := { kf with last_update_time := now % 2 ^ 32 }
      some (kf.x, kf)

/-- The assignments of `kalman_filter_update` written as expressions in `ℚ`, without the
test of the divisor: the pair `kalman_filter_update` returns whenever it returns one
(`kalman_update_exact_eq`).  It serves to name that pair in statements. -/
def kalman_update_values (kf : kalman_filter_state_t) (measurement measurement_variance dt : ℚ)
    (now : Nat) : ℚ × kalman_filter_state_t :=
  if !kf.initialized then (measurement, kf)
  else
    let x_pred := kf.x
    let P_pred := kf.P + kf.Q * dt
    let kf := { kf with R := measurement_variance }
    let K := P_pred / (P_pred + kf.R)
    let kf := { kf with x := x_pred + K * (measurement - x_pred) }
    let kf := { kf with P := (1.0 - K) * P_pred }
    let kf := { kf with last_update_time := now % 2 ^ 32 }
    (kf.x, kf)

/-- The filter step of `data_relay_task` on a found entry: initialise on the first
observation, update otherwise.  `now` is the tick time read by the relay, `now1` the
one read inside the filter function.  `none` when the update has no value. -/
def relay_filter (kf : kalman_filter_state_t) (distance_meters variance : ℚ) (now now1 : Nat) :
    Option (ℚ × kalman_filter_state_t) :=
  if !kf.initialized then
    let kf := kalman_filter_init kf distance_meters variance now1
    some (kf.x, kf)
  else
    let current_time := now % 2 ^ 32
    let dt : ℚ :=
      (((current_time + 2 ^ 32 - kf.last_update_time % 2 ^ 32) % 2 ^ 32 : Nat) : ℚ) / 1000.0
    kalman_filter_update kf distance_meters variance dt now1

/-- The local `K` of `kalman_filter_update` on an initialized state:
`P_pred / (P_pred + kf->R)` with `P_pred = kf->P + kf->Q * dt`, `kf->R = measurement_variance`. -/
def kalman_gain (kf : kalman_filter_state_t) (measurement_variance dt : ℚ) : ℚ :=
  let P_pred := kf.P + kf.Q * dt
  P_pred / (P_pred + measurement_variance)

/-- The byte `floor_broadcast_task` sends: `(int8_t)my_floor_number`, read by the
receiver as `uint8_t`. -/
def floor_broadcast_byte (my_floor_number : Int) : Nat :=
  Int.toNat (my_floor_number % 256)

/-- Successive `kalman_filter_update` calls on one state with the same measurement `z`;
each step gives the measurement variance, the interval `dt` and the tick time.  `none` as
soon as one update has no value. -/
def kalman_run (kf : kalman_filter_state_t) (z : ℚ) :
    List (ℚ × ℚ × Nat) → Option kalman_filter_state_t
  | [] => some kf
  | (v, dt, now) :: rest =>
    match kalman_filter_update kf z v dt now with
    | none => none
    | some r => kalman_run r.2 z rest

/-- The states of such a run written with `kalman_update_values`: the state `kalman_run`
returns whenever it returns one. -/
def kalman_run_values (kf : kalman_filter_state_t) (z : ℚ) :
    List (ℚ × ℚ × Nat) → kalman_filter_state_t
  | [] => kf
  | (v, dt, now) :: rest => kalman_run_values (kalman_update_values kf z v dt now).2 z rest

/-- The filter states the code can hold once the flag is set: `kalman_filter_init`, the
only code that sets `initialized`, builds one, and `kalman_filter_update` turns one into
another. -/
inductive kalman_reachable : kalman_filter_state_t → Prop
  | init (kf : kalman_filter_state_t) (initial_value initial_variance : ℚ) (now : Nat) :
      kalman_reachable (kalman_filter_init kf initial_value initial_variance now)
  | update (kf : kalman_filter_state_t) (measurement measurement_variance dt : ℚ) (now : Nat)
      (r : ℚ × kalman_filter_state_t) :
      kalman_reachable kf →
      kalman_filter_update kf measurement measurement_variance dt now = some r →
      kalman_reachable r.2

/-! ## The per-link table of `gateway/main/main.c` -/

def MAX_BEACONS : Nat := 10
def MAX_ANCHORS_PER_BEACON : Nat := 6
def BEACON_TIMEOUT_MS : Nat := 60000

/-- The struct `beacon_anchor_entry_t`: `serial_number` is the `char[10]` array and
`anchor_mac` the `uint8_t[6]` array, as lists of bytes. -/
structure beacon_anchor_entry_t where
  serial_number : List Nat
  anchor_mac : List Nat
  kf_state : kalman_filter_state_t
  last_seen : Nat
  deriving DecidableEq, Repr

/-- A zero-filled entry, as static storage is before it is written. -/
def entry_zero : beacon_anchor_entry_t :=
  { serial_number := List.replicate 10 0, anchor_mac := List.replicate 6 0,
    kf_state := { x := 0, P := 0, Q := 0, R := 0, last_update_time := 0, initialized := false },
    last_seen := 0 }

/-- The globals `beacon_anchor_states` (the whole array) and `beacon_anchor_count`. -/
structure Table where
  beacon_anchor_states : List beacon_anchor_entry_t
  beacon_anchor_count : Nat
  deriving DecidableEq, Repr

/-- The table at start-up: sixty zero-filled slots, none in use. -/
def Table.init : Table :=
  { beacon_anchor_states := List.replicate (MAX_BEACONS * MAX_ANCHORS_PER_BEACON) entry_zero,
    beacon_anchor_count := 0 }

/-- The C string found at a `char` pointer: the bytes in memory from the pointer on, up
to the first NUL. -/
def c_str (mem : List Nat) : List Nat :=
  mem.takeWhile (fun b => b ≠ 0)

/-- The test `strcmp(a, b) == 0`. -/
def strcmp_eq (a b : List Nat) : Bool :=
  c_str a = c_str b

/-- The test `memcmp(a, b, n) == 0`. -/
def memcmp_eq (a b : List Nat) (n : Nat) : Bool :=
  a.take n = b.take n

/-- The call `strncpy(dst, src, n)`: at most `n` bytes of the string at `src`, padded
with NULs up to `n`; the bytes of `dst` from `n` on are not touched. -/
def strncpy (dst src : List Nat) (n : Nat) : List Nat :=
  (c_str src).take n ++ List.replicate (n - ((c_str src).take n).length) 0 ++ dst.drop n

/-- The call `memcpy(dst, src, n)` on byte arrays. -/
def memcpy (dst src : List Nat) (n : Nat) : List Nat :=
  src.take n ++ dst.drop n

/-- The condition of the search loop:
`strcmp(e.serial_number, serial_number) == 0 && memcmp(e.anchor_mac, anchor_mac, 6) == 0`. -/
def entry_matches (e : beacon_anchor_entry_t) (serial_number anchor_mac : List Nat) : Bool :=
  strcmp_eq e.serial_number serial_number && memcmp_eq e.anchor_mac anchor_mac 6

/-- The stored key of an entry: its serial as a C string and the six bytes of its MAC. -/
def entry_key (e : beacon_anchor_entry_t) : List Nat × List Nat :=
  (c_str e.serial_number, e.anchor_mac.take 6)

/-- The search loop of `find_or_create_entry`: the index of the first slot below
`beacon_anchor_count` whose serial and MAC match, if there is one. -/
def find_loop (states : List beacon_anchor_entry_t) (serial_number anchor_mac : List Nat) :
    Nat → Nat → Option Nat
  | 0, _ => none
  | k + 1, i =>
    if entry_matches (states.getD i entry_zero) serial_number anchor_mac = true then some i
    else find_loop states serial_number anchor_mac k (i + 1)

/-- The block that fills slot `beacon_anchor_count` (it occurs twice in
`find_or_create_entry`): `strncpy` of `sizeof(serial_number) - 1 = 9` bytes, `memcpy` of
the MAC, `last_seen`, `kf_state.initialized = false`, then the count is incremented.  The
other fields of the slot keep what they held. -/
def create_entry (t : Table) (serial_number anchor_mac : List Nat) (current_time : Nat) :
    Option Nat × Table :=
  let entry := t.beacon_anchor_states.getD t.beacon_anchor_count entry_zero
  let entry := { entry with serial_number := strncpy entry.serial_number serial_number 9 }
  let entry := { entry with anchor_mac := memcpy entry.anchor_mac anchor_mac 6 }
  let entry := { entry with last_seen := current_time }
  let entry := { entry with kf_state := { entry.kf_state with initialized := false } }
  (some t.beacon_anchor_count,
   { beacon_anchor_states := t.beacon_anchor_states.set t.beacon_anchor_count entry,
     beacon_anchor_count := t.beacon_anchor_count + 1 })

/-- The test `current_time - last_seen < BEACON_TIMEOUT_MS` in `uint32_t` arithmetic. -/
def is_fresh (current_time : Nat) (e : beacon_anchor_entry_t) : Bool :=
  (current_time + 2 ^ 32 - e.last_seen % 2 ^ 32) % 2 ^ 32 < BEACON_TIMEOUT_MS

/-- The compaction loop of `cleanup_old_entries`, with `read_idx` and `write_idx`. -/
def cleanup_loop (current_time : Nat) :
    Nat → Nat → Nat → List beacon_anchor_entry_t → List beacon_anchor_entry_t × Nat
  | 0, _, write_idx, states => (states, write_idx)
  | k + 1, read_idx, write_idx, states =>
    if is_fresh current_time (states.getD read_idx entry_zero) = true then
      cleanup_loop current_time k (read_idx + 1) (write_idx + 1)
        (if write_idx ≠ read_idx then states.set write_idx (states.getD read_idx entry_zero)
         else states)
    else cleanup_loop current_time k (read_idx + 1) write_idx states

/-- The function `cleanup_old_entries`; `now` is the tick time it reads. -/
def cleanup_old_entries (t : Table) (now : Nat) : Table :=
  let current_time := now % 2 ^ 32
  let r := cleanup_loop current_time t.beacon_anchor_count 0 0 t.beacon_anchor_states
  { beacon_anchor_states := r.1, beacon_anchor_count := r.2 }

/-- The function `find_or_create_entry`: the returned pointer as a slot index (`none` is
`NULL`) and the table on return.  `serial_number` is the memory at the `char` pointer,
`now` the tick time read on entry, `now1` the one read by `cleanup_old_entries`. -/
def find_or_create_entry (t : Table) (serial_number anchor_mac : List Nat) (now now1 : Nat) :
    Option Nat × Table :=
  let current_time := now % 2 ^ 32
  match find_loop t.beacon_anchor_states serial_number anchor_mac t.beacon_anchor_count 0 with
  | some i =>
    let entry := t.beacon_anchor_states.getD i entry_zero
    let states := t.beacon_anchor_states.set i { entry with last_seen := current_time }
    (some i, { t with beacon_anchor_states := states })
  | none =>
    if t.beacon_anchor_count < MAX_BEACONS * MAX_ANCHORS_PER_BEACON then
      create_entry t serial_number anchor_mac current_time
    else
      let t := cleanup_old_entries t now1
      if t.beacon_anchor_count < MAX_BEACONS * MAX_ANCHORS_PER_BEACON then
        create_entry t serial_number anchor_mac current_time
      else (none, t)

/-- The filter part of `data_relay_task` for one valid measurement slot: the reported
`filtered_distance` and the table afterwards (`none` when the filter update has no value).  `now`, `now1` are the tick times read by
`find_or_create_entry` and `cleanup_old_entries`, `now2` the one read by the relay and
`now3` the one read inside the filter function. -/
def relay_measurement (t : Table) (serial_number anchor_mac : List Nat)
    (distance_meters variance : ℚ) (now now1 now2 now3 : Nat) : Option (ℚ × Table) :=
  let r := find_or_create_entry t serial_number anchor_mac now now1
  match r.1 with
  | some i =>
    let entry := r.2.beacon_anchor_states.getD i entry_zero
    match relay_filter entry.kf_state distance_meters variance now2 now3 with
    | some f =>
      let states := r.2.beacon_anchor_states.set i { entry with kf_state := f.2 }
      some (f.1, { r.2 with beacon_anchor_states := states })
    | none => none
  | none => some (distance_meters, r.2)

/-- Sample data: a table whose sixty slots are all in use, slot `k` holding the serial
`"S-"` followed by the two decimal digits of `k`, the MAC `02:00:00:00:00:k`, an
uninitialised filter and the given `last_seen`. -/
def full_table (last_seen : Nat) : Table :=
  { beacon_anchor_states := (List.range 60).map (fun k =>
      { serial_number := [83, 45, 48 + k / 10, 48 + k % 10, 0, 0, 0, 0, 0, 0],
        anchor_mac := [2, 0, 0, 0, 0, k],
        kf_state := entry_zero.kf_state,
        last_seen := last_seen }),
    beacon_anchor_count := 60 }

/-- The table invariant: at most sixty of the sixty slots in use, the tenth byte of every
`serial_number` array is NUL, and no two entries in use have the same stored key. -/
def Table.wf (t : Table) : Prop :=
  t.beacon_anchor_count ≤ 60 ∧ t.beacon_anchor_states.length = 60 ∧
  (∀ e ∈ t.beacon_anchor_states, c_str (e.serial_number.drop 9) = []) ∧
  ((t.beacon_anchor_states.take t.beacon_anchor_count).map entry_key).Nodup

/-- A sequence of `find_or_create_entry` calls, each with its key and the two tick
times. -/
def table_run (t : Table) : List (List Nat × List Nat × Nat × Nat) → Table
  | [] => t
  | (serial_number, anchor_mac, now, now1) :: rest =>
    table_run (find_or_create_entry t serial_number anchor_mac now now1).2 rest

end Gateway

namespace Beacon

theorem compare_floats_le_iff (a b : ℚ) : compare_floats a b ≤ 0 ↔ a ≤ b := by
  unfold compare_floats
  rcases lt_trichotomy a b with h | h | h
  · simp [h, not_lt.mpr h.le, h.le]
  · subst h; simp
  · simp [h, not_lt.mpr h.le]

theorem qsort_sorted (l : List ℚ) : (qsort compare_floats l).Sorted (· ≤ ·) := by
  unfold qsort
  have inst1 : IsTotal ℚ (fun a b => compare_floats a b ≤ 0) :=
    ⟨fun a b => by simp only [compare_floats_le_iff]; exact le_total a b⟩
  have inst2 : IsTrans ℚ (fun a b => compare_floats a b ≤ 0) :=
    ⟨fun a b c => by simp only [compare_floats_le_iff]; exact le_trans⟩
  have h := List.sorted_insertionSort (fun a b : ℚ => compare_floats a b ≤ 0) l
  exact List.Pairwise.imp (fun {a b} hab => (compare_floats_le_iff a b).mp hab) h

theorem qsort_perm (l : List ℚ) : (qsort compare_floats l).Perm l :=
  List.perm_insertionSort _ l

theorem qsort_length (l : List ℚ) : (qsort compare_floats l).length = l.length :=
  (qsort_perm l).length_eq

/-- The sorted array is determined by the input: it is the ascending arrangement. -/
theorem qsort_eq_of_sorted_perm {s l : List ℚ} (hs : s.Sorted (· ≤ ·)) (hp : s.Perm l) :
    qsort compare_floats l = s :=
  List.eq_of_perm_of_sorted ((qsort_perm l).trans hp.symm) (qsort_sorted l) hs

theorem getD_eq_of_getElem? {l : List ℚ} {i : Nat} {a : ℚ} (h : l[i]? = some a) :
    l.getD i 0 = a := by
  simp [List.getD, h]


theorem take_set_succ (a : ℚ) : ∀ (l : List ℚ) (n : Nat), n < l.length →
    (l.set n a).take (n + 1) = l.take n ++ [a]
  | [], _, h => by simp at h
  | x :: l, 0, _ => by simp
  | x :: l, n + 1, h => by
    have h1 : n < l.length := by simpa using h
    simp [take_set_succ a l n h1]

theorem iqr_loop_spec (lo hi : ℚ) : ∀ (k i nc : Nat) (data : List ℚ), nc ≤ i →
    i + k ≤ data.length →
    (iqr_loop lo hi k i nc data).1.take (iqr_loop lo hi k i nc data).2
        = data.take nc ++ ((data.drop i).take k).filter (fun x => decide (x ≥ lo ∧ x ≤ hi)) ∧
    (iqr_loop lo hi k i nc data).2
        = nc + (((data.drop i).take k).filter (fun x => decide (x ≥ lo ∧ x ≤ hi))).length ∧
    (iqr_loop lo hi k i nc data).1.length = data.length := by
  intro k
  induction k with
  | zero => intro i nc data _ _; simp [iqr_loop]
  | succ k ih =>
    intro i nc data hnc hik
    have hi1 : i < data.length := by omega
    have hget : data.getD i 0 = data[i] := List.getD_eq_getElem _ _ hi1
    have hdrop : (data.drop i).take (k + 1) = data[i] :: (data.drop (i + 1)).take k := by
      rw [List.drop_eq_getElem_cons hi1, List.take_succ_cons]
    rw [iqr_loop, hget, hdrop]
    by_cases hp : data[i] ≥ lo ∧ data[i] ≤ hi
    · rw [if_pos hp]
      have hlen : (data.set nc data[i]).length = data.length := List.length_set _ _ _
      obtain ⟨h1, h2, h3⟩ := ih (i + 1) (nc + 1) (data.set nc data[i]) (by omega) (by omega)
      have hd : (data.set nc data[i]).drop (i + 1) = data.drop (i + 1) :=
        List.drop_set_of_lt _ _ (by omega)
      have ht : (data.set nc data[i]).take (nc + 1) = data.take nc ++ [data[i]] :=
        take_set_succ _ _ _ (by omega)
      rw [hd] at h1 h2
      rw [ht] at h1
      refine ⟨?_, ?_, ?_⟩
      · rw [h1, List.filter_cons_of_pos (by simpa using hp)]; simp
      · rw [h2, List.filter_cons_of_pos (by simpa using hp)]; simp; omega
      · rw [h3, hlen]
    · rw [if_neg hp]
      obtain ⟨h1, h2, h3⟩ := ih (i + 1) nc data (by omega) (by omega)
      refine ⟨?_, ?_, h3⟩
      · rw [h1, List.filter_cons_of_neg (by simpa using hp)]
      · rw [h2, List.filter_cons_of_neg (by simpa using hp)]


theorem remove_outliers_iqr_take (data : List ℚ) (count : Nat) (h4 : 4 ≤ count)
    (hlen : count ≤ data.length) (s : List ℚ) (hs : s = qsort compare_floats (data.take count)) :
    (remove_outliers_iqr data count).1.take (remove_outliers_iqr data count).2
      = (data.take count).filter (fun x => decide
          (x ≥ s.getD (count / 4) 0 - 1.5 * (s.getD (3 * count / 4) 0 - s.getD (count / 4) 0) ∧
           x ≤ s.getD (3 * count / 4) 0 + 1.5 * (s.getD (3 * count / 4) 0 - s.getD (count / 4) 0))) ∧
    (remove_outliers_iqr data count).2
      = ((data.take count).filter (fun x => decide
          (x ≥ s.getD (count / 4) 0 - 1.5 * (s.getD (3 * count / 4) 0 - s.getD (count / 4) 0) ∧
           x ≤ s.getD (3 * count / 4) 0 + 1.5 * (s.getD (3 * count / 4) 0 - s.getD (count / 4) 0)))).length ∧
    (remove_outliers_iqr data count).1.length = data.length := by
  subst hs
  have hnot : ¬ count < 4 := by omega
  unfold remove_outliers_iqr
  rw [if_neg hnot]
  obtain ⟨h1, h2, h3⟩ := iqr_loop_spec
    ((qsort compare_floats (data.take count)).getD (count / 4) 0 - 1.5 *
      ((qsort compare_floats (data.take count)).getD (3 * count / 4) 0 -
        (qsort compare_floats (data.take count)).getD (count / 4) 0))
    ((qsort compare_floats (data.take count)).getD (3 * count / 4) 0 + 1.5 *
      ((qsort compare_floats (data.take count)).getD (3 * count / 4) 0 -
        (qsort compare_floats (data.take count)).getD (count / 4) 0))
    count 0 0 data (le_refl 0) (by omega)
  simp only [List.drop_zero, List.take_zero, List.nil_append, Nat.zero_add] at h1 h2
  exact ⟨h1, h2, h3⟩

/-- C4: `remove_outliers_iqr` on the first `count` cells `xs` of an array: a no-op below four
values; otherwise, with `s` the ascending sort of `xs`, `Q1 = s[count/4]` and
`Q3 = s[3*count/4]`, the cells kept are exactly the elements of `xs` inside
`[Q1 - 1.5*IQR, Q3 + 1.5*IQR]`, in their original order, and the new count is their number. -/
theorem remove_outliers_iqr_spec (data : List ℚ) (count : Nat) (hlen : count ≤ data.length) :
    (count < 4 → remove_outliers_iqr data count = (data, count)) ∧
    (4 ≤ count → ∀ (s : List ℚ) (q1 q3 : ℚ), s.Sorted (· ≤ ·) → s.Perm (data.take count) →
      s[count / 4]? = some q1 → s[3 * count / 4]? = some q3 →
      (remove_outliers_iqr data count).1.take (remove_outliers_iqr data count).2
        = (data.take count).filter
            (fun x => decide (q1 - 1.5 * (q3 - q1) ≤ x ∧ x ≤ q3 + 1.5 * (q3 - q1))) ∧
      (remove_outliers_iqr data count).2
        = ((data.take count).filter
            (fun x => decide (q1 - 1.5 * (q3 - q1) ≤ x ∧ x ≤ q3 + 1.5 * (q3 - q1)))).length) := by
  constructor
  · intro h; simp [remove_outliers_iqr, h]
  · intro h4 s q1 q3 hs hp hq1 hq3
    have hq := (qsort_eq_of_sorted_perm hs hp).symm
    obtain ⟨h1, h2, _⟩ := remove_outliers_iqr_take data count h4 hlen s hq
    rw [getD_eq_of_getElem? hq1, getD_eq_of_getElem? hq3] at h1 h2
    exact ⟨h1, h2⟩

theorem remove_outliers_iqr_spec_witness :
    (remove_outliers_iqr [7, 100, 1, 2, 3, 4, 5, 6] 8).1.take
        (remove_outliers_iqr [7, 100, 1, 2, 3, 4, 5, 6] 8).2 = [7, 1, 2, 3, 4, 5, 6] ∧
    (remove_outliers_iqr [7, 100, 1, 2, 3, 4, 5, 6] 8).2 = 7 := by
  have h := (remove_outliers_iqr_spec [7, 100, 1, 2, 3, 4, 5, 6] 8 (by decide)).2 (by decide)
    [1, 2, 3, 4, 5, 6, 7, 100] 3 7 (by decide!) (by decide!) rfl rfl
  rw [h.1, h.2]
  decide!

/-- C5: `calculate_median` on the first `count > 0` cells `xs` of an array, with `s` the
ascending sort of `xs`: the result is `s[(count-1)/2]` for odd `count` and the mean of
`s[count/2 - 1]` and `s[count/2]` for even `count`; the array is left as it was. -/
theorem calculate_median_spec (data : List ℚ) (count : Nat) (s : List ℚ)
    (hpos : 0 < count) (hlen : count ≤ data.length)
    (hs : s.Sorted (· ≤ ·)) (hp : s.Perm (data.take count)) :
    (count % 2 = 1 → s[(count - 1) / 2]? = some (calculate_median data count)) ∧
    (count % 2 = 0 → ∃ a b, s[count / 2 - 1]? = some a ∧ s[count / 2]? = some b ∧
        calculate_median data count = (a + b) / 2) ∧
    (calculate_median_st data count).2 = data := by
  have hq := qsort_eq_of_sorted_perm hs hp
  have hsl : s.length = count := by
    rw [hp.length_eq, List.length_take]; omega
  have hne : count ≠ 0 := by omega
  refine ⟨?_, ?_, ?_⟩
  · intro hodd
    have hidx : (count - 1) / 2 = count / 2 := by omega
    have hlt : count / 2 < s.length := by omega
    have hne2 : ¬ count % 2 = 0 := by omega
    simp only [calculate_median, calculate_median_st, if_neg hne, hq, if_neg hne2, hidx]
    rw [List.getD_eq_getElem _ _ hlt, List.getElem?_eq_getElem hlt]
  · intro heven
    have hlt1 : count / 2 - 1 < s.length := by omega
    have hlt2 : count / 2 < s.length := by omega
    refine ⟨s[count / 2 - 1], s[count / 2], List.getElem?_eq_getElem hlt1,
      List.getElem?_eq_getElem hlt2, ?_⟩
    simp only [calculate_median, calculate_median_st, if_neg hne, hq, if_pos heven]
    rw [List.getD_eq_getElem _ _ hlt1, List.getD_eq_getElem _ _ hlt2]
  · simp [calculate_median_st]
    split <;> rfl

theorem calculate_median_spec_witness :
    calculate_median [5, 1, 3, 2, 9] 4 = 5 / 2 ∧ calculate_median [5, 1, 3, 2, 9] 3 = 3 := by
  obtain ⟨a, b, ha, hb, h⟩ := (calculate_median_spec [5, 1, 3, 2, 9] 4 [1, 2, 3, 5] (by decide)
    (by decide) (by decide!) (by decide!)).2.1 (by decide)
  have h3 := (calculate_median_spec [5, 1, 3, 2, 9] 3 [1, 3, 5] (by decide)
    (by decide) (by decide!) (by decide!)).1 (by decide)
  simp at ha hb h3
  subst ha hb
  exact ⟨by rw [h]; norm_num, h3.symm⟩

/-- The tests of the loop body on one entry: they pass exactly when `1000 ≤ rtt ≤ 333000`
and the calibrated distance `rtt * 1e-12 * 299792458 / 2 * 0.20` lies in `[0.15, 50.0]`,
the sample then being that distance; the tests `rtt == 0` and `rtt == UINT32_MAX` never
change the outcome of the validity test. -/
theorem ftm_sample_iff (rtt : Nat) :
    (∀ d : ℚ, ftm_sample rtt = some d ↔
      (1000 ≤ rtt ∧ rtt ≤ 333000 ∧ d = (rtt : ℚ) * 1e-12 * 299792458 / 2 * 0.20 ∧
        0.15 ≤ d ∧ d ≤ 50.0)) ∧
    ((ftm_sample rtt).isSome ↔
      (1000 ≤ rtt ∧ rtt ≤ 333000 ∧ 0.15 ≤ (rtt : ℚ) * 1e-12 * 299792458 / 2 * 0.20 ∧
        (rtt : ℚ) * 1e-12 * 299792458 / 2 * 0.20 ≤ 50.0)) ∧
    rtt_invalid rtt = decide (rtt < 1000 ∨ rtt > 333000) := by
  have hinv : rtt_invalid rtt = decide (rtt < 1000 ∨ rtt > 333000) := by
    unfold rtt_invalid UINT32_MAX
    by_cases h1 : rtt < 1000
    · simp [h1]
    · by_cases h2 : rtt > 333000
      · simp [h2]
      · have h3 : rtt ≠ 0 := by omega
        have h4 : rtt ≠ 4294967295 := by omega
        simp [h1, h2, h3, h4]
  have hd : dist_calibrated rtt = (rtt : ℚ) * 1e-12 * 299792458 / 2 * 0.20 := by
    unfold dist_calibrated FTM_CALIBRATION_FACTOR; norm_num
  refine ⟨?_, ?_, hinv⟩
  · intro d
    unfold ftm_sample
    rw [hinv, hd]
    by_cases h : rtt < 1000 ∨ rtt > 333000
    · simp only [h, decide_True, if_true]
      constructor
      · intro h0; cases h0
      · rintro ⟨h1, h2, -⟩; omega
    · have h1 : 1000 ≤ rtt := by omega
      have h2 : rtt ≤ 333000 := by omega
      simp only [h, decide_False, Bool.false_eq_true, if_false]
      split_ifs with hb
      · constructor
        · intro h0
          have h0 := Option.some.inj h0
          subst h0
          exact ⟨h1, h2, rfl, hb.1, hb.2⟩
        · rintro ⟨-, -, h3, -, -⟩; rw [h3]
      · constructor
        · intro h0; cases h0
        · rintro ⟨-, -, h3, h4, h5⟩
          subst h3
          exact absurd ⟨h4, h5⟩ hb
  · unfold ftm_sample
    rw [hinv, hd]
    by_cases h : rtt < 1000 ∨ rtt > 333000
    · simp only [h, decide_True, if_true]
      constructor
      · intro h0; cases h0
      · rintro ⟨h1, h2, -⟩; omega
    · have h1 : 1000 ≤ rtt := by omega
      have h2 : rtt ≤ 333000 := by omega
      simp only [h, decide_False, Bool.false_eq_true, if_false]
      split_ifs with hb
      · simp only [Option.isSome_some, true_iff]
        exact ⟨h1, h2, hb.1, hb.2⟩
      · simp only [Option.isSome_none, Bool.false_eq_true, false_iff]
        rintro ⟨-, -, h4, h5⟩
        exact hb ⟨h4, h5⟩


theorem collect_loop_spec (entries : List Nat) : ∀ (k i vc : Nat) (d : List ℚ), vc ≤ i →
    i + k ≤ entries.length → i + k ≤ d.length →
    (collect_loop entries k i vc d).1.take (collect_loop entries k i vc d).2
        = d.take vc ++ ((entries.drop i).take k).filterMap ftm_sample ∧
    (collect_loop entries k i vc d).2
        = vc + (((entries.drop i).take k).filterMap ftm_sample).length ∧
    (collect_loop entries k i vc d).1.length = d.length := by
  intro k
  induction k with
  | zero => intro i vc d _ _ _; simp [collect_loop]
  | succ k ih =>
    intro i vc d hvc hik hid
    have hi1 : i < entries.length := by omega
    have hget : entries.getD i 0 = entries[i] := List.getD_eq_getElem _ _ hi1
    have hdrop : (entries.drop i).take (k + 1) = entries[i] :: (entries.drop (i + 1)).take k := by
      rw [List.drop_eq_getElem_cons hi1, List.take_succ_cons]
    rw [collect_loop, hget, hdrop]
    cases hs : ftm_sample entries[i] with
    | none =>
      obtain ⟨h1, h2, h3⟩ := ih (i + 1) vc d (by omega) (by omega) (by omega)
      simp only [List.filterMap_cons, hs]
      exact ⟨h1, h2, h3⟩
    | some x =>
      have hlen : (d.set vc x).length = d.length := List.length_set _ _ _
      obtain ⟨h1, h2, h3⟩ := ih (i + 1) (vc + 1) (d.set vc x) (by omega) (by omega) (by omega)
      have ht : (d.set vc x).take (vc + 1) = d.take vc ++ [x] :=
        take_set_succ _ _ _ (by omega)
      rw [ht] at h1
      simp only [List.filterMap_cons, hs]
      refine ⟨?_, ?_, ?_⟩
      · rw [h1]; simp
      · rw [h2]; simp; omega
      · rw [h3, hlen]

theorem sum_sq_loop_spec (d : List ℚ) (m : ℚ) : ∀ (k i : Nat) (acc : ℚ), i + k ≤ d.length →
    sum_sq_loop d m k i acc = acc + (((d.drop i).take k).map (fun x => (x - m) ^ 2)).sum := by
  intro k
  induction k with
  | zero => intro i acc _; simp [sum_sq_loop]
  | succ k ih =>
    intro i acc hik
    have hi1 : i < d.length := by omega
    have hget : d.getD i 0 = d[i] := List.getD_eq_getElem _ _ hi1
    have hdrop : (d.drop i).take (k + 1) = d[i] :: (d.drop (i + 1)).take k := by
      rw [List.drop_eq_getElem_cons hi1, List.take_succ_cons]
    rw [sum_sq_loop, hget, hdrop, ih (i + 1) _ (by omega)]
    simp only [List.map_cons, List.sum_cons]
    ring

theorem calculate_median_take (data : List ℚ) (count : Nat) :
    calculate_median data count = calculate_median (data.take count) count := by
  simp only [calculate_median, calculate_median_st, List.take_take, min_self]
  split <;> rfl


theorem remove_outliers_iqr_prefix (data : List ℚ) (count : Nat) (h4 : 4 ≤ count)
    (hlen : count ≤ data.length) :
    (remove_outliers_iqr data count).1.take (remove_outliers_iqr data count).2
      = (remove_outliers_iqr (data.take count) count).1.take
          (remove_outliers_iqr (data.take count) count).2 ∧
    (remove_outliers_iqr data count).2 = (remove_outliers_iqr (data.take count) count).2 ∧
    (remove_outliers_iqr data count).2 ≤ (remove_outliers_iqr data count).1.length := by
  have hlen2 : count ≤ (data.take count).length := by rw [List.length_take]; omega
  have htt : (data.take count).take count = data.take count := by
    rw [List.take_take, min_self]
  obtain ⟨a1, a2, a3⟩ := remove_outliers_iqr_take data count h4 hlen _ rfl
  obtain ⟨b1, b2, _⟩ := remove_outliers_iqr_take (data.take count) count h4 hlen2
    (qsort compare_floats (data.take count)) (by rw [htt])
  rw [htt] at b1 b2
  refine ⟨a1.trans b1.symm, a2.trans b2.symm, ?_⟩
  rw [a2, a3]
  exact (List.length_filter_le _ _).trans ((List.length_take_le _ _).trans hlen)

/-- The array and count an attempt ends with hold exactly the surviving distances. -/
theorem survivors_in_buffer (entries : List Nat) :
    (if (collect_loop entries entries.length 0 0 (List.replicate entries.length 0)).2
          ≥ MIN_VALID_SAMPLES then
        remove_outliers_iqr
          (collect_loop entries entries.length 0 0 (List.replicate entries.length 0)).1
          (collect_loop entries entries.length 0 0 (List.replicate entries.length 0)).2
      else collect_loop entries entries.length 0 0 (List.replicate entries.length 0)).1.take
      (if (collect_loop entries entries.length 0 0 (List.replicate entries.length 0)).2
          ≥ MIN_VALID_SAMPLES then
        remove_outliers_iqr
          (collect_loop entries entries.length 0 0 (List.replicate entries.length 0)).1
          (collect_loop entries entries.length 0 0 (List.replicate entries.length 0)).2
      else collect_loop entries entries.length 0 0 (List.replicate entries.length 0)).2
      = surviving_distances entries ∧
    (if (collect_loop entries entries.length 0 0 (List.replicate entries.length 0)).2
          ≥ MIN_VALID_SAMPLES then
        remove_outliers_iqr
          (collect_loop entries entries.length 0 0 (List.replicate entries.length 0)).1
          (collect_loop entries entries.length 0 0 (List.replicate entries.length 0)).2
      else collect_loop entries entries.length 0 0 (List.replicate entries.length 0)).2
      = (surviving_distances entries).length ∧
    (surviving_distances entries).length ≤
      (if (collect_loop entries entries.length 0 0 (List.replicate entries.length 0)).2
          ≥ MIN_VALID_SAMPLES then
        remove_outliers_iqr
          (collect_loop entries entries.length 0 0 (List.replicate entries.length 0)).1
          (collect_loop entries entries.length 0 0 (List.replicate entries.length 0)).2
      else collect_loop entries entries.length 0 0
        (List.replicate entries.length 0)).1.length := by
  obtain ⟨c1, c2, c3⟩ := collect_loop_spec entries entries.length 0 0
    (List.replicate entries.length 0) (le_refl 0) (by omega) (by simp)
  simp only [List.drop_zero, List.take_zero, List.nil_append, Nat.zero_add,
    List.take_length] at c1 c2
  generalize collect_loop entries entries.length 0 0 (List.replicate entries.length 0) = c
    at c1 c2 c3
  obtain ⟨buf, n⟩ := c
  simp only at c1 c2 c3
  have hVlen : (List.filterMap ftm_sample entries).length ≤ entries.length :=
    List.length_filterMap_le _ _
  have hn : n ≤ buf.length := by rw [c2, c3, List.length_replicate]; exact hVlen
  unfold surviving_distances accepted_distances
  simp only
  by_cases h6 : n ≥ MIN_VALID_SAMPLES
  · have h6' : (List.filterMap ftm_sample entries).length ≥ MIN_VALID_SAMPLES := by
      rw [← c2]; exact h6
    have h4 : 4 ≤ n := by unfold MIN_VALID_SAMPLES at h6; omega
    obtain ⟨p1, p2, p3⟩ := remove_outliers_iqr_prefix buf n h4 hn
    rw [if_pos h6, if_pos h6']
    rw [c1] at p1 p2
    have hnn : remove_outliers_iqr (List.filterMap ftm_sample entries) n
        = remove_outliers_iqr (List.filterMap ftm_sample entries)
            (List.filterMap ftm_sample entries).length := by rw [← c2]
    rw [hnn] at p1 p2
    have hl : (List.take (remove_outliers_iqr (List.filterMap ftm_sample entries)
          (List.filterMap ftm_sample entries).length).2
        (remove_outliers_iqr (List.filterMap ftm_sample entries)
          (List.filterMap ftm_sample entries).length).1).length
        = (remove_outliers_iqr buf n).2 := by
      rw [← p1, List.length_take, min_eq_left p3]
    exact ⟨p1, hl.symm, by rw [hl]; exact p3⟩
  · have h6' : ¬ (List.filterMap ftm_sample entries).length ≥ MIN_VALID_SAMPLES := by
      rw [← c2]; exact h6
    rw [if_neg h6, if_neg h6']
    exact ⟨c1, c2, by rw [← c2]; exact hn⟩


/-- What `process_report` computes, in terms of the surviving distances. -/
theorem process_report_survivors (entries : List Nat) :
    (surviving_distances entries ≠ [] →
      process_report (some entries) =
        { result := true,
          attempt_distance :=
            calculate_median (surviving_distances entries) (surviving_distances entries).length,
          attempt_variance :=
            ((surviving_distances entries).map (fun d => (d - calculate_median
              (surviving_distances entries) (surviving_distances entries).length) ^ 2)).sum
              / (surviving_distances entries).length,
          attempt_valid_count := (surviving_distances entries).length }) ∧
    (surviving_distances entries = [] → (process_report (some entries)).result = false) := by
  by_cases hne : entries.length = 0
  · have he : entries = [] := List.length_eq_zero.mp hne
    subst he
    have hS : surviving_distances [] = [] := by
      simp [surviving_distances, accepted_distances, MIN_VALID_SAMPLES]
    constructor
    · intro h; exact absurd hS h
    · intro _; simp [process_report, Attempt.init]
  · obtain ⟨s1, s2, s3⟩ := survivors_in_buffer entries
    unfold process_report
    simp only [hne, if_false]
    generalize (if (collect_loop entries entries.length 0 0 (List.replicate entries.length 0)).2
          ≥ MIN_VALID_SAMPLES then
        remove_outliers_iqr
          (collect_loop entries entries.length 0 0 (List.replicate entries.length 0)).1
          (collect_loop entries entries.length 0 0 (List.replicate entries.length 0)).2
      else collect_loop entries entries.length 0 0 (List.replicate entries.length 0)) = f
      at s1 s2 s3 ⊢
    generalize surviving_distances entries = S at s1 s2 s3 ⊢
    constructor
    · intro hS
      have hpos : f.2 > 0 := by
        rw [s2]; exact List.length_pos.mpr hS
      rw [if_pos hpos]
      have hm : calculate_median f.1 f.2 = calculate_median S S.length := by
        rw [calculate_median_take, s1, s2]
      have hsum := sum_sq_loop_spec f.1 (calculate_median f.1 f.2) f.2 0 0
        (by rw [s2]; omega)
      simp only [List.drop_zero, zero_add] at hsum
      rw [hsum, s1, hm, s2]
    · intro hS
      have hz : ¬ f.2 > 0 := by rw [s2, hS]; simp
      rw [if_neg hz]
      simp [Attempt.init]

/-- C1: one ranging attempt on a report.  With `V` the accepted calibrated distances in
report order and `S` the result of `remove_outliers_iqr` on `V` when `|V| ≥ 6` (else
`S = V`): when `S` is non-empty the attempt succeeds with distance `calculate_median S`,
variance `Σ (d - median)² / |S|` and sample count `|S|`; when `S` is empty it fails. -/
theorem process_report_spec (entries : List Nat) :
    (surviving_distances entries ≠ [] →
      process_report (some entries) =
        { result := true,
          attempt_distance :=
            calculate_median (surviving_distances entries) (surviving_distances entries).length,
          attempt_variance :=
            ((surviving_distances entries).map (fun d => (d - calculate_median
              (surviving_distances entries) (surviving_distances entries).length) ^ 2)).sum
              / (surviving_distances entries).length,
          attempt_valid_count := (surviving_distances entries).length }) ∧
    (surviving_distances entries = [] → (process_report (some entries)).result = false) :=
  process_report_survivors entries

set_option maxRecDepth 100000 in
theorem process_report_spec_witness :
    process_report (some (List.replicate 24 40000))
      = { result := true, attempt_distance := 149896229 / 125000000, attempt_variance := 0,
          attempt_valid_count := 24 } ∧
    (1199 / 1000 : ℚ) < 149896229 / 125000000 ∧ (149896229 / 125000000 : ℚ) < 12 / 10 := by
  have hS : surviving_distances (List.replicate 24 40000)
      = List.replicate 24 (149896229 / 125000000) := by decide!
  have h := (process_report_spec (List.replicate 24 40000)).1 (by rw [hS]; decide)
  refine ⟨?_, by norm_num, by norm_num⟩
  rw [h, hS]
  decide!


theorem ftm_sample_bounds {rtt : Nat} {d : ℚ} (h : ftm_sample rtt = some d) :
    0.15 ≤ d ∧ d ≤ 50 := by
  unfold ftm_sample at h
  split_ifs at h with h1 h2
  have h := Option.some.inj h
  subst h
  exact ⟨h2.1, by have := h2.2; norm_num at this ⊢; exact this⟩

theorem accepted_bounds (entries : List Nat) :
    ∀ x ∈ accepted_distances entries, 0.15 ≤ x ∧ x ≤ 50 := by
  intro x hx
  unfold accepted_distances at hx
  obtain ⟨rtt, _, hr⟩ := List.mem_filterMap.mp hx
  exact ftm_sample_bounds hr

theorem surviving_subset (entries : List Nat) :
    ∀ x ∈ surviving_distances entries, x ∈ accepted_distances entries := by
  intro x hx
  unfold surviving_distances at hx
  simp only at hx
  split_ifs at hx with h6
  · have h4 : 4 ≤ (accepted_distances entries).length := by
      unfold MIN_VALID_SAMPLES at h6; omega
    obtain ⟨a1, _, _⟩ := remove_outliers_iqr_take (accepted_distances entries)
      (accepted_distances entries).length h4 (le_refl _) _ rfl
    rw [a1] at hx
    exact List.mem_of_mem_take (List.mem_filter.mp hx).1
  · exact hx

theorem calculate_median_between (data : List ℚ) (count : Nat) (lo hi : ℚ) (hpos : 0 < count)
    (hlen : count ≤ data.length) (hb : ∀ x ∈ data.take count, lo ≤ x ∧ x ≤ hi) :
    lo ≤ calculate_median data count ∧ calculate_median data count ≤ hi := by
  have hne : count ≠ 0 := by omega
  have hsl : (qsort compare_floats (data.take count)).length = count := by
    rw [qsort_length, List.length_take]; omega
  have hmem : ∀ i, i < count →
      lo ≤ (qsort compare_floats (data.take count)).getD i 0 ∧
      (qsort compare_floats (data.take count)).getD i 0 ≤ hi := by
    intro i hi1
    have hlt : i < (qsort compare_floats (data.take count)).length := by omega
    rw [List.getD_eq_getElem _ _ hlt]
    exact hb _ ((qsort_perm _).subset (List.getElem_mem hlt))
  simp only [calculate_median, calculate_median_st, if_neg hne]
  split_ifs with heven
  · obtain ⟨a1, a2⟩ := hmem (count / 2 - 1) (by omega)
    obtain ⟨b1, b2⟩ := hmem (count / 2) (by omega)
    constructor <;> linarith
  · exact hmem (count / 2) (by omega)

theorem sum_sq_bound (m lo hi : ℚ) (hm1 : lo ≤ m) (hm2 : m ≤ hi) : ∀ (S : List ℚ),
    (∀ x ∈ S, lo ≤ x ∧ x ≤ hi) →
    0 ≤ (S.map (fun d => (d - m) ^ 2)).sum ∧
    (S.map (fun d => (d - m) ^ 2)).sum ≤ S.length * (hi - lo) ^ 2
  | [], _ => by simp
  | x :: S, h => by
    obtain ⟨h1, h2⟩ := sum_sq_bound m lo hi hm1 hm2 S
      (fun y hy => h y (List.mem_cons_of_mem _ hy))
    obtain ⟨x1, x2⟩ := h x (List.mem_cons_self _ _)
    have hx : (x - m) ^ 2 ≤ (hi - lo) ^ 2 := by
      apply sq_le_sq'
      · linarith
      · linarith
    have hx0 : 0 ≤ (x - m) ^ 2 := sq_nonneg _
    simp only [List.map_cons, List.sum_cons, List.length_cons, Nat.cast_add, Nat.cast_one]
    constructor
    · linarith
    · linarith

/-- A successful attempt has at least one sample, a distance in `[0.15, 50]` and a variance
in `[0, 2500]`. -/
theorem process_report_bounds (d : Option (List Nat)) (h : (process_report d).result = true) :
    1 ≤ (process_report d).attempt_valid_count ∧
    0.15 ≤ (process_report d).attempt_distance ∧ (process_report d).attempt_distance ≤ 50 ∧
    0 ≤ (process_report d).attempt_variance ∧ (process_report d).attempt_variance ≤ 2500 := by
  cases d with
  | none => simp [process_report, Attempt.init] at h
  | some entries =>
    obtain ⟨p1, p2⟩ := process_report_survivors entries
    by_cases hS : surviving_distances entries = []
    · rw [p2 hS] at h; cases h
    · rw [p1 hS]
      simp only
      have hbS : ∀ x ∈ surviving_distances entries, (0.15 : ℚ) ≤ x ∧ x ≤ 50 :=
        fun x hx => accepted_bounds entries x (surviving_subset entries x hx)
      have hlen : 0 < (surviving_distances entries).length := List.length_pos.mpr hS
      obtain ⟨m1, m2⟩ := calculate_median_between (surviving_distances entries)
        (surviving_distances entries).length 0.15 50 hlen (le_refl _)
        (by rw [List.take_length]; exact hbS)
      obtain ⟨v1, v2⟩ := sum_sq_bound _ 0.15 50 m1 m2 (surviving_distances entries) hbS
      have hlenq : (0 : ℚ) < ((surviving_distances entries).length : ℚ) := by exact_mod_cast hlen
      refine ⟨hlen, m1, m2, div_nonneg v1 hlenq.le, ?_⟩
      rw [div_le_iff₀ hlenq]
      have : ((surviving_distances entries).length : ℚ) * (50 - 0.15) ^ 2
          ≤ 2500 * (surviving_distances entries).length := by
        nlinarith
      linarith

theorem run_attempt_bounds (o : DriverOutcome) (h : (run_attempt o).result = true) :
    1 ≤ (run_attempt o).attempt_valid_count ∧
    0.15 ≤ (run_attempt o).attempt_distance ∧ (run_attempt o).attempt_distance ≤ 50 ∧
    0 ≤ (run_attempt o).attempt_variance ∧ (run_attempt o).attempt_variance ≤ 2500 := by
  cases o with
  | report d => exact process_report_bounds d h
  | start_refused => simp [run_attempt, Attempt.init] at h
  | timeout => simp [run_attempt, Attempt.init] at h
  | failure_bit => simp [run_attempt, Attempt.init] at h


theorem ftm_loop_refused (pow : ℚ → ℚ → ℚ) (drv : Nat → DriverOutcome) (out : FtmOut)
    (k attempt : Nat) (best : Best) (h : drv attempt = .start_refused) :
    ftm_loop pow drv out (k + 1) attempt best
      = { err := true, out := fallback_out pow out, attempts := attempt + 1 } := by
  rw [ftm_loop, h]
  simp only [fallback_out]
  norm_num

theorem ftm_loop_started (pow : ℚ → ℚ → ℚ) (drv : Nat → DriverOutcome) (out : FtmOut)
    (k attempt : Nat) (best : Best) (h : drv attempt ≠ .start_refused) :
    ftm_loop pow drv out (k + 1) attempt best
      = if (run_attempt (drv attempt)).result = true ∧
            (run_attempt (drv attempt)).attempt_variance < best.best_variance then
          if (run_attempt (drv attempt)).attempt_variance < MAX_VARIANCE_THRESHOLD then
            { err := true, out := attempt_out (run_attempt (drv attempt)),
              attempts := attempt + 1 }
          else
            ftm_loop pow drv out k (attempt + 1)
              { final_result := true,
                best_distance := (run_attempt (drv attempt)).attempt_distance,
                best_variance := (run_attempt (drv attempt)).attempt_variance,
                best_valid_count := (run_attempt (drv attempt)).attempt_valid_count,
                best_rtt_ns := rtt_from_distance (run_attempt (drv attempt)).attempt_distance }
        else ftm_loop pow drv out k (attempt + 1) best := by
  rw [ftm_loop]
  cases hd : drv attempt with
  | start_refused => exact absurd hd h
  | timeout => simp [ftm_finish, attempt_out]
  | failure_bit => simp [ftm_finish, attempt_out]
  | report d => simp [ftm_finish, attempt_out]


theorem sentinel_iff (o : DriverOutcome) :
    ((run_attempt o).result = true ∧ (run_attempt o).attempt_variance < Best.init.best_variance)
      ↔ (run_attempt o).result = true := by
  constructor
  · exact fun h => h.1
  · intro h
    obtain ⟨_, _, _, _, hv⟩ := run_attempt_bounds o h
    refine ⟨h, ?_⟩
    simp only [Best.init]
    norm_num
    linarith

/-- The result of `perform_ftm_measurement` by cases on the outcomes of the two
iterations. -/
theorem perform_eq (pow : ℚ → ℚ → ℚ) (drv : Nat → DriverOutcome) (out : FtmOut) :
    perform_ftm_measurement pow drv out =
      if drv 0 = .start_refused then
        { err := true, out := fallback_out pow out, attempts := 1 }
      else if (run_attempt (drv 0)).result = true ∧
          (run_attempt (drv 0)).attempt_variance < MAX_VARIANCE_THRESHOLD then
        { err := true, out := attempt_out (run_attempt (drv 0)), attempts := 1 }
      else if drv 1 = .start_refused then
        { err := true, out := fallback_out pow out, attempts := 2 }
      else if (run_attempt (drv 0)).result = true then
        if (run_attempt (drv 1)).result = true ∧
            (run_attempt (drv 1)).attempt_variance < (run_attempt (drv 0)).attempt_variance then
          { err := true, out := attempt_out (run_attempt (drv 1)), attempts := 2 }
        else { err := true, out := attempt_out (run_attempt (drv 0)), attempts := 2 }
      else if (run_attempt (drv 1)).result = true then
        { err := true, out := attempt_out (run_attempt (drv 1)), attempts := 2 }
      else { err := false, out := out, attempts := 2 } := by
  unfold perform_ftm_measurement MAX_FTM_RETRY
  by_cases h0 : drv 0 = .start_refused
  · rw [ftm_loop_refused pow drv out 1 0 _ h0, if_pos h0]
  · rw [ftm_loop_started pow drv out 1 0 _ h0, if_neg h0]
    by_cases r0 : (run_attempt (drv 0)).result = true
    · rw [if_pos ((sentinel_iff _).mpr r0)]
      by_cases v0 : (run_attempt (drv 0)).attempt_variance < MAX_VARIANCE_THRESHOLD
      · rw [if_pos v0, if_pos ⟨r0, v0⟩]
      · rw [if_neg v0, if_neg (fun h => v0 h.2)]
        by_cases h1 : drv 1 = .start_refused
        · rw [ftm_loop_refused pow drv out 0 1 _ h1, if_pos h1]
        · rw [ftm_loop_started pow drv out 0 1 _ h1, if_neg h1, if_pos r0]
          simp only [ftm_loop, ftm_finish]
          by_cases c1 : (run_attempt (drv 1)).result = true ∧
              (run_attempt (drv 1)).attempt_variance < (run_attempt (drv 0)).attempt_variance
          · rw [if_pos c1, if_pos c1]
            simp [attempt_out]
          · rw [if_neg c1, if_neg c1]
            simp [attempt_out]
    · rw [if_neg (fun h => r0 h.1), if_neg (fun h => r0 h.1)]
      by_cases h1 : drv 1 = .start_refused
      · rw [ftm_loop_refused pow drv out 0 1 _ h1, if_pos h1]
      · rw [ftm_loop_started pow drv out 0 1 _ h1, if_neg h1, if_neg r0]
        simp only [ftm_loop, ftm_finish]
        by_cases r1 : (run_attempt (drv 1)).result = true
        · rw [if_pos ((sentinel_iff _).mpr r1), if_pos r1]
          simp [attempt_out]
        · rw [if_neg (fun h => r1 h.1), if_neg r1]
          simp [Best.init]


theorem attempt_failed_iff (o : DriverOutcome) :
    attempt_failed o ↔ o ≠ .start_refused ∧ (run_attempt o).result = false := by
  cases o with
  | start_refused => simp [attempt_failed]
  | timeout => simp [attempt_failed, run_attempt, Attempt.init]
  | failure_bit => simp [attempt_failed, run_attempt, Attempt.init]
  | report d =>
    cases d with
    | none => simp [attempt_failed, run_attempt, process_report, Attempt.init]
    | some entries =>
      obtain ⟨p1, p2⟩ := process_report_survivors entries
      simp only [attempt_failed, run_attempt, ne_eq, not_false_eq_true, true_and,
        reduceCtorEq]
      constructor
      · exact p2
      · intro h
        by_contra hS
        rw [p1 hS] at h
        cases h

theorem lt_two_cases {i : Nat} (h : i < 2) : i = 0 ∨ i = 1 := by omega

/-- What a successful `perform_ftm_measurement` leaves in the output cells. -/
theorem perform_out_bounds (pow : ℚ → ℚ → ℚ) (hpow : 0.15 ≤ pow 10 (3 / 2) ∧ pow 10 (3 / 2) ≤ 50)
    (drv : Nat → DriverOutcome) (out : FtmOut)
    (hok : (perform_ftm_measurement pow drv out).err = true) :
    0.15 ≤ (perform_ftm_measurement pow drv out).out.distance ∧
    (perform_ftm_measurement pow drv out).out.distance ≤ 50 ∧
    ((∀ i, i < (perform_ftm_measurement pow drv out).attempts → drv i ≠ .start_refused) →
      1 ≤ (perform_ftm_measurement pow drv out).out.valid_count) ∧
    ((∃ i, i < (perform_ftm_measurement pow drv out).attempts ∧ drv i = .start_refused) →
      (perform_ftm_measurement pow drv out).out.valid_count = out.valid_count ∧
      (perform_ftm_measurement pow drv out).out.distance = pow 10 (3 / 2) ∧
      (perform_ftm_measurement pow drv out).out.variance = 10) := by
  have key : ∀ a : Attempt, (a.result = true → 1 ≤ a.attempt_valid_count ∧
      0.15 ≤ a.attempt_distance ∧ a.attempt_distance ≤ 50 ∧
      0 ≤ a.attempt_variance ∧ a.attempt_variance ≤ 2500) → a.result = true →
      0.15 ≤ (attempt_out a).distance ∧ (attempt_out a).distance ≤ 50 ∧
      1 ≤ (attempt_out a).valid_count := by
    intro a hb hr
    obtain ⟨b1, b2, b3, _, _⟩ := hb hr
    exact ⟨b2, b3, by simp only [attempt_out]; exact_mod_cast b1⟩
  have k0 := key _ (run_attempt_bounds (drv 0))
  have k1 := key _ (run_attempt_bounds (drv 1))
  rw [perform_eq] at hok ⊢
  split_ifs at hok ⊢ with h0 c0 h1 r0 c1 r1
  · refine ⟨hpow.1, hpow.2, fun h => absurd h0 (h 0 (by simp)), fun _ => ⟨rfl, rfl, rfl⟩⟩
  · obtain ⟨b1, b2, b3⟩ := k0 c0.1
    refine ⟨b1, b2, fun _ => b3, ?_⟩
    rintro ⟨i, hi, hr⟩
    have hi0 : i = 0 := by simp only at hi; omega
    subst hi0; exact absurd hr h0
  · refine ⟨hpow.1, hpow.2, fun h => absurd h1 (h 1 (by simp)), fun _ => ⟨rfl, rfl, rfl⟩⟩
  · obtain ⟨b1, b2, b3⟩ := k1 c1.1
    refine ⟨b1, b2, fun _ => b3, ?_⟩
    rintro ⟨i, hi, hr⟩
    rcases lt_two_cases hi with rfl | rfl
    · exact absurd hr h0
    · exact absurd hr h1
  · obtain ⟨b1, b2, b3⟩ := k0 r0
    refine ⟨b1, b2, fun _ => b3, ?_⟩
    rintro ⟨i, hi, hr⟩
    rcases lt_two_cases hi with rfl | rfl
    · exact absurd hr h0
    · exact absurd hr h1
  · obtain ⟨b1, b2, b3⟩ := k1 r1
    refine ⟨b1, b2, fun _ => b3, ?_⟩
    rintro ⟨i, hi, hr⟩
    rcases lt_two_cases hi with rfl | rfl
    · exact absurd hr h0
    · exact absurd hr h1


theorem range_gateway_mem (pow : ℚ → ℚ → ℚ) (hpow : 0.15 ≤ pow 10 (3 / 2) ∧ pow 10 (3 / 2) ≤ 50)
    (gw : gateway_info_t) (drv : Nat → DriverOutcome) (stack : ℚ × ℚ)
    (final : List ftm_result_t) (o : ftm_result_t)
    (ho : o ∈ range_gateway pow gw drv stack final) :
    o ∈ final ∨ (0.15 ≤ o.distance ∧ o.distance ≤ 50 ∧
      (1 ≤ o.sample_count ∨
        (o.sample_count = 0 ∧ o.distance = pow 10 (3 / 2) ∧ o.variance = 10))) := by
  unfold range_gateway at ho
  simp only at ho
  split_ifs at ho with hok
  · rcases List.mem_append.mp ho with h | h
    · exact Or.inl h
    · right
      have ho1 := List.mem_singleton.mp h
      obtain ⟨b1, b2, b3, b4⟩ := perform_out_bounds pow hpow drv
        { distance := stack.1, variance := stack.2, valid_count := 0, rtt_ns := 0 } hok
      subst ho1
      refine ⟨b1, b2, ?_⟩
      by_cases hr : ∃ i, i < (perform_ftm_measurement pow drv
          { distance := stack.1, variance := stack.2, valid_count := 0, rtt_ns := 0 }).attempts ∧
          drv i = .start_refused
      · exact Or.inr (b4 hr)
      · left
        apply b3
        intro i hi hd
        exact hr ⟨i, hi, hd⟩
  · exact Or.inl ho

theorem range_all_mem (pow : ℚ → ℚ → ℚ) (hpow : 0.15 ≤ pow 10 (3 / 2) ∧ pow 10 (3 / 2) ≤ 50)
    (drv : Nat → Nat → DriverOutcome) (stack : Nat → ℚ × ℚ) (current_channel : Nat)
    (P : ftm_result_t → Prop)
    (hP : ∀ o, (0.15 ≤ o.distance ∧ o.distance ≤ 50 ∧
      (1 ≤ o.sample_count ∨
        (o.sample_count = 0 ∧ o.distance = pow 10 (3 / 2) ∧ o.variance = 10))) → P o) :
    ∀ (gws : List gateway_info_t) (gw_idx : Nat) (final : List ftm_result_t),
      (∀ o ∈ final, P o) →
      ∀ o ∈ range_all pow drv stack current_channel gws gw_idx final, P o
  | [], _, final, hf => by simpa [range_all] using hf
  | gw :: rest, gw_idx, final, hf => by
    unfold range_all
    split_ifs with hc
    · exact range_all_mem pow hpow drv stack current_channel P hP rest (gw_idx + 1) final hf
    · apply range_all_mem pow hpow drv stack current_channel P hP rest (gw_idx + 1)
      intro o ho
      rcases range_gateway_mem pow hpow gw (drv gw_idx) (stack gw_idx) final o ho with h | h
      · exact hf o h
      · exact hP o h

theorem channel_sweep_mem (pow : ℚ → ℚ → ℚ) (hpow : 0.15 ≤ pow 10 (3 / 2) ∧ pow 10 (3 / 2) ≤ 50)
    (drv : Nat → Nat → Nat → DriverOutcome) (stack : Nat → Nat → ℚ × ℚ)
    (gateway_list : List gateway_info_t) (P : ftm_result_t → Prop)
    (hP : ∀ o, (0.15 ≤ o.distance ∧ o.distance ≤ 50 ∧
      (1 ≤ o.sample_count ∨
        (o.sample_count = 0 ∧ o.distance = pow 10 (3 / 2) ∧ o.variance = 10))) → P o) :
    ∀ (chs : List Nat) (ch_idx : Nat) (final : List ftm_result_t),
      (∀ o ∈ final, P o) →
      ∀ o ∈ channel_sweep pow drv stack gateway_list chs ch_idx final, P o
  | [], _, final, hf => by simpa [channel_sweep] using hf
  | ch :: rest, ch_idx, final, hf => by
    unfold channel_sweep
    apply channel_sweep_mem pow hpow drv stack gateway_list P hP rest (ch_idx + 1)
    exact range_all_mem pow hpow (drv ch_idx) (stack ch_idx) ch P hP gateway_list 0 final hf

/-- C2 (amended): with a libm `pow` whose value at `(10, 1.5)` lies in `[0.15, 50]`, every
successful `perform_ftm_measurement` leaves `0.15 ≤ distance ≤ 50`; it leaves
`valid_count ≥ 1` when no session start was refused, and after a refused start it leaves
`valid_count` as the caller had it, with the fallback distance and variance `10`.  Hence
every observation `app_main` stores in `final_ftm_results` has `0.15 ≤ distance ≤ 50` and
either `sample_count ≥ 1` or the fallback values with `sample_count = 0`. -/
theorem recorded_observation_bounds (pow : ℚ → ℚ → ℚ)
    (hpow : 0.15 ≤ pow 10 (3 / 2) ∧ pow 10 (3 / 2) ≤ 50) :
    (∀ (drv : Nat → DriverOutcome) (out : FtmOut),
      (perform_ftm_measurement pow drv out).err = true →
      0.15 ≤ (perform_ftm_measurement pow drv out).out.distance ∧
      (perform_ftm_measurement pow drv out).out.distance ≤ 50 ∧
      ((∀ i, i < (perform_ftm_measurement pow drv out).attempts → drv i ≠ .start_refused) →
        1 ≤ (perform_ftm_measurement pow drv out).out.valid_count) ∧
      ((∃ i, i < (perform_ftm_measurement pow drv out).attempts ∧ drv i = .start_refused) →
        (perform_ftm_measurement pow drv out).out.valid_count = out.valid_count ∧
        (perform_ftm_measurement pow drv out).out.distance = pow 10 (3 / 2) ∧
        (perform_ftm_measurement pow drv out).out.variance = 10)) ∧
    (∀ (drv : Nat → Nat → Nat → DriverOutcome) (stack : Nat → Nat → ℚ × ℚ)
      (gateway_list : List gateway_info_t) (unique_channel_list : List Nat) (o : ftm_result_t),
      o ∈ channel_sweep pow drv stack gateway_list unique_channel_list 0 [] →
      0.15 ≤ o.distance ∧ o.distance ≤ 50 ∧
      (1 ≤ o.sample_count ∨
        (o.sample_count = 0 ∧ o.distance = pow 10 (3 / 2) ∧ o.variance = 10))) := by
  refine ⟨fun drv out hok => perform_out_bounds pow hpow drv out hok, ?_⟩
  intro drv stack gateway_list chs o ho
  exact channel_sweep_mem pow hpow drv stack gateway_list _ (fun _ h => h) chs 0 []
    (by simp) o ho


set_option maxRecDepth 100000 in
theorem recorded_observation_bounds_witness :
    (0.15 : ℚ) ≤ (perform_ftm_measurement (fun _ _ => 31.6227766)
      (fun n => if n = 0 then .report (some (List.replicate 24 40000)) else .timeout)
      { distance := 0, variance := 0, valid_count := 0, rtt_ns := 0 }).out.distance ∧
    (perform_ftm_measurement (fun _ _ => 31.6227766)
      (fun n => if n = 0 then .report (some (List.replicate 24 40000)) else .timeout)
      { distance := 0, variance := 0, valid_count := 0, rtt_ns := 0 }).out.distance ≤ 50 ∧
    1 ≤ (perform_ftm_measurement (fun _ _ => 31.6227766)
      (fun n => if n = 0 then .report (some (List.replicate 24 40000)) else .timeout)
      { distance := 0, variance := 0, valid_count := 0, rtt_ns := 0 }).out.valid_count := by
  obtain ⟨h1, h2, h3, _⟩ := (recorded_observation_bounds (fun _ _ => 31.6227766)
    (by norm_num)).1
    (fun n => if n = 0 then .report (some (List.replicate 24 40000)) else .timeout)
    { distance := 0, variance := 0, valid_count := 0, rtt_ns := 0 } (by decide!)
  refine ⟨h1, h2, h3 ?_⟩
  intro i _
  by_cases hi : i = 0 <;> simp [hi]

/-- C2 as stated fails: when the session start is refused, `app_main` records an
observation whose `sample_count` is `0`. -/
theorem recorded_observation_counterexample :
    ∃ o, o ∈ channel_sweep (fun _ _ => 31.6227766) (fun _ _ _ => .start_refused)
        (fun _ _ => (0, 0)) [{ mac := [170, 187, 204, 221, 238, 1], channel := 6, rssi := -58 }]
        [6] 0 [] ∧
      ¬ (0.15 ≤ o.distance ∧ o.distance ≤ 50 ∧ 1 ≤ o.sample_count) := by
  refine ⟨{ mac := [170, 187, 204, 221, 238, 1], distance := 31.6227766, variance := 10,
            rssi := -58, sample_count := 0, rtt_nanoseconds := 0 }, ?_, ?_⟩
  · have h : channel_sweep (fun _ _ => 31.6227766) (fun _ _ _ => .start_refused)
        (fun _ _ => (0, 0)) [{ mac := [170, 187, 204, 221, 238, 1], channel := 6, rssi := -58 }]
        [6] 0 []
        = [(⟨[170, 187, 204, 221, 238, 1], 31.6227766, 10, -58, 0, 0⟩ : ftm_result_t)] := by
      decide!
    rw [h]
    exact List.mem_singleton.mpr rfl
  · simp

/-- C6 (amended): when `perform_ftm_measurement` reports success and no session start was
refused in the attempts it performed, the distance, variance and sample count it reports
are those of a successful attempt `j` among the attempts performed whose variance is
lowest, and strictly lower than that of every earlier successful attempt. -/
theorem perform_reports_best (pow : ℚ → ℚ → ℚ) (drv : Nat → DriverOutcome) (out : FtmOut)
    (hstart : ∀ i, i < (perform_ftm_measurement pow drv out).attempts →
      drv i ≠ .start_refused)
    (hok : (perform_ftm_measurement pow drv out).err = true) :
    ∃ j, j < (perform_ftm_measurement pow drv out).attempts ∧
      (run_attempt (drv j)).result = true ∧
      (perform_ftm_measurement pow drv out).out.distance
        = (run_attempt (drv j)).attempt_distance ∧
      (perform_ftm_measurement pow drv out).out.variance
        = (run_attempt (drv j)).attempt_variance ∧
      (perform_ftm_measurement pow drv out).out.valid_count
        = (run_attempt (drv j)).attempt_valid_count ∧
      (∀ i, i < (perform_ftm_measurement pow drv out).attempts →
        (run_attempt (drv i)).result = true →
        (run_attempt (drv j)).attempt_variance ≤ (run_attempt (drv i)).attempt_variance) ∧
      (∀ i, i < j → (run_attempt (drv i)).result = true →
        (run_attempt (drv j)).attempt_variance < (run_attempt (drv i)).attempt_variance) := by
  rw [perform_eq] at hstart hok ⊢
  split_ifs at hstart hok ⊢ with h0 c0 h1 r0 c1 r1
  · exact absurd h0 (hstart 0 (by simp))
  · refine ⟨0, by simp, c0.1, rfl, rfl, rfl, ?_, ?_⟩
    · intro i hi _
      have hi0 : i = 0 := by simp only at hi; omega
      subst hi0; exact le_refl _
    · intro i hi; omega
  · exact absurd h1 (hstart 1 (by simp))
  · refine ⟨1, by simp, c1.1, rfl, rfl, rfl, ?_, ?_⟩
    · intro i hi _
      rcases lt_two_cases hi with rfl | rfl
      · exact c1.2.le
      · exact le_refl _
    · intro i hi _
      have hi0 : i = 0 := by omega
      subst hi0; exact c1.2
  · refine ⟨0, by simp, r0, rfl, rfl, rfl, ?_, ?_⟩
    · intro i hi hr
      rcases lt_two_cases hi with rfl | rfl
      · exact le_refl _
      · exact not_lt.mp (fun hlt => c1 ⟨hr, hlt⟩)
    · intro i hi; omega
  · refine ⟨1, by simp, r1, rfl, rfl, rfl, ?_, ?_⟩
    · intro i hi hr
      rcases lt_two_cases hi with rfl | rfl
      · exact absurd hr r0
      · exact le_refl _
    · intro i hi hr
      have hi0 : i = 0 := by omega
      subst hi0; exact absurd hr r0


theorem perform_reports_best_witness :
    ∃ j, j < (perform_ftm_measurement (fun _ _ => 31.6227766)
        (fun n => if n = 0 then .report (some [40000, 70000])
          else .report (some (List.replicate 24 40000)))
        { distance := 0, variance := 0, valid_count := 0, rtt_ns := 0 }).attempts ∧
      (run_attempt ((fun n => if n = 0 then DriverOutcome.report (some [40000, 70000])
          else .report (some (List.replicate 24 40000))) j)).result = true ∧
      (perform_ftm_measurement (fun _ _ => 31.6227766)
        (fun n => if n = 0 then .report (some [40000, 70000])
          else .report (some (List.replicate 24 40000)))
        { distance := 0, variance := 0, valid_count := 0, rtt_ns := 0 }).out.distance
        = (run_attempt ((fun n => if n = 0 then DriverOutcome.report (some [40000, 70000])
          else .report (some (List.replicate 24 40000))) j)).attempt_distance ∧
      (perform_ftm_measurement (fun _ _ => 31.6227766)
        (fun n => if n = 0 then .report (some [40000, 70000])
          else .report (some (List.replicate 24 40000)))
        { distance := 0, variance := 0, valid_count := 0, rtt_ns := 0 }).out.variance
        = (run_attempt ((fun n => if n = 0 then DriverOutcome.report (some [40000, 70000])
          else .report (some (List.replicate 24 40000))) j)).attempt_variance := by
  obtain ⟨j, h1, h2, h3, h4, _⟩ := perform_reports_best (fun _ _ => 31.6227766)
    (fun n => if n = 0 then .report (some [40000, 70000])
      else .report (some (List.replicate 24 40000)))
    { distance := 0, variance := 0, valid_count := 0, rtt_ns := 0 }
    (by intro i _; by_cases hi : i = 0 <;> simp [hi]) (by decide!)
  exact ⟨j, h1, h2, h3, h4⟩

/-- C6 as stated fails: a first attempt succeeds with variance about `0.2`, the second
session start is refused, and the call reports the fallback variance `10`, which is the
variance of no successful attempt. -/
theorem perform_reports_best_counterexample :
    (perform_ftm_measurement (fun _ _ => 31.6227766)
        (fun n => if n = 0 then .report (some [40000, 70000]) else .start_refused)
        { distance := 0, variance := 0, valid_count := 0, rtt_ns := 0 }).err = true ∧
    ¬ ∃ j, j < (perform_ftm_measurement (fun _ _ => 31.6227766)
        (fun n => if n = 0 then .report (some [40000, 70000]) else .start_refused)
        { distance := 0, variance := 0, valid_count := 0, rtt_ns := 0 }).attempts ∧
      (run_attempt ((fun n => if n = 0 then DriverOutcome.report (some [40000, 70000])
          else .start_refused) j)).result = true ∧
      (perform_ftm_measurement (fun _ _ => 31.6227766)
        (fun n => if n = 0 then .report (some [40000, 70000]) else .start_refused)
        { distance := 0, variance := 0, valid_count := 0, rtt_ns := 0 }).out.variance
        = (run_attempt ((fun n => if n = 0 then DriverOutcome.report (some [40000, 70000])
          else .start_refused) j)).attempt_variance := by
  decide!


/-- C7: `perform_ftm_measurement` enters at most `MAX_FTM_RETRY = 2` loop iterations, and
when the first attempt succeeds with variance below `0.10` it enters exactly one: it
reports that attempt, whatever the driver would have done in a second attempt. -/
theorem perform_attempts_spec (pow : ℚ → ℚ → ℚ) (drv : Nat → DriverOutcome) (out : FtmOut) :
    (perform_ftm_measurement pow drv out).attempts ≤ 2 ∧
    ((run_attempt (drv 0)).result = true →
      (run_attempt (drv 0)).attempt_variance < 0.10 →
      (perform_ftm_measurement pow drv out).attempts = 1 ∧
      (perform_ftm_measurement pow drv out).err = true ∧
      (perform_ftm_measurement pow drv out).out = attempt_out (run_attempt (drv 0)) ∧
      ∀ (pow1 : ℚ → ℚ → ℚ) (drv1 : Nat → DriverOutcome), drv1 0 = drv 0 →
        perform_ftm_measurement pow1 drv1 out = perform_ftm_measurement pow drv out) := by
  constructor
  · rw [perform_eq]
    split_ifs <;> simp
  · intro hr hv
    have h0 : drv 0 ≠ .start_refused := by
      intro h; rw [h] at hr; simp [run_attempt, Attempt.init] at hr
    have hc : (run_attempt (drv 0)).result = true ∧
        (run_attempt (drv 0)).attempt_variance < MAX_VARIANCE_THRESHOLD := ⟨hr, hv⟩
    have e : perform_ftm_measurement pow drv out
        = { err := true, out := attempt_out (run_attempt (drv 0)), attempts := 1 } := by
      rw [perform_eq, if_neg h0, if_pos hc]
    refine ⟨by rw [e], by rw [e], by rw [e], ?_⟩
    intro pow1 drv1 h1
    rw [e, perform_eq, h1, if_neg h0, if_pos hc]

theorem perform_attempts_spec_witness :
    (perform_ftm_measurement (fun _ _ => 31.6227766)
        (fun n => if n = 0 then .report (some [40000, 54917]) else .start_refused)
        { distance := 0, variance := 0, valid_count := 0, rtt_ns := 0 }).attempts = 1 ∧
    (perform_ftm_measurement (fun _ _ => 31.6227766)
        (fun n => if n = 0 then .report (some [40000, 54917]) else .start_refused)
        { distance := 0, variance := 0, valid_count := 0, rtt_ns := 0 }).out.variance
      = 4999705158628890275328049 / 100000000000000000000000000 ∧
    |(4999705158628890275328049 / 100000000000000000000000000 : ℚ) - 0.05| < 0.00001 := by
  have hv : (run_attempt ((fun n => if n = 0 then DriverOutcome.report (some [40000, 54917])
      else .start_refused) 0)).attempt_variance
      = 4999705158628890275328049 / 100000000000000000000000000 := by decide!
  obtain ⟨h1, _, h3, _⟩ := (perform_attempts_spec (fun _ _ => 31.6227766)
    (fun n => if n = 0 then .report (some [40000, 54917]) else .start_refused)
    { distance := 0, variance := 0, valid_count := 0, rtt_ns := 0 }).2 (by decide!)
    (by rw [hv]; norm_num)
  refine ⟨h1, ?_, ?_⟩
  · rw [h3]; exact hv
  · rw [abs_lt]; constructor <;> norm_num

/-- C8: `perform_ftm_measurement` returns failure exactly when in each of its two attempts
the session started and then timed out, reported failure, or left no surviving sample;
it then writes none of its output cells, and `app_main` appends nothing to
`final_ftm_results` for that gateway. -/
theorem perform_failure_iff (pow : ℚ → ℚ → ℚ) (drv : Nat → DriverOutcome) (out : FtmOut) :
    ((perform_ftm_measurement pow drv out).err = false ↔
      (attempt_failed (drv 0) ∧ attempt_failed (drv 1))) ∧
    ((perform_ftm_measurement pow drv out).err = false →
      (perform_ftm_measurement pow drv out).out = out) ∧
    ((attempt_failed (drv 0) ∧ attempt_failed (drv 1)) →
      ∀ (gw : gateway_info_t) (stack : ℚ × ℚ) (final_ftm_results : List ftm_result_t),
        range_gateway pow gw drv stack final_ftm_results = final_ftm_results) := by
  have hiff : ∀ out1 : FtmOut, (perform_ftm_measurement pow drv out1).err = false ↔
      (attempt_failed (drv 0) ∧ attempt_failed (drv 1)) := by
    intro out1
    rw [attempt_failed_iff, attempt_failed_iff, perform_eq]
    split_ifs with h0 c0 h1 r0 c1 r1
    · simp [h0]
    · simp [c0.1]
    · simp [h1]
    · simp [r0]
    · simp [r0]
    · simp [r1]
    · simp only [true_iff]
      exact ⟨⟨h0, by simpa using r0⟩, ⟨h1, by simpa using r1⟩⟩
  refine ⟨hiff out, ?_, ?_⟩
  · rw [perform_eq]
    split_ifs <;> simp
  · intro hf gw stack final
    have he := (hiff ⟨stack.1, stack.2, 0, 0⟩).mpr hf
    unfold range_gateway
    simp only [he, Bool.false_eq_true, if_false]

theorem perform_failure_iff_witness :
    range_gateway (fun _ _ => 31.6227766)
      { mac := [170, 187, 204, 221, 238, 1], channel := 6, rssi := -58 }
      (fun n => if n = 0 then .timeout else .report (some [999, 5003, 333001])) (7, 8) [] = [] ∧
    (perform_ftm_measurement (fun _ _ => 31.6227766)
      (fun n => if n = 0 then .timeout else .report (some [999, 5003, 333001]))
      { distance := 7, variance := 8, valid_count := 0, rtt_ns := 0 }).out
      = { distance := 7, variance := 8, valid_count := 0, rtt_ns := 0 } := by
  have hf : attempt_failed ((fun n => if n = 0 then DriverOutcome.timeout
        else .report (some [999, 5003, 333001])) 0) ∧
      attempt_failed ((fun n => if n = 0 then DriverOutcome.timeout
        else .report (some [999, 5003, 333001])) 1) := by
    refine ⟨trivial, ?_⟩
    show surviving_distances [999, 5003, 333001] = []
    decide!
  obtain ⟨h1, h2, h3⟩ := perform_failure_iff (fun _ _ => 31.6227766)
    (fun n => if n = 0 then .timeout else .report (some [999, 5003, 333001]))
    { distance := 7, variance := 8, valid_count := 0, rtt_ns := 0 }
  exact ⟨h3 hf _ _ _, h2 (h1.mpr hf)⟩

end Beacon

namespace Gateway

/-- C9 (amended): on an initialized state with `P + Q*dt + v ≠ 0`, `kalman_filter_update`
sets `R := v`, forms `P_pred = P + Q*dt` and `K = P_pred / (P_pred + v)`, sets
`x := x + K*(z - x)` and `P := (1 - K)*P_pred`, stamps the time, leaves `Q` and the flag as
they were and returns the new `x`; on a state that is not initialized it returns `z` and
changes nothing. -/
theorem kalman_filter_update_spec (kf : kalman_filter_state_t) (z v dt : ℚ) (now : Nat) :
    (kf.initialized = true → kf.P + kf.Q * dt + v ≠ 0 →
      kalman_filter_update kf z v dt now =
        some (kf.x + (kf.P + kf.Q * dt) / (kf.P + kf.Q * dt + v) * (z - kf.x),
         { x := kf.x + (kf.P + kf.Q * dt) / (kf.P + kf.Q * dt + v) * (z - kf.x),
           P := (1 - (kf.P + kf.Q * dt) / (kf.P + kf.Q * dt + v)) * (kf.P + kf.Q * dt),
           Q := kf.Q,
           R := v,
           last_update_time := now % 2 ^ 32,
           initialized := kf.initialized })) ∧
    (kf.initialized = false → kalman_filter_update kf z v dt now = some (z, kf)) := by
  constructor
  · intro h hD
    simp only [kalman_filter_update, h, Bool.not_true, Bool.false_eq_true, if_false, if_neg hD]
    norm_num
  · intro h
    simp [kalman_filter_update, h]

theorem kalman_filter_update_spec_witness :
    kalman_filter_update
      { x := 5, P := 1, Q := 0.05, R := 0, last_update_time := 0, initialized := true }
      3 0.25 1 1000
      = some (3 + 5 / 13, { x := 3 + 5 / 13, P := 21 / 104, Q := 0.05, R := 0.25,
                            last_update_time := 1000, initialized := true }) := by
  rw [(kalman_filter_update_spec
    { x := 5, P := 1, Q := 0.05, R := 0, last_update_time := 0, initialized := true }
    3 0.25 1 1000).1 rfl (by norm_num)]
  norm_num

/-- C9 as stated fails: after `kalman_filter_init` with variance `0`, an update with
measurement variance `0` and `dt = 0` has the gain `0 / 0`, which has no value, so the
update does not set `x := x + K*(z - x)` for any `K` (the C code stores and returns NaN). -/
theorem kalman_filter_update_counterexample :
    (kalman_filter_init entry_zero.kf_state 5 0 0).initialized = true ∧
    (kalman_filter_init entry_zero.kf_state 5 0 0).P
      + (kalman_filter_init entry_zero.kf_state 5 0 0).Q * 0 + 0 = 0 ∧
    kalman_filter_update (kalman_filter_init entry_zero.kf_state 5 0 0) 3 0 0 1000 = none := by
  refine ⟨rfl, ?_, ?_⟩
  · simp [kalman_filter_init]
  · simp [kalman_filter_update, kalman_filter_init]

/-- C10 (amended): `kalman_filter_init` leaves `x = z`, `P = variance`, `Q = 0.05`, `R = 0`,
the time stamp and `initialized = true`; the relay calls it on the first observation of
an entry and reports `z` itself. -/
theorem kalman_filter_init_spec (kf : kalman_filter_state_t) (z variance : ℚ) (now now1 : Nat) :
    kalman_filter_init kf z variance now1 =
      { x := z, P := variance, Q := 0.05, R := 0, last_update_time := now1 % 2 ^ 32,
        initialized := true } ∧
    (kf.initialized = false →
      relay_filter kf z variance now now1
        = some (z, kalman_filter_init kf z variance now1)) := by
  constructor
  · simp only [kalman_filter_init]
    norm_num
  · intro h
    simp [relay_filter, h, kalman_filter_init]

theorem kalman_filter_init_spec_witness :
    relay_filter { x := 0, P := 0, Q := 0, R := 0, last_update_time := 0, initialized := false }
      5 1 2000 2000
      = some (5, { x := 5, P := 1, Q := 0.05, R := 0, last_update_time := 2000,
                   initialized := true }) := by
  obtain ⟨h1, h2⟩ := kalman_filter_init_spec
    { x := 0, P := 0, Q := 0, R := 0, last_update_time := 0, initialized := false } 5 1 2000 2000
  rw [h2 rfl, h1]
  norm_num

/-- C10 as stated fails: after `kalman_filter_init` with variance `1` the field `R` is `0`,
not the variance. -/
theorem kalman_filter_init_counterexample :
    ¬ ((kalman_filter_init
          { x := 0, P := 0, Q := 0, R := 0, last_update_time := 0, initialized := false }
          5 1 2000).R = 1) ∧
    (kalman_filter_init
          { x := 0, P := 0, Q := 0, R := 0, last_update_time := 0, initialized := false }
          5 1 2000).R = 0 := by
  simp only [kalman_filter_init]
  norm_num


theorem find_loop_some (states : List beacon_anchor_entry_t) (serial mac : List Nat) :
    ∀ (k i0 i : Nat), find_loop states serial mac k i0 = some i ↔
      (i0 ≤ i ∧ i < i0 + k ∧ entry_matches (states.getD i entry_zero) serial mac = true ∧
        ∀ j, i0 ≤ j → j < i → entry_matches (states.getD j entry_zero) serial mac = false) := by
  intro k
  induction k with
  | zero =>
    intro i0 i
    simp only [find_loop, add_zero]
    constructor
    · intro h; cases h
    · rintro ⟨h1, h2, _⟩; omega
  | succ k ih =>
    intro i0 i
    rw [find_loop]
    by_cases hm : entry_matches (states.getD i0 entry_zero) serial mac = true
    · rw [if_pos hm]
      constructor
      · intro h
        have h := Option.some.inj h
        subst h
        exact ⟨le_refl _, by omega, hm, fun j h1 h2 => by omega⟩
      · rintro ⟨h1, _, _, h4⟩
        by_cases hlt : i0 < i
        · have := h4 i0 (le_refl _) hlt
          rw [hm] at this; cases this
        · have : i0 = i := by omega
          rw [this]
    · rw [if_neg hm, ih]
      have hm' : entry_matches (states.getD i0 entry_zero) serial mac = false := by
        simpa using hm
      constructor
      · rintro ⟨h1, h2, h3, h4⟩
        refine ⟨by omega, by omega, h3, ?_⟩
        intro j hj1 hj2
        by_cases hj : j = i0
        · rw [hj]; exact hm'
        · exact h4 j (by omega) hj2
      · rintro ⟨h1, h2, h3, h4⟩
        have hne : i0 ≠ i := by
          intro h; rw [h] at hm; exact hm h3
        exact ⟨by omega, by omega, h3, fun j hj1 hj2 => h4 j (by omega) hj2⟩

theorem find_loop_none (states : List beacon_anchor_entry_t) (serial mac : List Nat) :
    ∀ (k i0 : Nat), find_loop states serial mac k i0 = none ↔
      ∀ j, i0 ≤ j → j < i0 + k → entry_matches (states.getD j entry_zero) serial mac = false := by
  intro k
  induction k with
  | zero =>
    intro i0
    simp only [find_loop, add_zero, true_iff]
    intro j h1 h2; omega
  | succ k ih =>
    intro i0
    rw [find_loop]
    by_cases hm : entry_matches (states.getD i0 entry_zero) serial mac = true
    · rw [if_pos hm]
      constructor
      · intro h; cases h
      · intro h
        have := h i0 (le_refl _) (by omega)
        rw [hm] at this; cases this
    · rw [if_neg hm, ih]
      have hm' : entry_matches (states.getD i0 entry_zero) serial mac = false := by
        simpa using hm
      constructor
      · intro h j hj1 hj2
        by_cases hj : j = i0
        · rw [hj]; exact hm'
        · exact h j (by omega) (by omega)
      · intro h j hj1 hj2
        exact h j (by omega) (by omega)

/-- C11: when slot `i` is the first slot in use that matches the key,
`find_or_create_entry` returns slot `i`, sets its `last_seen` to the current time and
changes nothing else: the count, every other slot, and the key and Kalman state of slot
`i` are as before. -/
theorem find_or_create_entry_hit (t : Table) (serial_number anchor_mac : List Nat)
    (now now1 i : Nat) (hlen : t.beacon_anchor_count ≤ t.beacon_anchor_states.length)
    (hi : i < t.beacon_anchor_count)
    (hm : entry_matches (t.beacon_anchor_states.getD i entry_zero) serial_number anchor_mac
      = true)
    (hfirst : ∀ j, j < i →
      entry_matches (t.beacon_anchor_states.getD j entry_zero) serial_number anchor_mac
        = false) :
    (find_or_create_entry t serial_number anchor_mac now now1).1 = some i ∧
    (find_or_create_entry t serial_number anchor_mac now now1).2.beacon_anchor_count
      = t.beacon_anchor_count ∧
    (find_or_create_entry t serial_number anchor_mac now now1).2.beacon_anchor_states.length
      = t.beacon_anchor_states.length ∧
    (∀ j, j ≠ i →
      (find_or_create_entry t serial_number anchor_mac now now1).2.beacon_anchor_states.getD j
          entry_zero = t.beacon_anchor_states.getD j entry_zero) ∧
    (find_or_create_entry t serial_number anchor_mac now now1).2.beacon_anchor_states.getD i
        entry_zero
      = { t.beacon_anchor_states.getD i entry_zero with last_seen := now % 2 ^ 32 } := by
  have hf : find_loop t.beacon_anchor_states serial_number anchor_mac t.beacon_anchor_count 0
      = some i :=
    (find_loop_some _ _ _ _ 0 i).mpr ⟨Nat.zero_le _, by omega, hm, fun j _ hj => hfirst j hj⟩
  have hil : i < t.beacon_anchor_states.length := by omega
  simp only [find_or_create_entry, hf]
  refine ⟨trivial, trivial, List.length_set _ _ _, ?_, ?_⟩
  · intro j hj
    simp only [List.getD_eq_getElem?_getD]
    rw [List.getElem?_set_ne (Ne.symm hj)]
  · simp only [List.getD_eq_getElem?_getD]
    rw [List.getElem?_set_self hil]
    rfl


theorem find_or_create_entry_hit_witness :
    (find_or_create_entry
      { beacon_anchor_states :=
          [{ serial_number := [83, 45, 48, 51, 0, 0, 0, 0, 0, 0], anchor_mac := [1, 2, 3, 4, 5, 6],
             kf_state := { x := 2, P := 1, Q := 0.05, R := 0, last_update_time := 10,
                           initialized := true },
             last_seen := 10 },
           { serial_number := [83, 45, 48, 51, 0, 0, 0, 0, 0, 0], anchor_mac := [1, 2, 3, 4, 5, 7],
             kf_state := { x := 4, P := 1, Q := 0.05, R := 0, last_update_time := 20,
                           initialized := true },
             last_seen := 20 },
           entry_zero],
        beacon_anchor_count := 2 }
      [83, 45, 48, 51, 0, 91] [1, 2, 3, 4, 5, 7] 5000 5000).1 = some 1 := by
  exact (find_or_create_entry_hit _ [83, 45, 48, 51, 0, 91] [1, 2, 3, 4, 5, 7] 5000 5000 1
    (by decide) (by decide) (by decide) (by decide)).1

theorem take_set_succ_entry (a : beacon_anchor_entry_t) :
    ∀ (l : List beacon_anchor_entry_t) (n : Nat), n < l.length →
      (l.set n a).take (n + 1) = l.take n ++ [a]
  | [], _, h => by simp at h
  | x :: l, 0, _ => by simp
  | x :: l, n + 1, h => by
    have h1 : n < l.length := by simpa using h
    simp [take_set_succ_entry a l n h1]

theorem cleanup_loop_spec (ct : Nat) : ∀ (k r w : Nat) (states : List beacon_anchor_entry_t),
    w ≤ r → r + k ≤ states.length →
    (cleanup_loop ct k r w states).1.take (cleanup_loop ct k r w states).2
        = states.take w ++ ((states.drop r).take k).filter (is_fresh ct) ∧
    (cleanup_loop ct k r w states).2
        = w + (((states.drop r).take k).filter (is_fresh ct)).length ∧
    (cleanup_loop ct k r w states).1.length = states.length := by
  intro k
  induction k with
  | zero => intro r w states _ _; simp [cleanup_loop]
  | succ k ih =>
    intro r w states hw hrk
    have hr1 : r < states.length := by omega
    have hget : states.getD r entry_zero = states[r] := List.getD_eq_getElem _ _ hr1
    have hdrop : (states.drop r).take (k + 1) = states[r] :: (states.drop (r + 1)).take k := by
      rw [List.drop_eq_getElem_cons hr1, List.take_succ_cons]
    rw [cleanup_loop, hget, hdrop]
    by_cases hp : is_fresh ct states[r] = true
    · rw [if_pos hp, List.filter_cons_of_pos hp]
      by_cases hwr : w = r
      · subst hwr
        rw [if_neg (by simp)]
        obtain ⟨h1, h2, h3⟩ := ih (w + 1) (w + 1) states (le_refl _) (by omega)
        have ht : states.take (w + 1) = states.take w ++ [states[w]] := by
          rw [List.take_succ, List.getElem?_eq_getElem hr1]; rfl
        refine ⟨?_, ?_, h3⟩
        · rw [h1, ht, List.append_assoc]; rfl
        · rw [h2]; simp; omega
      · rw [if_pos hwr]
        have hlen : (states.set w states[r]).length = states.length := List.length_set _ _ _
        obtain ⟨h1, h2, h3⟩ := ih (r + 1) (w + 1) (states.set w states[r]) (by omega)
          (by omega)
        have hd : (states.set w states[r]).drop (r + 1) = states.drop (r + 1) :=
          List.drop_set_of_lt _ _ (by omega)
        have ht : (states.set w states[r]).take (w + 1) = states.take w ++ [states[r]] :=
          take_set_succ_entry _ _ _ (by omega)
        rw [hd] at h1 h2
        rw [ht] at h1
        refine ⟨?_, ?_, ?_⟩
        · rw [h1]; simp
        · rw [h2]; simp; omega
        · rw [h3, hlen]
    · rw [if_neg hp, List.filter_cons_of_neg hp]
      exact ih (r + 1) w states (by omega) (by omega)

theorem cleanup_loop_all_fresh (ct : Nat) : ∀ (k r : Nat) (states : List beacon_anchor_entry_t),
    (∀ j, r ≤ j → j < r + k → is_fresh ct (states.getD j entry_zero) = true) →
    cleanup_loop ct k r r states = (states, r + k) := by
  intro k
  induction k with
  | zero => intro r states _; simp [cleanup_loop]
  | succ k ih =>
    intro r states h
    rw [cleanup_loop, if_pos (h r (le_refl _) (by omega)), if_neg (by simp),
      ih (r + 1) states (fun j h1 h2 => h j (by omega) (by omega))]
    congr 1
    omega

theorem cleanup_loop_count_le (ct : Nat) : ∀ (k r w : Nat) (states : List beacon_anchor_entry_t),
    (cleanup_loop ct k r w states).2 ≤ w + k := by
  intro k
  induction k with
  | zero => intro r w states; simp [cleanup_loop]
  | succ k ih =>
    intro r w states
    rw [cleanup_loop]
    split_ifs
    · have := ih (r + 1) (w + 1) (states.set w (states.getD r entry_zero)); omega
    · have := ih (r + 1) (w + 1) states; omega
    · have := ih (r + 1) w states; omega


theorem filter_length_lt {l : List beacon_anchor_entry_t} {p : beacon_anchor_entry_t → Bool}
    (h : ∃ e ∈ l, p e = false) : (l.filter p).length < l.length := by
  rcases Nat.lt_or_ge (l.filter p).length l.length with h1 | h1
  · exact h1
  · exfalso
    have hle : (l.filter p).length ≤ l.length := List.length_filter_le _ _
    have heq : l.filter p = l :=
      (List.filter_sublist l).eq_of_length (Nat.le_antisymm hle h1)
    obtain ⟨e, he, hpe⟩ := h
    have := List.filter_eq_self.mp heq e he
    rw [hpe] at this
    cases this

/-- What `find_or_create_entry` does on a full table without a match, when the cleanup
removes at least one entry. -/
theorem find_or_create_evicts (t : Table) (serial_number anchor_mac : List Nat) (now now1 : Nat)
    (hlen : t.beacon_anchor_states.length = 60) (hcount : t.beacon_anchor_count = 60)
    (hnone : ∀ j, j < 60 →
      entry_matches (t.beacon_anchor_states.getD j entry_zero) serial_number anchor_mac = false)
    (hstale : ∃ e ∈ t.beacon_anchor_states, is_fresh (now1 % 2 ^ 32) e = false) :
    (find_or_create_entry t serial_number anchor_mac now now1).1
      = some (t.beacon_anchor_states.filter (is_fresh (now1 % 2 ^ 32))).length ∧
    (find_or_create_entry t serial_number anchor_mac now now1).2.beacon_anchor_count
      = (t.beacon_anchor_states.filter (is_fresh (now1 % 2 ^ 32))).length + 1 ∧
    ∃ e old : beacon_anchor_entry_t,
      (find_or_create_entry t serial_number anchor_mac now now1).2.beacon_anchor_states.take
          ((t.beacon_anchor_states.filter (is_fresh (now1 % 2 ^ 32))).length + 1)
        = t.beacon_anchor_states.filter (is_fresh (now1 % 2 ^ 32)) ++ [e] ∧
      e.last_seen = now % 2 ^ 32 ∧ e.kf_state.initialized = false ∧
      e.serial_number = strncpy old.serial_number serial_number 9 ∧
      e.anchor_mac = memcpy old.anchor_mac anchor_mac 6 := by
  have hf : find_loop t.beacon_anchor_states serial_number anchor_mac t.beacon_anchor_count 0
      = none := by
    rw [find_loop_none, hcount]
    intro j _ hj
    exact hnone j (by omega)
  have hfull : ¬ t.beacon_anchor_count < MAX_BEACONS * MAX_ANCHORS_PER_BEACON := by
    rw [hcount]; decide
  obtain ⟨c1, c2, c3⟩ := cleanup_loop_spec (now1 % 2 ^ 32) 60 0 0 t.beacon_anchor_states
    (le_refl _) (by omega)
  have htake : t.beacon_anchor_states.take 60 = t.beacon_anchor_states := by
    rw [← hlen, List.take_length]
  simp only [List.drop_zero, List.take_zero, List.nil_append, Nat.zero_add, htake] at c1 c2
  have hlt := filter_length_lt hstale
  rw [hlen] at hlt
  have hroom : (cleanup_old_entries t now1).beacon_anchor_count
      < MAX_BEACONS * MAX_ANCHORS_PER_BEACON := by
    simp only [cleanup_old_entries, hcount, c2]
    exact hlt
  simp only [find_or_create_entry, hf, if_neg hfull, if_pos hroom]
  simp only [create_entry, cleanup_old_entries, hcount, c2]
  refine ⟨trivial, trivial,
    { serial_number := strncpy ((cleanup_loop (now1 % 2 ^ 32) 60 0 0
          t.beacon_anchor_states).1.getD
          (t.beacon_anchor_states.filter (is_fresh (now1 % 2 ^ 32))).length
          entry_zero).serial_number serial_number 9,
      anchor_mac := memcpy ((cleanup_loop (now1 % 2 ^ 32) 60 0 0
          t.beacon_anchor_states).1.getD
          (t.beacon_anchor_states.filter (is_fresh (now1 % 2 ^ 32))).length
          entry_zero).anchor_mac anchor_mac 6,
      kf_state := { ((cleanup_loop (now1 % 2 ^ 32) 60 0 0 t.beacon_anchor_states).1.getD
          (t.beacon_anchor_states.filter (is_fresh (now1 % 2 ^ 32))).length
          entry_zero).kf_state with initialized := false },
      last_seen := now % 2 ^ 32 },
    (cleanup_loop (now1 % 2 ^ 32) 60 0 0 t.beacon_anchor_states).1.getD
      (t.beacon_anchor_states.filter (is_fresh (now1 % 2 ^ 32))).length entry_zero,
    ?_, rfl, rfl, rfl, rfl⟩
  rw [take_set_succ_entry _ _ _ (by rw [c3, hlen]; exact hlt), ← c2, c1]

/-- What `find_or_create_entry` and the relay do on a full table without a match and
without a stale entry. -/
theorem find_or_create_full (t : Table) (serial_number anchor_mac : List Nat) (now now1 : Nat)
    (hcount : t.beacon_anchor_count = 60)
    (hnone : ∀ j, j < 60 →
      entry_matches (t.beacon_anchor_states.getD j entry_zero) serial_number anchor_mac = false)
    (hfresh : ∀ j, j < 60 →
      is_fresh (now1 % 2 ^ 32) (t.beacon_anchor_states.getD j entry_zero) = true) :
    find_or_create_entry t serial_number anchor_mac now now1 = (none, t) := by
  have hf : find_loop t.beacon_anchor_states serial_number anchor_mac t.beacon_anchor_count 0
      = none := by
    rw [find_loop_none, hcount]
    intro j _ hj
    exact hnone j (by omega)
  have hfull : ¬ t.beacon_anchor_count < MAX_BEACONS * MAX_ANCHORS_PER_BEACON := by
    rw [hcount]; decide
  have hc : cleanup_old_entries t now1 = t := by
    simp only [cleanup_old_entries, hcount]
    rw [cleanup_loop_all_fresh (now1 % 2 ^ 32) 60 0 t.beacon_anchor_states
      (fun j _ hj => hfresh j (by omega))]
    cases t
    simp only at hcount
    simp [hcount]
  simp only [find_or_create_entry, hf, if_neg hfull, hc]


/-- C12: on a table of 60 entries none of which matches the key and at least one of which
is stale (`now - last_seen ≥ 60000` modulo `2^32` at the cleanup), `find_or_create_entry`
leaves exactly the non-stale entries, unchanged and in their order, followed by one new
entry holding the key, `last_seen = now` and an uninitialised filter, and returns that
new entry. -/
theorem find_or_create_entry_evicts (t : Table) (serial_number anchor_mac : List Nat)
    (now now1 : Nat)
    (hlen : t.beacon_anchor_states.length = 60) (hcount : t.beacon_anchor_count = 60)
    (hnone : ∀ j, j < 60 →
      entry_matches (t.beacon_anchor_states.getD j entry_zero) serial_number anchor_mac = false)
    (hstale : ∃ e ∈ t.beacon_anchor_states, is_fresh (now1 % 2 ^ 32) e = false) :
    (find_or_create_entry t serial_number anchor_mac now now1).1
      = some (t.beacon_anchor_states.filter (is_fresh (now1 % 2 ^ 32))).length ∧
    (find_or_create_entry t serial_number anchor_mac now now1).2.beacon_anchor_count
      = (t.beacon_anchor_states.filter (is_fresh (now1 % 2 ^ 32))).length + 1 ∧
    ∃ e old : beacon_anchor_entry_t,
      (find_or_create_entry t serial_number anchor_mac now now1).2.beacon_anchor_states.take
          ((t.beacon_anchor_states.filter (is_fresh (now1 % 2 ^ 32))).length + 1)
        = t.beacon_anchor_states.filter (is_fresh (now1 % 2 ^ 32)) ++ [e] ∧
      e.last_seen = now % 2 ^ 32 ∧ e.kf_state.initialized = false ∧
      e.serial_number = strncpy old.serial_number serial_number 9 ∧
      e.anchor_mac = memcpy old.anchor_mac anchor_mac 6 :=
  find_or_create_evicts t serial_number anchor_mac now now1 hlen hcount hnone hstale

set_option maxRecDepth 100000 in
theorem find_or_create_entry_evicts_witness :
    (find_or_create_entry (full_table 0) [83, 45, 57, 57, 0] [9, 9, 9, 9, 9, 9] 60001 60001).1
      = some 0 ∧
    (find_or_create_entry (full_table 0) [83, 45, 57, 57, 0] [9, 9, 9, 9, 9, 9] 60001
      60001).2.beacon_anchor_count = 1 ∧
    (find_or_create_entry (full_table 0) [83, 45, 57, 57, 0] [9, 9, 9, 9, 9, 9] 60001
      60001).2.beacon_anchor_states.take 1
      = [{ serial_number := [83, 45, 57, 57, 0, 0, 0, 0, 0, 0],
           anchor_mac := [9, 9, 9, 9, 9, 9],
           kf_state := entry_zero.kf_state,
           last_seen := 60001 }] := by
  have hk : (full_table 0).beacon_anchor_states.filter (is_fresh (60001 % 2 ^ 32)) = [] := by
    decide!
  obtain ⟨h1, h2, _⟩ := find_or_create_entry_evicts (full_table 0) [83, 45, 57, 57, 0]
    [9, 9, 9, 9, 9, 9] 60001 60001 (by decide!) (by decide!) (by decide!)
    ⟨(full_table 0).beacon_anchor_states.getD 0 entry_zero, by decide!, by decide!⟩
  rw [hk] at h1 h2
  refine ⟨h1, h2, ?_⟩
  decide!

/-- C13: on a table of 60 entries none of which matches the key and none of which is
stale, `find_or_create_entry` returns no entry and leaves the whole table as it was, and
the relay reports the raw `distance_meters` of the packet for that measurement. -/
theorem find_or_create_entry_full (t : Table) (serial_number anchor_mac : List Nat)
    (now now1 : Nat) (hcount : t.beacon_anchor_count = 60)
    (hnone : ∀ j, j < 60 →
      entry_matches (t.beacon_anchor_states.getD j entry_zero) serial_number anchor_mac = false)
    (hfresh : ∀ j, j < 60 →
      is_fresh (now1 % 2 ^ 32) (t.beacon_anchor_states.getD j entry_zero) = true) :
    find_or_create_entry t serial_number anchor_mac now now1 = (none, t) ∧
    ∀ (distance_meters variance : ℚ) (now2 now3 : Nat),
      relay_measurement t serial_number anchor_mac distance_meters variance now now1 now2 now3
        = some (distance_meters, t) := by
  have h := find_or_create_full t serial_number anchor_mac now now1 hcount hnone hfresh
  refine ⟨h, ?_⟩
  intro d v now2 now3
  simp only [relay_measurement, h]

set_option maxRecDepth 100000 in
theorem find_or_create_entry_full_witness :
    relay_measurement (full_table 1000) [83, 45, 57, 57, 0] [9, 9, 9, 9, 9, 9] (247 / 100)
        (1 / 100) 2000 2000 2000 2000
      = some (247 / 100, full_table 1000) :=
  (find_or_create_entry_full (full_table 1000) [83, 45, 57, 57, 0] [9, 9, 9, 9, 9, 9] 2000 2000
    (by decide!) (by decide!) (by decide!)).2 _ _ _ _


theorem find_or_create_count_le (t : Table) (serial_number anchor_mac : List Nat)
    (now now1 : Nat) (h : t.beacon_anchor_count ≤ 60) :
    (find_or_create_entry t serial_number anchor_mac now now1).2.beacon_anchor_count ≤ 60 := by
  unfold find_or_create_entry
  simp only [MAX_BEACONS, MAX_ANCHORS_PER_BEACON]
  split
  · exact h
  · split_ifs with h1 h2
    · simp only [create_entry]; omega
    · simp only [create_entry]; omega
    · have := cleanup_loop_count_le (now1 % 2 ^ 32) t.beacon_anchor_count 0 0
        t.beacon_anchor_states
      simp only [cleanup_old_entries] at h2 ⊢
      omega

theorem table_run_count_le : ∀ (calls : List (List Nat × List Nat × Nat × Nat)) (t : Table),
    t.beacon_anchor_count ≤ 60 → (table_run t calls).beacon_anchor_count ≤ 60
  | [], t, h => by simpa [table_run] using h
  | (s, m, now, now1) :: rest, t, h => by
    rw [table_run]
    exact table_run_count_le rest _ (find_or_create_count_le t s m now now1 h)

/-- The estimates of scenario S4: `kalman_filter_init` with `z = 5`, variance `1`, then `n`
updates with `z = 3`, variance `0.25`, `dt = 1`. -/
theorem kalman_s4_values (kf : kalman_filter_state_t) (now0 now : Nat) :
    (kalman_run_values (kalman_filter_init kf 5 1 now0) 3 (List.replicate 0 (0.25, 1, now))).x = 5 ∧
    (kalman_run_values (kalman_filter_init kf 5 1 now0) 3 (List.replicate 1 (0.25, 1, now))).x
      = 44 / 13 ∧
    (kalman_run_values (kalman_filter_init kf 5 1 now0) 3 (List.replicate 2 (0.25, 1, now))).x
      = 833 / 261 ∧
    (kalman_run_values (kalman_filter_init kf 5 1 now0) 3 (List.replicate 3 (0.25, 1, now))).x
      = 6913 / 2221 ∧
    (kalman_run_values (kalman_filter_init kf 5 1 now0) 3 (List.replicate 4 (0.25, 1, now))).x
      = 27484 / 8953 ∧
    (kalman_run_values (kalman_filter_init kf 5 1 now0) 3 (List.replicate 5 (0.25, 1, now))).x
      = 430573 / 141441 := by
  simp only [List.replicate, kalman_run_values, kalman_update_values, kalman_filter_init,
    Bool.not_true, Bool.false_eq_true, if_false]
  norm_num


/-- One update of an initialized filter whose gain divisor is not zero. -/
theorem kalman_step (kf : kalman_filter_state_t) (z v dt : ℚ) (now : Nat)
    (hinit : kf.initialized = true) (hD : kf.P + kf.Q * dt + v ≠ 0) :
    (kalman_update_values kf z v dt now).1 = (kalman_update_values kf z v dt now).2.x ∧
    (kalman_update_values kf z v dt now).2.x - z
      = v / (kf.P + kf.Q * dt + v) * (kf.x - z) ∧
    (kalman_update_values kf z v dt now).2.P
      = v * (kf.P + kf.Q * dt) / (kf.P + kf.Q * dt + v) ∧
    (kalman_update_values kf z v dt now).2.Q = kf.Q ∧
    (kalman_update_values kf z v dt now).2.initialized = true := by
  have h1 : (kf.P + kf.Q * dt) / (kf.P + kf.Q * dt + v) = 1 - v / (kf.P + kf.Q * dt + v) := by
    field_simp
  have h2 : (1.0 : ℚ) = 1 := by norm_num
  simp only [kalman_update_values, hinit, Bool.not_true, Bool.false_eq_true, if_false, h1, h2]
  refine ⟨trivial, ?_, ?_, trivial, trivial⟩
  · ring
  · ring

theorem kalman_update_exact_eq (kf : kalman_filter_state_t) (z v dt : ℚ) (now : Nat)
    (hinit : kf.initialized = true) (hD : kf.P + kf.Q * dt + v ≠ 0) :
    kalman_filter_update kf z v dt now = some (kalman_update_values kf z v dt now) := by
  simp only [kalman_filter_update, kalman_update_values, hinit, Bool.not_true,
    Bool.false_eq_true, if_false, if_neg hD]

/-- Every reachable filter state has the flag set and `Q = 0.05`. -/
theorem kalman_reachable_inv {kf : kalman_filter_state_t} (h : kalman_reachable kf) :
    kf.initialized = true ∧ kf.Q = 0.05 := by
  induction h with
  | init kf0 z0 var0 now0 => simp [kalman_filter_init]
  | update kf0 z v dt now r _ hr ih =>
    obtain ⟨i1, i2⟩ := ih
    by_cases hD : kf0.P + kf0.Q * dt + v = 0
    · simp [kalman_filter_update, i1, hD] at hr
    · rw [kalman_update_exact_eq kf0 z v dt now i1 hD] at hr
      injection hr with hr
      subst hr
      obtain ⟨_, _, _, hq, hi⟩ := kalman_step kf0 z v dt now i1 hD
      exact ⟨hi, by rw [hq]; exact i2⟩


/-- One update with non-negative `P`, `Q`, measurement variance and interval. -/
theorem kalman_step_monotone (kf : kalman_filter_state_t) (z v dt : ℚ) (now : Nat)
    (hinit : kf.initialized = true) (hP : 0 ≤ kf.P) (hQ : 0 ≤ kf.Q) (hv : 0 ≤ v) (hdt : 0 ≤ dt)
    (hD : kf.P + kf.Q * dt + v ≠ 0) :
    |(kalman_update_values kf z v dt now).2.x - z| ≤ |kf.x - z| ∧
    0 ≤ (kalman_update_values kf z v dt now).2.P ∧
    (kalman_update_values kf z v dt now).2.Q = kf.Q ∧
    (kalman_update_values kf z v dt now).2.initialized = true := by
  obtain ⟨_, hx, hp, hq, hi⟩ := kalman_step kf z v dt now hinit hD
  have hPp : 0 ≤ kf.P + kf.Q * dt := add_nonneg hP (mul_nonneg hQ hdt)
  have hDpos : 0 < kf.P + kf.Q * dt + v :=
    lt_of_le_of_ne (add_nonneg hPp hv) (Ne.symm hD)
  have hr0 : 0 ≤ v / (kf.P + kf.Q * dt + v) := div_nonneg hv hDpos.le
  have hr1 : v / (kf.P + kf.Q * dt + v) ≤ 1 := by
    rw [div_le_one hDpos]; linarith
  refine ⟨?_, ?_, hq, hi⟩
  · rw [hx, abs_mul, abs_of_nonneg hr0]
    exact mul_le_of_le_one_left (abs_nonneg _) hr1
  · rw [hp]
    exact div_nonneg (mul_nonneg hv hPp) hDpos.le

theorem kalman_run_monotone (z : ℚ) : ∀ (steps : List (ℚ × ℚ × Nat)) (kf : kalman_filter_state_t),
    kf.initialized = true → 0 ≤ kf.P → 0 ≤ kf.Q →
    (∀ s ∈ steps, 0 ≤ s.1 ∧ 0 ≤ s.2.1) →
    (∀ k, k < steps.length →
      (kalman_run_values kf z (steps.take k)).P +
        (kalman_run_values kf z (steps.take k)).Q * (steps.getD k (0, 0, 0)).2.1 +
        (steps.getD k (0, 0, 0)).1 ≠ 0) →
    kalman_run kf z steps = some (kalman_run_values kf z steps) ∧
    ∀ k, k < steps.length →
      |(kalman_run_values kf z (steps.take (k + 1))).x - z| ≤ |(kalman_run_values kf z (steps.take k)).x - z|
  | [], kf, _, _, _, _, _ => by
    refine ⟨rfl, ?_⟩
    intro k hk
    simp at hk
  | (v, dt, now) :: rest, kf, hinit, hP, hQ, hsteps, hdiv => by
    have hs := hsteps (v, dt, now) (List.mem_cons_self _ _)
    have hD : kf.P + kf.Q * dt + v ≠ 0 := by
      have := hdiv 0 (by simp)
      simpa [kalman_run_values] using this
    obtain ⟨m1, m2, m3, m4⟩ := kalman_step_monotone kf z v dt now hinit hP hQ hs.1 hs.2 hD
    obtain ⟨ih1, ih2⟩ := kalman_run_monotone z rest (kalman_update_values kf z v dt now).2 m4 m2
      (by rw [m3]; exact hQ) (fun s hs => hsteps s (List.mem_cons_of_mem _ hs))
      (by
        intro k hk
        have := hdiv (k + 1) (by simpa using hk)
        simpa [kalman_run_values] using this)
    constructor
    · rw [kalman_run, kalman_update_exact_eq kf z v dt now hinit hD]
      exact ih1
    · intro k hk
      cases k with
      | zero => simpa [kalman_run_values] using m1
      | succ k =>
        have := ih2 k (by simpa using hk)
        simpa [kalman_run_values] using this


/-- C16 (amended): for an initialized state with `P ≥ 0` and `Q ≥ 0` and a sequence of
`kalman_filter_update` calls with the same measurement `z`, measurement variances `≥ 0`
and intervals `dt ≥ 0`, in which every gain divisor `P + Q*dt + v` is non-zero, every
gain quotient exists and the error `|x - z|` after each update is at most the error
before it. -/
theorem kalman_error_monotone (kf : kalman_filter_state_t) (z : ℚ)
    (steps : List (ℚ × ℚ × Nat))
    (hinit : kf.initialized = true) (hP : 0 ≤ kf.P) (hQ : 0 ≤ kf.Q)
    (hsteps : ∀ s ∈ steps, 0 ≤ s.1 ∧ 0 ≤ s.2.1)
    (hdiv : ∀ k, k < steps.length →
      (kalman_run_values kf z (steps.take k)).P +
        (kalman_run_values kf z (steps.take k)).Q * (steps.getD k (0, 0, 0)).2.1 +
        (steps.getD k (0, 0, 0)).1 ≠ 0) :
    kalman_run kf z steps = some (kalman_run_values kf z steps) ∧
    ∀ k, k < steps.length →
      |(kalman_run_values kf z (steps.take (k + 1))).x - z|
        ≤ |(kalman_run_values kf z (steps.take k)).x - z| :=
  kalman_run_monotone z steps kf hinit hP hQ hsteps hdiv

theorem kalman_error_monotone_witness :
    kalman_run (kalman_filter_init entry_zero.kf_state 5 1 0) 3
        [(0.25, 1, 1000), (0, 0, 2000)]
      = some (kalman_run_values (kalman_filter_init entry_zero.kf_state 5 1 0) 3
          [(0.25, 1, 1000), (0, 0, 2000)]) ∧
    |(kalman_run_values (kalman_filter_init entry_zero.kf_state 5 1 0) 3
        [(0.25, 1, 1000), (0, 0, 2000)]).x - 3|
      ≤ |(kalman_run_values (kalman_filter_init entry_zero.kf_state 5 1 0) 3
          [(0.25, 1, 1000)]).x - 3| :=
  ⟨(kalman_error_monotone (kalman_filter_init entry_zero.kf_state 5 1 0) 3
    [(0.25, 1, 1000), (0, 0, 2000)] (by decide!) (by decide!) (by decide!) (by decide!)
    (by decide!)).1,
   (kalman_error_monotone (kalman_filter_init entry_zero.kf_state 5 1 0) 3
    [(0.25, 1, 1000), (0, 0, 2000)] (by decide!) (by decide!) (by decide!) (by decide!)
    (by decide!)).2 1 (by decide)⟩

/-- C16 as stated fails: with `Q = -1` (and `P = 0`) one update with `z = 1`, variance
`3/4` and `dt = 1` moves the estimate from `0` to `4`, so the error grows from `1` to `3`;
and with `P = 0`, `dt = 0` and variance `0` the gain is the quotient `0 / 0`. -/
theorem kalman_error_monotone_counterexample :
    (∃ s, kalman_run { x := 0, P := 0, Q := -1, R := 0, last_update_time := 0,
                       initialized := true } 1 [(3 / 4, 1, 0)] = some s ∧
      s.x = 4 ∧ ¬ (|s.x - 1| ≤ |(0 : ℚ) - 1|)) ∧
    kalman_run { x := 0, P := 0, Q := 0.05, R := 0, last_update_time := 0,
                 initialized := true } 1 [(0, 0, 0)] = none := by
  constructor
  · refine ⟨(kalman_update_values ⟨0, 0, -1, 0, 0, true⟩ 1 (3 / 4) 1 0).2, ?_, ?_, ?_⟩
    · rw [kalman_run, kalman_update_exact_eq _ _ _ _ _ rfl (by norm_num)]
      rfl
    · simp only [kalman_update_values]
      norm_num
    · simp only [kalman_update_values]
      norm_num
  · decide!


/-- One update with `Q > 0` and `dt > 0`: the error shrinks at least by the factor
`r / (Q*dt + r)`. -/
theorem kalman_step_contract (kf : kalman_filter_state_t) (z r dt : ℚ) (now : Nat)
    (hinit : kf.initialized = true) (hP : 0 ≤ kf.P) (hQ : 0 < kf.Q) (hr : 0 ≤ r) (hdt : 0 < dt) :
    kf.P + kf.Q * dt + r ≠ 0 ∧
    |(kalman_update_values kf z r dt now).2.x - z| ≤ r / (kf.Q * dt + r) * |kf.x - z| ∧
    0 ≤ (kalman_update_values kf z r dt now).2.P ∧
    (kalman_update_values kf z r dt now).2.Q = kf.Q ∧
    (kalman_update_values kf z r dt now).2.initialized = true := by
  have hQdt : 0 < kf.Q * dt := mul_pos hQ hdt
  have hD0 : 0 < kf.Q * dt + r := by linarith
  have hDpos : 0 < kf.P + kf.Q * dt + r := by linarith
  have hD : kf.P + kf.Q * dt + r ≠ 0 := ne_of_gt hDpos
  obtain ⟨_, hx, hp, hq, hi⟩ := kalman_step kf z r dt now hinit hD
  have hr0 : 0 ≤ r / (kf.P + kf.Q * dt + r) := div_nonneg hr hDpos.le
  have hle : r / (kf.P + kf.Q * dt + r) ≤ r / (kf.Q * dt + r) :=
    div_le_div_of_nonneg_left hr hD0 (by linarith)
  refine ⟨hD, ?_, ?_, hq, hi⟩
  · rw [hx, abs_mul, abs_of_nonneg hr0]
    exact mul_le_mul_of_nonneg_right hle (abs_nonneg _)
  · rw [hp]
    exact div_nonneg (mul_nonneg hr (by linarith)) hDpos.le

theorem kalman_run_contract (z r dt Q : ℚ) (hQ : 0 < Q) (hr : 0 ≤ r) (hdt : 0 < dt) :
    ∀ (steps : List (ℚ × ℚ × Nat)) (kf : kalman_filter_state_t),
    kf.initialized = true → 0 ≤ kf.P → kf.Q = Q →
    (∀ s ∈ steps, s.1 = r ∧ s.2.1 = dt) →
    kalman_run kf z steps = some (kalman_run_values kf z steps) ∧
    |(kalman_run_values kf z steps).x - z| ≤ (r / (Q * dt + r)) ^ steps.length * |kf.x - z|
  | [], kf, _, _, _, _ => by simp [kalman_run_values, kalman_run]
  | (v, dt1, now) :: rest, kf, hinit, hP, hQe, hsteps => by
    obtain ⟨hv, hd⟩ := hsteps (v, dt1, now) (List.mem_cons_self _ _)
    simp only at hv hd
    subst hv hd
    obtain ⟨hD, m1, m2, m3, m4⟩ := kalman_step_contract kf z v dt1 now hinit hP
      (by rw [hQe]; exact hQ) hr hdt
    obtain ⟨ih1, ih2⟩ := kalman_run_contract z v dt1 Q hQ hr hdt rest
      (kalman_update_values kf z v dt1 now).2 m4 m2 (by rw [m3]; exact hQe)
      (fun s hs => hsteps s (List.mem_cons_of_mem _ hs))
    have hc0 : 0 ≤ v / (Q * dt1 + v) :=
      div_nonneg hr (by have := mul_pos hQ hdt; linarith)
    constructor
    · rw [kalman_run, kalman_update_exact_eq kf z v dt1 now hinit hD]
      exact ih1
    · rw [kalman_run_values, List.length_cons, pow_succ, mul_assoc]
      rw [hQe] at m1
      exact ih2.trans (mul_le_mul_of_nonneg_left m1 (pow_nonneg hc0 _))

/-- In scenario S4 every update has a value. -/
theorem kalman_s4_run (kf : kalman_filter_state_t) (now0 now : Nat) (k : Nat) :
    kalman_run (kalman_filter_init kf 5 1 now0) 3 (List.replicate k (0.25, 1, now))
      = some (kalman_run_values (kalman_filter_init kf 5 1 now0) 3
          (List.replicate k (0.25, 1, now))) :=
  (kalman_run_contract 3 0.25 1 0.05 (by norm_num) (by norm_num) (by norm_num)
    (List.replicate k (0.25, 1, now)) (kalman_filter_init kf 5 1 now0)
    (by simp [kalman_filter_init]) (by simp [kalman_filter_init])
    (by simp [kalman_filter_init])
    (by intro s hs; rw [List.eq_of_mem_replicate hs]; exact ⟨rfl, rfl⟩)).1

/-- C15 (amended): `kalman_filter_init` with `z = 5.0`, variance `1.0` and then five
`kalman_filter_update` calls with `z = 3.0`, variance `0.25`, `dt = 1.0` give the estimates
`5, 44/13, 833/261, 6913/2221, 27484/8953, 430573/141441`, which lie within `0.05` of
`5.00, 3.40, 3.19, 3.11, 3.07, 3.00`. -/
theorem kalman_s4_estimates (kf : kalman_filter_state_t) (now0 now : Nat) :
    (∃ s, kalman_run (kalman_filter_init kf 5 1 now0) 3 (List.replicate 0 (0.25, 1, now))
        = some s ∧ s.x = 5 ∧ |s.x - 5.00| ≤ 0.05) ∧
    (∃ s, kalman_run (kalman_filter_init kf 5 1 now0) 3 (List.replicate 1 (0.25, 1, now))
        = some s ∧ s.x = 44 / 13 ∧ |s.x - 3.40| ≤ 0.05) ∧
    (∃ s, kalman_run (kalman_filter_init kf 5 1 now0) 3 (List.replicate 2 (0.25, 1, now))
        = some s ∧ s.x = 833 / 261 ∧ |s.x - 3.19| ≤ 0.05) ∧
    (∃ s, kalman_run (kalman_filter_init kf 5 1 now0) 3 (List.replicate 3 (0.25, 1, now))
        = some s ∧ s.x = 6913 / 2221 ∧ |s.x - 3.11| ≤ 0.05) ∧
    (∃ s, kalman_run (kalman_filter_init kf 5 1 now0) 3 (List.replicate 4 (0.25, 1, now))
        = some s ∧ s.x = 27484 / 8953 ∧ |s.x - 3.07| ≤ 0.05) ∧
    (∃ s, kalman_run (kalman_filter_init kf 5 1 now0) 3 (List.replicate 5 (0.25, 1, now))
        = some s ∧ s.x = 430573 / 141441 ∧ |s.x - 3.00| ≤ 0.05) := by
  obtain ⟨h0, h1, h2, h3, h4, h5⟩ := kalman_s4_values kf now0 now
  refine ⟨⟨_, kalman_s4_run kf now0 now 0, h0, ?_⟩, ⟨_, kalman_s4_run kf now0 now 1, h1, ?_⟩,
    ⟨_, kalman_s4_run kf now0 now 2, h2, ?_⟩, ⟨_, kalman_s4_run kf now0 now 3, h3, ?_⟩,
    ⟨_, kalman_s4_run kf now0 now 4, h4, ?_⟩, ⟨_, kalman_s4_run kf now0 now 5, h5, ?_⟩⟩
  · rw [h0, abs_le]; constructor <;> norm_num
  · rw [h1, abs_le]; constructor <;> norm_num
  · rw [h2, abs_le]; constructor <;> norm_num
  · rw [h3, abs_le]; constructor <;> norm_num
  · rw [h4, abs_le]; constructor <;> norm_num
  · rw [h5, abs_le]; constructor <;> norm_num

/-- C15 as stated fails: the third estimate is `833/261 = 3.19...`, more than `0.05` away
from `3.07` (and the next two are `3.11...` and `3.07...`, not `3.01` and `3.00`). -/
theorem kalman_s4_counterexample :
    ∃ s, kalman_run (kalman_filter_init entry_zero.kf_state 5 1 0) 3
        (List.replicate 2 (0.25, 1, 1000)) = some s ∧
      s.x = 833 / 261 ∧ ¬ (|s.x - 3.07| ≤ 0.05) := by
  obtain ⟨_, _, h2, _⟩ := kalman_s4_values entry_zero.kf_state 0 1000
  refine ⟨_, kalman_s4_run entry_zero.kf_state 0 1000 2, h2, ?_⟩
  rw [h2, abs_le]
  norm_num

/-- Convergence of the estimate under a constant measurement, for `Q > 0`. -/
theorem kalman_run_converges (kf : kalman_filter_state_t) (z r dt : ℚ)
    (hinit : kf.initialized = true) (hP : 0 ≤ kf.P) (hQ : 0 < kf.Q) (hr : 0 ≤ r) (hdt : 0 < dt)
    (ε : ℚ) (hε : 0 < ε) :
    ∃ N : Nat, ∀ steps : List (ℚ × ℚ × Nat), (∀ s ∈ steps, s.1 = r ∧ s.2.1 = dt) →
      N ≤ steps.length →
      kalman_run kf z steps = some (kalman_run_values kf z steps) ∧
      |(kalman_run_values kf z steps).x - z| < ε := by
  have hQdt : 0 < kf.Q * dt := mul_pos hQ hdt
  have hc0 : 0 ≤ r / (kf.Q * dt + r) := div_nonneg hr (by linarith)
  have hc1 : r / (kf.Q * dt + r) < 1 := by
    rw [div_lt_one (by linarith)]; linarith
  have he : 0 < ε / (|kf.x - z| + 1) := div_pos hε (by positivity)
  obtain ⟨N, hN⟩ := exists_pow_lt_of_lt_one he hc1
  refine ⟨N, fun steps hsteps hlen => ?_⟩
  obtain ⟨h1, h2⟩ := kalman_run_contract z r dt kf.Q hQ hr hdt steps kf hinit hP rfl hsteps
  refine ⟨h1, lt_of_le_of_lt h2 ?_⟩
  have hpow : (r / (kf.Q * dt + r)) ^ steps.length ≤ (r / (kf.Q * dt + r)) ^ N :=
    pow_le_pow_of_le_one hc0 hc1.le hlen
  have hpos : (0 : ℚ) < |kf.x - z| + 1 := by positivity
  calc (r / (kf.Q * dt + r)) ^ steps.length * |kf.x - z|
      ≤ (r / (kf.Q * dt + r)) ^ N * |kf.x - z| :=
        mul_le_mul_of_nonneg_right hpow (abs_nonneg _)
    _ ≤ (r / (kf.Q * dt + r)) ^ N * (|kf.x - z| + 1) :=
        mul_le_mul_of_nonneg_left (by linarith) (pow_nonneg hc0 _)
    _ < ε / (|kf.x - z| + 1) * (|kf.x - z| + 1) :=
        mul_lt_mul_of_pos_right hN hpos
    _ = ε := by field_simp


/-- C17: for every filter state the code can reach (built by `kalman_filter_init` and
carried on by `kalman_filter_update`) with `P ≥ 0`, repeated `kalman_filter_update` calls
with a constant measurement `z`, a constant measurement variance `r ≥ 0` and a constant
interval `dt > 0` all have a value, and `|x_N - z|` tends to `0`: for every `ε > 0` there
is an `N` such that after any `N` or more such updates `|x - z| < ε`. -/
theorem kalman_converges (kf : kalman_filter_state_t) (z r dt : ℚ)
    (hreach : kalman_reachable kf) (hP : 0 ≤ kf.P) (hr : 0 ≤ r) (hdt : 0 < dt) :
    ∀ ε : ℚ, 0 < ε →
      ∃ N : Nat, ∀ steps : List (ℚ × ℚ × Nat), (∀ s ∈ steps, s.1 = r ∧ s.2.1 = dt) →
        N ≤ steps.length →
        ∃ s, kalman_run kf z steps = some s ∧ |s.x - z| < ε := by
  intro ε hε
  obtain ⟨hi, hq⟩ := kalman_reachable_inv hreach
  obtain ⟨N, hN⟩ := kalman_run_converges kf z r dt hi hP (by rw [hq]; norm_num) hr hdt ε hε
  exact ⟨N, fun steps h1 h2 => ⟨_, (hN steps h1 h2).1, (hN steps h1 h2).2⟩⟩

theorem kalman_converges_witness :
    ∃ N : Nat, ∀ steps : List (ℚ × ℚ × Nat), (∀ s ∈ steps, s.1 = 0.25 ∧ s.2.1 = 1) →
      N ≤ steps.length →
      ∃ s, kalman_run (kalman_filter_init entry_zero.kf_state 5 1 0) 3 steps = some s ∧
        |s.x - 3| < 0.05 :=
  kalman_converges (kalman_filter_init entry_zero.kf_state 5 1 0) 3 0.25 1
    (kalman_reachable.init _ _ _ _) (by decide!) (by norm_num) (by norm_num) 0.05
    (by norm_num)


/-- What a zero-variance update at the current estimate does when its gain divisor is not
zero. -/
theorem kalman_step_at_estimate (kf : kalman_filter_state_t) (dt : ℚ) (now : Nat)
    (hinit : kf.initialized = true) (hD : kf.P + kf.Q * dt ≠ 0) :
    kalman_filter_update kf kf.x 0 dt now
      = some (kf.x, (kalman_update_values kf kf.x 0 dt now).2) ∧
    (kalman_update_values kf kf.x 0 dt now).2.x = kf.x ∧
    (kalman_update_values kf kf.x 0 dt now).2.P = 0 ∧
    (kalman_update_values kf kf.x 0 dt now).2.Q = kf.Q ∧
    (kalman_update_values kf kf.x 0 dt now).2.initialized = true := by
  have hD0 : kf.P + kf.Q * dt + 0 ≠ 0 := by rwa [add_zero]
  obtain ⟨h0, hx, hp, hq, hi⟩ := kalman_step kf kf.x 0 dt now hinit hD0
  have hx1 : (kalman_update_values kf kf.x 0 dt now).2.x = kf.x := by
    have : (kalman_update_values kf kf.x 0 dt now).2.x - kf.x = 0 := by rw [hx]; simp
    linarith
  refine ⟨?_, hx1, by rw [hp]; simp, hq, hi⟩
  rw [kalman_update_exact_eq kf kf.x 0 dt now hinit hD0]
  congr 1
  exact Prod.ext (by rw [h0, hx1]) rfl

/-- C18 (amended): for an initialized state with estimate `x` and an interval `dt` with
`P + Q*dt ≠ 0` and `Q*dt ≠ 0` (so that both gain quotients exist), `kalman_filter_update`
with measurement `z = x` and measurement variance `0` returns `x` and leaves the estimate
equal to `x`, and the same update applied a second time returns `x` again and leaves the
same estimate and the same `P` as the first. -/
theorem kalman_update_idempotent (kf : kalman_filter_state_t) (dt : ℚ) (now now1 : Nat)
    (hinit : kf.initialized = true) (h1 : kf.P + kf.Q * dt ≠ 0) (h2 : kf.Q * dt ≠ 0) :
    ∃ kf1 kf2 : kalman_filter_state_t,
      kalman_filter_update kf kf.x 0 dt now = some (kf.x, kf1) ∧ kf1.x = kf.x ∧
      kalman_filter_update kf1 kf.x 0 dt now1 = some (kf.x, kf2) ∧
      kf2.x = kf1.x ∧ kf2.P = kf1.P := by
  obtain ⟨a1, a2, a3, a4, a5⟩ := kalman_step_at_estimate kf dt now hinit h1
  have hD2 : (kalman_update_values kf kf.x 0 dt now).2.P +
      (kalman_update_values kf kf.x 0 dt now).2.Q * dt ≠ 0 := by
    rw [a3, a4, zero_add]; exact h2
  obtain ⟨b1, b2, b3, _, _⟩ := kalman_step_at_estimate
    (kalman_update_values kf kf.x 0 dt now).2 dt now1 a5 hD2
  rw [a2] at b1 b2 b3
  exact ⟨_, _, a1, a2, b1, by rw [b2, a2], by rw [b3, a3]⟩

theorem kalman_update_idempotent_witness :
    ∃ kf1 kf2 : kalman_filter_state_t,
      kalman_filter_update (kalman_filter_init entry_zero.kf_state 5 1 0) 5 0 1 1000
        = some (5, kf1) ∧ kf1.x = 5 ∧
      kalman_filter_update kf1 5 0 1 2000 = some (5, kf2) ∧
      kf2.x = kf1.x ∧ kf2.P = kf1.P :=
  kalman_update_idempotent (kalman_filter_init entry_zero.kf_state 5 1 0) 1 1000 2000
    (by decide!) (by decide!) (by decide!)

/-- C18 as stated fails: with `P = 0` and `dt = 0` the gain of a zero-variance update is the
quotient `0 / 0`; and with `P = 1`, `dt = 0` the first update leaves `P = 0`, so the gain
of the second one is `0 / 0`. -/
theorem kalman_update_idempotent_counterexample :
    kalman_filter_update
      { x := 2, P := 0, Q := 0.05, R := 0, last_update_time := 0, initialized := true }
      2 0 0 1000 = none ∧
    kalman_filter_update
      { x := 2, P := 1, Q := 0.05, R := 0, last_update_time := 0, initialized := true }
      2 0 0 1000
      = some (2, { x := 2, P := 0, Q := 0.05, R := 0, last_update_time := 1000,
                   initialized := true }) ∧
    kalman_filter_update
      { x := 2, P := 0, Q := 0.05, R := 0, last_update_time := 1000, initialized := true }
      2 0 0 2000 = none := by
  refine ⟨?_, ?_, ?_⟩ <;> decide!

end Gateway

namespace Beacon

/-- Applying `remove_outliers_iqr` to its own result. -/
theorem remove_outliers_iqr_twice (data : List ℚ) (count : Nat) (hlen : count ≤ data.length) :
    ((remove_outliers_iqr (remove_outliers_iqr data count).1
        (remove_outliers_iqr data count).2).1.take
      (remove_outliers_iqr (remove_outliers_iqr data count).1
        (remove_outliers_iqr data count).2).2).Sublist
      ((remove_outliers_iqr data count).1.take (remove_outliers_iqr data count).2) ∧
    (remove_outliers_iqr (remove_outliers_iqr data count).1
        (remove_outliers_iqr data count).2).2 ≤ (remove_outliers_iqr data count).2 ∧
    ((remove_outliers_iqr data count).2 < 4 →
      remove_outliers_iqr (remove_outliers_iqr data count).1 (remove_outliers_iqr data count).2
        = remove_outliers_iqr data count) ∧
    (4 ≤ count →
      (qsort compare_floats ((remove_outliers_iqr data count).1.take
          (remove_outliers_iqr data count).2)).getD ((remove_outliers_iqr data count).2 / 4) 0
        = (qsort compare_floats (data.take count)).getD (count / 4) 0 →
      (qsort compare_floats ((remove_outliers_iqr data count).1.take
          (remove_outliers_iqr data count).2)).getD (3 * (remove_outliers_iqr data count).2 / 4) 0
        = (qsort compare_floats (data.take count)).getD (3 * count / 4) 0 →
      (remove_outliers_iqr (remove_outliers_iqr data count).1
          (remove_outliers_iqr data count).2).1.take
        (remove_outliers_iqr (remove_outliers_iqr data count).1
          (remove_outliers_iqr data count).2).2
        = (remove_outliers_iqr data count).1.take (remove_outliers_iqr data count).2 ∧
      (remove_outliers_iqr (remove_outliers_iqr data count).1
          (remove_outliers_iqr data count).2).2 = (remove_outliers_iqr data count).2) := by
  have hsmall : (remove_outliers_iqr data count).2 < 4 →
      remove_outliers_iqr (remove_outliers_iqr data count).1 (remove_outliers_iqr data count).2
        = remove_outliers_iqr data count := by
    intro h
    generalize remove_outliers_iqr data count = r1 at h ⊢
    obtain ⟨buf, n⟩ := r1
    simp only at h
    simp [remove_outliers_iqr, h]
  have hcount4 : 4 ≤ (remove_outliers_iqr data count).2 → 4 ≤ count := by
    intro h
    by_contra hc
    have : remove_outliers_iqr data count = (data, count) := by
      simp [remove_outliers_iqr, Nat.lt_of_not_le hc]
    rw [this] at h
    exact hc h
  have hle1 : 4 ≤ count →
      (remove_outliers_iqr data count).2 ≤ (remove_outliers_iqr data count).1.length :=
    fun h4 => ( remove_outliers_iqr_prefix data count h4 hlen).2.2
  refine ⟨?_, ?_, hsmall, ?_⟩
  · by_cases h : (remove_outliers_iqr data count).2 < 4
    · rw [hsmall h]
    · have h4 : 4 ≤ (remove_outliers_iqr data count).2 := by omega
      obtain ⟨b1, _, _⟩ := remove_outliers_iqr_take (remove_outliers_iqr data count).1
        (remove_outliers_iqr data count).2 h4 (hle1 (hcount4 h4)) _ rfl
      rw [b1]
      exact List.filter_sublist _
  · by_cases h : (remove_outliers_iqr data count).2 < 4
    · rw [hsmall h]
    · have h4 : 4 ≤ (remove_outliers_iqr data count).2 := by omega
      obtain ⟨_, b2, _⟩ := remove_outliers_iqr_take (remove_outliers_iqr data count).1
        (remove_outliers_iqr data count).2 h4 (hle1 (hcount4 h4)) _ rfl
      rw [b2]
      refine (List.length_filter_le _ _).trans ?_
      rw [List.length_take]
      exact min_le_left _ _
  · intro hc4 hq1 hq3
    by_cases h : (remove_outliers_iqr data count).2 < 4
    · rw [hsmall h]
      exact ⟨rfl, rfl⟩
    · have h4 : 4 ≤ (remove_outliers_iqr data count).2 := by omega
      obtain ⟨a1, a2, _⟩ := remove_outliers_iqr_take data count hc4 hlen _ rfl
      obtain ⟨b1, b2, _⟩ := remove_outliers_iqr_take (remove_outliers_iqr data count).1
        (remove_outliers_iqr data count).2 h4 (hle1 hc4) _ rfl
      rw [hq1, hq3] at b1 b2
      have hff : ((remove_outliers_iqr data count).1.take (remove_outliers_iqr data count).2).filter
          (fun x => decide
            (x ≥ (qsort compare_floats (data.take count)).getD (count / 4) 0 - 1.5 *
                ((qsort compare_floats (data.take count)).getD (3 * count / 4) 0 -
                  (qsort compare_floats (data.take count)).getD (count / 4) 0) ∧
             x ≤ (qsort compare_floats (data.take count)).getD (3 * count / 4) 0 + 1.5 *
                ((qsort compare_floats (data.take count)).getD (3 * count / 4) 0 -
                  (qsort compare_floats (data.take count)).getD (count / 4) 0)))
          = (remove_outliers_iqr data count).1.take (remove_outliers_iqr data count).2 := by
        rw [List.filter_eq_self]
        intro x hx
        rw [a1] at hx
        exact (List.mem_filter.mp hx).2
      rw [hff] at b1 b2
      refine ⟨b1, ?_⟩
      rw [b2, List.length_take]
      exact min_eq_left (hle1 hc4)


/-- C19 (amended): applying `remove_outliers_iqr` to the result of `remove_outliers_iqr`
yields a sub-sequence of that result with a count that is not larger; it changes nothing
when the first result has fewer than 4 values, and it leaves contents and count as they
are when the first result has the same quartile values `Q1`, `Q3` as the input. -/
theorem remove_outliers_iqr_again (data : List ℚ) (count : Nat) (hlen : count ≤ data.length) :
    ((remove_outliers_iqr (remove_outliers_iqr data count).1
        (remove_outliers_iqr data count).2).1.take
      (remove_outliers_iqr (remove_outliers_iqr data count).1
        (remove_outliers_iqr data count).2).2).Sublist
      ((remove_outliers_iqr data count).1.take (remove_outliers_iqr data count).2) ∧
    (remove_outliers_iqr (remove_outliers_iqr data count).1
        (remove_outliers_iqr data count).2).2 ≤ (remove_outliers_iqr data count).2 ∧
    ((remove_outliers_iqr data count).2 < 4 →
      remove_outliers_iqr (remove_outliers_iqr data count).1 (remove_outliers_iqr data count).2
        = remove_outliers_iqr data count) ∧
    (4 ≤ count →
      (qsort compare_floats ((remove_outliers_iqr data count).1.take
          (remove_outliers_iqr data count).2)).getD ((remove_outliers_iqr data count).2 / 4) 0
        = (qsort compare_floats (data.take count)).getD (count / 4) 0 →
      (qsort compare_floats ((remove_outliers_iqr data count).1.take
          (remove_outliers_iqr data count).2)).getD (3 * (remove_outliers_iqr data count).2 / 4) 0
        = (qsort compare_floats (data.take count)).getD (3 * count / 4) 0 →
      (remove_outliers_iqr (remove_outliers_iqr data count).1
          (remove_outliers_iqr data count).2).1.take
        (remove_outliers_iqr (remove_outliers_iqr data count).1
          (remove_outliers_iqr data count).2).2
        = (remove_outliers_iqr data count).1.take (remove_outliers_iqr data count).2 ∧
      (remove_outliers_iqr (remove_outliers_iqr data count).1
          (remove_outliers_iqr data count).2).2 = (remove_outliers_iqr data count).2) :=
  remove_outliers_iqr_twice data count hlen

theorem remove_outliers_iqr_again_witness :
    (remove_outliers_iqr (remove_outliers_iqr [1, 1, 1, 9, 1, 1, 1, 1, 1, 1, 1] 11).1
        (remove_outliers_iqr [1, 1, 1, 9, 1, 1, 1, 1, 1, 1, 1] 11).2).1.take
      (remove_outliers_iqr (remove_outliers_iqr [1, 1, 1, 9, 1, 1, 1, 1, 1, 1, 1] 11).1
        (remove_outliers_iqr [1, 1, 1, 9, 1, 1, 1, 1, 1, 1, 1] 11).2).2
      = (remove_outliers_iqr [1, 1, 1, 9, 1, 1, 1, 1, 1, 1, 1] 11).1.take
          (remove_outliers_iqr [1, 1, 1, 9, 1, 1, 1, 1, 1, 1, 1] 11).2 ∧
    (remove_outliers_iqr (remove_outliers_iqr [1, 1, 1, 9, 1, 1, 1, 1, 1, 1, 1] 11).1
        (remove_outliers_iqr [1, 1, 1, 9, 1, 1, 1, 1, 1, 1, 1] 11).2).2
      = (remove_outliers_iqr [1, 1, 1, 9, 1, 1, 1, 1, 1, 1, 1] 11).2 :=
  (remove_outliers_iqr_again [1, 1, 1, 9, 1, 1, 1, 1, 1, 1, 1] 11 (by decide)).2.2.2
    (by decide) (by decide!) (by decide!)

/-- C19 as stated fails: on `[0, 0, 0, 0, 0, 1, 3, 100]` the first pass removes `100` and
leaves 7 values; the second pass, with the quartiles of those 7 values, removes `3` and
leaves 6. -/
theorem remove_outliers_iqr_again_counterexample :
    (remove_outliers_iqr [0, 0, 0, 0, 0, 1, 3, 100] 8).1.take
        (remove_outliers_iqr [0, 0, 0, 0, 0, 1, 3, 100] 8).2 = [0, 0, 0, 0, 0, 1, 3] ∧
    (remove_outliers_iqr (remove_outliers_iqr [0, 0, 0, 0, 0, 1, 3, 100] 8).1
        (remove_outliers_iqr [0, 0, 0, 0, 0, 1, 3, 100] 8).2).1.take
      (remove_outliers_iqr (remove_outliers_iqr [0, 0, 0, 0, 0, 1, 3, 100] 8).1
        (remove_outliers_iqr [0, 0, 0, 0, 0, 1, 3, 100] 8).2).2 = [0, 0, 0, 0, 0, 1] ∧
    ¬ ((remove_outliers_iqr (remove_outliers_iqr [0, 0, 0, 0, 0, 1, 3, 100] 8).1
        (remove_outliers_iqr [0, 0, 0, 0, 0, 1, 3, 100] 8).2).2
      = (remove_outliers_iqr [0, 0, 0, 0, 0, 1, 3, 100] 8).2) := by
  refine ⟨?_, ?_, ?_⟩ <;> decide!


theorem ftm_sample_eq_dist {rtt : Nat} {d : ℚ} (h : ftm_sample rtt = some d) :
    d = dist_calibrated rtt := by
  unfold ftm_sample at h
  split_ifs at h
  exact (Option.some.inj h).symm

theorem accepted_distances_eq_map : ∀ (entries : List Nat),
    accepted_distances entries = (accepted_rtts entries).map dist_calibrated
  | [] => by simp [accepted_distances, accepted_rtts]
  | x :: rest => by
    have ih := accepted_distances_eq_map rest
    unfold accepted_distances accepted_rtts at ih ⊢
    cases h : ftm_sample x with
    | none => simp [List.filterMap_cons, h, ih]
    | some d => simp [List.filterMap_cons, h, ih, ftm_sample_eq_dist h]

theorem dist_calibrated_injective {p q : Nat} (h : dist_calibrated p = dist_calibrated q) :
    p = q := by
  unfold dist_calibrated FTM_CALIBRATION_FACTOR at h
  have h2 : (p : ℚ) = q := by
    norm_num at h
    linarith
  exact_mod_cast h2

/-- The quartile cells of the sorted copy when all values but one are equal. -/
theorem qsort_one_outlier (dp dq : ℚ) (hne : dq ≠ dp) (a b i : Nat) (hi1 : 1 ≤ i)
    (hi2 : i + 1 < a + b + 1) :
    (qsort compare_floats (List.replicate a dp ++ dq :: List.replicate b dp)).getD i 0 = dp := by
  have hperm1 : (dq :: List.replicate (a + b) dp).Perm
      (List.replicate a dp ++ dq :: List.replicate b dp) := by
    rw [List.replicate_add]
    exact (List.perm_middle).symm
  rcases lt_or_gt_of_ne hne with hlt | hgt
  · have hs : (dq :: List.replicate (a + b) dp).Sorted (· ≤ ·) := by
      rw [List.sorted_cons]
      refine ⟨fun x hx => by rw [List.eq_of_mem_replicate hx]; exact hlt.le, ?_⟩
      exact List.pairwise_replicate.mpr (Or.inr (le_refl _))
    rw [qsort_eq_of_sorted_perm hs hperm1]
    obtain ⟨j, rfl⟩ : ∃ j, i = j + 1 := ⟨i - 1, by omega⟩
    rw [List.getD_cons_succ, List.getD_eq_getElem _ _ (by rw [List.length_replicate]; omega)]
    exact List.getElem_replicate _ _
  · have hs : (List.replicate (a + b) dp ++ [dq]).Sorted (· ≤ ·) := by
      unfold List.Sorted
      rw [List.pairwise_append]
      refine ⟨List.pairwise_replicate.mpr (Or.inr (le_refl _)), List.pairwise_singleton _ _, ?_⟩
      intro x hx y hy
      rw [List.eq_of_mem_replicate hx, List.mem_singleton.mp hy]
      exact hgt.le
    have hperm2 : (List.replicate (a + b) dp ++ [dq]).Perm
        (List.replicate a dp ++ dq :: List.replicate b dp) :=
      (List.perm_append_singleton _ _).trans hperm1
    rw [qsort_eq_of_sorted_perm hs hperm2]
    rw [List.getD_eq_getElem _ _ (by simp; omega)]
    rw [List.getElem_append_left (by rw [List.length_replicate]; omega)]
    exact List.getElem_replicate _ _


theorem surviving_one_outlier (entries : List Nat) (dp dq : ℚ) (a b : Nat) (hne : dq ≠ dp)
    (hV : accepted_distances entries = List.replicate a dp ++ dq :: List.replicate b dp)
    (hn : 6 ≤ a + b + 1) :
    surviving_distances entries = List.replicate (a + b) dp := by
  have hVlen : (accepted_distances entries).length = a + b + 1 := by
    rw [hV]; simp; omega
  have h6 : (accepted_distances entries).length ≥ MIN_VALID_SAMPLES := by
    rw [hVlen]; exact hn
  have h4 : 4 ≤ (accepted_distances entries).length := by rw [hVlen]; omega
  obtain ⟨a1, _, _⟩ := remove_outliers_iqr_take (accepted_distances entries)
    (accepted_distances entries).length h4 (le_refl _) _ rfl
  unfold surviving_distances
  simp only [if_pos h6]
  rw [a1, List.take_length, hVlen, hV,
    qsort_one_outlier dp dq hne a b ((a + b + 1) / 4) (by omega) (by omega),
    qsort_one_outlier dp dq hne a b (3 * (a + b + 1) / 4) (by omega) (by omega)]
  have hp : ∀ x : ℚ, decide (x ≥ dp - 1.5 * (dp - dp) ∧ x ≤ dp + 1.5 * (dp - dp)) = decide (x = dp) := by
    intro x
    simp only [sub_self, mul_zero, sub_zero, add_zero, ge_iff_le, decide_eq_decide]
    exact ⟨fun h => le_antisymm h.2 h.1, fun h => by rw [h]; exact ⟨le_refl _, le_refl _⟩⟩
  simp only [hp]
  rw [List.filter_append, List.filter_cons_of_neg (by simpa using hne),
    List.filter_eq_self.mpr (fun x hx => by simpa using List.eq_of_mem_replicate hx),
    List.filter_eq_self.mpr (fun x hx => by simpa using List.eq_of_mem_replicate hx),
    ← List.replicate_add]

/-- One attempt on a report whose accepted entries are `a + b` copies of `p` and one `q`. -/
theorem process_report_one_outlier (entries : List Nat) (p q a b : Nat)
    (hacc : accepted_rtts entries = List.replicate a p ++ q :: List.replicate b p)
    (hpq : p ≠ q) (hn : 6 ≤ a + b + 1) :
    process_report (some entries)
      = { result := true, attempt_distance := dist_calibrated p, attempt_variance := 0,
          attempt_valid_count := a + b } := by
  have hV : accepted_distances entries
      = List.replicate a (dist_calibrated p) ++
          dist_calibrated q :: List.replicate b (dist_calibrated p) := by
    rw [accepted_distances_eq_map, hacc]; simp
  have hne : dist_calibrated q ≠ dist_calibrated p :=
    fun h => hpq (dist_calibrated_injective h).symm
  have hS := surviving_one_outlier entries _ _ a b hne hV hn
  have hSne : surviving_distances entries ≠ [] := by
    rw [hS]
    intro h
    have := congrArg List.length h
    simp at this
    omega
  rw [(process_report_survivors entries).1 hSne, hS]
  have hm : calculate_median (List.replicate (a + b) (dist_calibrated p))
      (List.replicate (a + b) (dist_calibrated p)).length = dist_calibrated p := by
    obtain ⟨m1, m2⟩ := calculate_median_between (List.replicate (a + b) (dist_calibrated p))
      (List.replicate (a + b) (dist_calibrated p)).length (dist_calibrated p) (dist_calibrated p)
      (by simp; omega) (le_refl _)
      (fun x hx => by
        rw [List.eq_of_mem_replicate (List.mem_of_mem_take hx)]
        exact ⟨le_refl _, le_refl _⟩)
    exact le_antisymm m2 m1
  rw [hm]
  simp


/-- C20: when the accepted entries of a report are `n ≥ 6` samples of which `n - 1` have
the RTT `p` and one, at any position, has a different RTT `q`, the attempt drops that
sample: it succeeds with `sample_count = n - 1`, the calibrated distance of `p` as its
distance and variance `0`. -/
theorem outlier_dropped (entries : List Nat) (p q a b : Nat)
    (hacc : accepted_rtts entries = List.replicate a p ++ q :: List.replicate b p)
    (hpq : p ≠ q) (hn : 6 ≤ a + b + 1) :
    process_report (some entries)
      = { result := true, attempt_distance := dist_calibrated p, attempt_variance := 0,
          attempt_valid_count := a + b + 1 - 1 } :=
  process_report_one_outlier entries p q a b hacc hpq hn

set_option maxRecDepth 100000 in
theorem outlier_dropped_witness :
    process_report (some (List.replicate 10 40000 ++ [300000]))
      = { result := true, attempt_distance := dist_calibrated 40000, attempt_variance := 0,
          attempt_valid_count := 10 } ∧
    process_report (some ([40000, 40000, 999, 40000, 300000, 0] ++ List.replicate 7 40000))
      = { result := true, attempt_distance := dist_calibrated 40000, attempt_variance := 0,
          attempt_valid_count := 10 } :=
  ⟨outlier_dropped (List.replicate 10 40000 ++ [300000]) 40000 300000 10 0 (by decide!)
      (by decide) (by decide),
   outlier_dropped ([40000, 40000, 999, 40000, 300000, 0] ++ List.replicate 7 40000) 40000
      300000 3 7 (by decide!) (by decide) (by decide)⟩

end Beacon

namespace Gateway

theorem mem_takeWhile_true (p : Nat → Bool) : ∀ (l : List Nat) (b : Nat),
    b ∈ l.takeWhile p → p b = true
  | [], b, h => by simp at h
  | x :: l, b, h => by
    by_cases hx : p x = true
    · rw [List.takeWhile_cons_of_pos hx] at h
      rcases List.mem_cons.mp h with rfl | h1
      · exact hx
      · exact mem_takeWhile_true p l b h1
    · rw [List.takeWhile_cons_of_neg hx] at h
      simp at h

theorem strncpy_drop (old serial : List Nat) : (strncpy old serial 9).drop 9 = old.drop 9 := by
  unfold strncpy
  have hl : ((c_str serial).take 9 ++
      List.replicate (9 - ((c_str serial).take 9).length) 0).length = 9 := by
    have := List.length_take_le 9 (c_str serial)
    simp only [List.length_append, List.length_replicate]
    omega
  rw [List.drop_append_of_le_length (by rw [hl]), List.drop_of_length_le (by rw [hl])]
  rfl

theorem strncpy_c_str (old serial : List Nat) (hs : (c_str serial).length ≤ 9)
    (hold : c_str (old.drop 9) = []) : c_str (strncpy old serial 9) = c_str serial := by
  unfold strncpy
  rw [List.take_of_length_le hs, List.append_assoc]
  unfold c_str at hold ⊢
  rw [List.takeWhile_append_of_pos (fun a ha => mem_takeWhile_true _ _ a ha)]
  have : List.takeWhile (fun b => decide (b ≠ 0))
      (List.replicate (9 - (List.takeWhile (fun b => decide (b ≠ 0)) serial).length) 0 ++
        old.drop 9) = [] := by
    cases h : 9 - (List.takeWhile (fun b => decide (b ≠ 0)) serial).length with
    | zero => simpa using hold
    | succ k => simp [List.replicate_succ]
  rw [this, List.append_nil]

theorem entry_matches_iff (e : beacon_anchor_entry_t) (serial mac : List Nat) :
    entry_matches e serial mac = true ↔ entry_key e = (c_str serial, mac.take 6) := by
  simp [entry_matches, strcmp_eq, memcmp_eq, entry_key, Prod.ext_iff]

theorem no_match_in_use (states : List beacon_anchor_entry_t) (count : Nat)
    (serial mac : List Nat)
    (h : find_loop states serial mac count 0 = none) :
    ∀ e ∈ states.take count, entry_key e ≠ (c_str serial, mac.take 6) := by
  intro e he hk
  rw [find_loop_none] at h
  obtain ⟨j, hj, rfl⟩ := List.mem_take_iff_getElem.mp he
  have hj1 : j < count := (lt_min_iff.mp hj).1
  have hj2 : j < states.length := (lt_min_iff.mp hj).2
  have := h j (Nat.zero_le _) (by omega)
  rw [List.getD_eq_getElem _ _ hj2] at this
  rw [(entry_matches_iff _ _ _).mpr hk] at this
  cases this


theorem create_entry_wf (t : Table) (serial mac : List Nat) (ct : Nat)
    (hcount : t.beacon_anchor_count < 60) (hlen : t.beacon_anchor_states.length = 60)
    (htail : ∀ e ∈ t.beacon_anchor_states, c_str (e.serial_number.drop 9) = [])
    (hnodup : ((t.beacon_anchor_states.take t.beacon_anchor_count).map entry_key).Nodup)
    (hnew : ∀ e ∈ t.beacon_anchor_states.take t.beacon_anchor_count,
      entry_key e ≠ (c_str serial, mac.take 6))
    (hs : (c_str serial).length ≤ 9) (hm : 6 ≤ mac.length) :
    (create_entry t serial mac ct).2.wf := by
  have hlt : t.beacon_anchor_count < t.beacon_anchor_states.length := by omega
  have hold : t.beacon_anchor_states.getD t.beacon_anchor_count entry_zero
      ∈ t.beacon_anchor_states := by
    rw [List.getD_eq_getElem _ _ hlt]; exact List.getElem_mem _
  have hkey : entry_key
      { serial_number := strncpy (t.beacon_anchor_states.getD t.beacon_anchor_count
            entry_zero).serial_number serial 9,
        anchor_mac := memcpy (t.beacon_anchor_states.getD t.beacon_anchor_count
            entry_zero).anchor_mac mac 6,
        kf_state := { (t.beacon_anchor_states.getD t.beacon_anchor_count
            entry_zero).kf_state with initialized := false },
        last_seen := ct } = (c_str serial, mac.take 6) := by
    simp only [entry_key, strncpy_c_str _ _ hs (htail _ hold), memcpy]
    congr 1
    rw [List.take_append_of_le_length (by rw [List.length_take]; omega), List.take_take]
    simp
  simp only [create_entry, Table.wf]
  refine ⟨by omega, by rw [List.length_set]; exact hlen, ?_, ?_⟩
  · intro e he
    rcases List.mem_or_eq_of_mem_set he with h | h
    · exact htail e h
    · rw [h]
      simp only
      rw [strncpy_drop]
      exact htail _ hold
  · rw [take_set_succ_entry _ _ _ hlt, List.map_append, List.map_singleton, hkey]
    rw [List.nodup_append]
    refine ⟨hnodup, List.nodup_singleton _, ?_⟩
    intro k hk1 hk2
    rw [List.mem_singleton] at hk2
    obtain ⟨e, he, hke⟩ := List.mem_map.mp hk1
    exact hnew e he (hke.trans hk2)

theorem cleanup_loop_mem (ct : Nat) (P : beacon_anchor_entry_t → Prop) (h0 : P entry_zero) :
    ∀ (k r w : Nat) (states : List beacon_anchor_entry_t), (∀ e ∈ states, P e) →
      ∀ e ∈ (cleanup_loop ct k r w states).1, P e := by
  intro k
  induction k with
  | zero => intro r w states h; simpa [cleanup_loop] using h
  | succ k ih =>
    intro r w states h
    have hget : P (states.getD r entry_zero) := by
      by_cases hr : r < states.length
      · rw [List.getD_eq_getElem _ _ hr]; exact h _ (List.getElem_mem _)
      · rw [List.getD_eq_default _ _ (by omega)]; exact h0
    rw [cleanup_loop]
    split_ifs
    · apply ih
      intro e he
      rcases List.mem_or_eq_of_mem_set he with h1 | h1
      · exact h e h1
      · rw [h1]; exact hget
    · exact ih _ _ _ h
    · exact ih _ _ _ h

theorem find_or_create_wf (t : Table) (serial mac : List Nat) (now now1 : Nat) (hwf : t.wf)
    (hs : (c_str serial).length ≤ 9) (hm : 6 ≤ mac.length) :
    (find_or_create_entry t serial mac now now1).2.wf := by
  obtain ⟨w1, w2, w3, w4⟩ := hwf
  unfold find_or_create_entry
  simp only [MAX_BEACONS, MAX_ANCHORS_PER_BEACON]
  cases hf : find_loop t.beacon_anchor_states serial mac t.beacon_anchor_count 0 with
  | some i =>
    simp only
    obtain ⟨_, hi, _, _⟩ := (find_loop_some _ _ _ _ _ _).mp hf
    have hil : i < t.beacon_anchor_states.length := by omega
    have hmem : t.beacon_anchor_states.getD i entry_zero ∈ t.beacon_anchor_states := by
      rw [List.getD_eq_getElem _ _ hil]; exact List.getElem_mem _
    refine ⟨w1, by rw [List.length_set]; exact w2, ?_, ?_⟩
    · intro e he
      rcases List.mem_or_eq_of_mem_set he with h | h
      · exact w3 e h
      · rw [h]
        exact w3 (t.beacon_anchor_states.getD i entry_zero) hmem
    · have hk : ((t.beacon_anchor_states.set i
          { t.beacon_anchor_states.getD i entry_zero with last_seen := now % 2 ^ 32 }).take
            t.beacon_anchor_count).map entry_key
          = (t.beacon_anchor_states.take t.beacon_anchor_count).map entry_key := by
        rw [List.set_take, List.map_set]
        apply List.ext_getElem
        · simp
        · intro n h1 h2
          rw [List.getElem_set]
          split_ifs with hin
          · subst hin
            rw [List.getElem_map, List.getElem_take, List.getD_eq_getElem _ _ hil]
            rfl
          · rfl
      simp only
      rw [hk]
      exact w4
  | none =>
    simp only
    have hnew := no_match_in_use _ _ _ _ hf
    by_cases hroom : t.beacon_anchor_count < 60
    · rw [if_pos hroom]
      exact create_entry_wf t serial mac _ hroom w2 w3 w4 hnew hs hm
    · rw [if_neg hroom]
      have hc60 : t.beacon_anchor_count = 60 := by omega
      obtain ⟨c1, c2, c3⟩ := cleanup_loop_spec (now1 % 2 ^ 32) t.beacon_anchor_count 0 0
        t.beacon_anchor_states (le_refl _) (by omega)
      simp only [List.drop_zero, List.take_zero, List.nil_append, Nat.zero_add] at c1 c2
      have hle := cleanup_loop_count_le (now1 % 2 ^ 32) t.beacon_anchor_count 0 0
        t.beacon_anchor_states
      have htail := cleanup_loop_mem (now1 % 2 ^ 32)
        (fun e => c_str (e.serial_number.drop 9) = []) (by decide) t.beacon_anchor_count 0 0
        t.beacon_anchor_states w3
      have hnd : (((cleanup_old_entries t now1).beacon_anchor_states.take
          (cleanup_old_entries t now1).beacon_anchor_count).map entry_key).Nodup := by
        simp only [cleanup_old_entries]
        rw [c1]
        exact w4.sublist ((List.filter_sublist _).map entry_key)
      have hnew2 : ∀ e ∈ (cleanup_old_entries t now1).beacon_anchor_states.take
          (cleanup_old_entries t now1).beacon_anchor_count,
          entry_key e ≠ (c_str serial, mac.take 6) := by
        simp only [cleanup_old_entries]
        rw [c1]
        intro e he
        exact hnew e (List.mem_filter.mp he).1
      by_cases hroom2 : (cleanup_old_entries t now1).beacon_anchor_count < 60
      · rw [if_pos hroom2]
        exact create_entry_wf _ serial mac _ hroom2
          (by simp only [cleanup_old_entries]; rw [c3]; exact w2)
          (by simpa only [cleanup_old_entries] using htail) hnd hnew2 hs hm
      · rw [if_neg hroom2]
        refine ⟨?_, ?_, ?_, hnd⟩
        · simp only [cleanup_old_entries]; omega
        · simp only [cleanup_old_entries]; rw [c3]; exact w2
        · simpa only [cleanup_old_entries] using htail

theorem table_init_wf : Table.init.wf := by
  refine ⟨by decide, by decide, ?_, ?_⟩
  · intro e he
    rw [List.eq_of_mem_replicate he]
    decide
  · simp [Table.init]

theorem table_run_wf : ∀ (calls : List (List Nat × List Nat × Nat × Nat)) (t : Table), t.wf →
    (∀ c ∈ calls, (c_str c.1).length ≤ 9 ∧ 6 ≤ c.2.1.length) → (table_run t calls).wf
  | [], t, h, _ => by simpa [table_run] using h
  | (s, m, now, now1) :: rest, t, h, hc => by
    rw [table_run]
    have h1 := hc (s, m, now, now1) (List.mem_cons_self _ _)
    exact table_run_wf rest _ (find_or_create_wf t s m now now1 h h1.1 h1.2)
      (fun c hcm => hc c (List.mem_cons_of_mem _ hcm))


set_option maxRecDepth 100000 in
/-- C14 (code defect): after any sequence of `find_or_create_entry` calls from the empty
table the count is at most 60, and no two entries share a stored key as long as every
serial string has at most nine characters.  Two calls with the same key whose serial
string has ten characters leave two entries with the same stored serial and MAC: the
stored serial is cut to nine characters by `strncpy`, and `strcmp` against the full
string then fails. -/
theorem table_run_duplicate_key :
    (∀ calls, (table_run Table.init calls).beacon_anchor_count ≤ 60) ∧
    (∀ calls : List (List Nat × List Nat × Nat × Nat),
      (∀ c ∈ calls, (c_str c.1).length ≤ 9 ∧ 6 ≤ c.2.1.length) →
      (((table_run Table.init calls).beacon_anchor_states.take
        (table_run Table.init calls).beacon_anchor_count).map entry_key).Nodup) ∧
    (table_run Table.init
      [([65, 66, 67, 68, 69, 70, 71, 72, 73, 74, 91, 0], [1, 2, 3, 4, 5, 6], 1000, 1000),
       ([65, 66, 67, 68, 69, 70, 71, 72, 73, 74, 91, 0], [1, 2, 3, 4, 5, 6], 2000, 2000)]
      ).beacon_anchor_count = 2 ∧
    ((table_run Table.init
      [([65, 66, 67, 68, 69, 70, 71, 72, 73, 74, 91, 0], [1, 2, 3, 4, 5, 6], 1000, 1000),
       ([65, 66, 67, 68, 69, 70, 71, 72, 73, 74, 91, 0], [1, 2, 3, 4, 5, 6], 2000, 2000)]
      ).beacon_anchor_states.take 2).map entry_key
      = [([65, 66, 67, 68, 69, 70, 71, 72, 73], [1, 2, 3, 4, 5, 6]),
         ([65, 66, 67, 68, 69, 70, 71, 72, 73], [1, 2, 3, 4, 5, 6])] := by
  refine ⟨fun calls => table_run_count_le calls Table.init (by decide),
    fun calls hc => (table_run_wf calls Table.init table_init_wf hc).2.2.2, ?_, ?_⟩
  · decide!
  · decide!

end Gateway

namespace Beacon

/-- The calibrated distance is `rtt * 299792458 / 10^13`. -/
theorem dist_calibrated_eq (rtt : Nat) :
    dist_calibrated rtt = (rtt : ℚ) * 299792458 / 10000000000000 := by
  unfold dist_calibrated FTM_CALIBRATION_FACTOR
  norm_num
  ring

/-- The acceptance window of the collection loop in terms of `rtt`. -/
theorem ftm_sample_isSome_iff (rtt : Nat) :
    (ftm_sample rtt).isSome = true ↔ 5004 ≤ rtt ∧ rtt ≤ 333000 := by
  have hd := dist_calibrated_eq rtt
  unfold ftm_sample rtt_invalid UINT32_MAX
  constructor
  · intro h
    split_ifs at h with h1 h2
    · simp at h
    · simp only [Bool.or_eq_true, decide_eq_true_eq, not_or, not_lt, not_le] at h1
      obtain ⟨⟨⟨_, _⟩, _⟩, h333⟩ := h1
      refine ⟨?_, h333⟩
      by_contra hc
      have hle : rtt ≤ 5003 := by omega
      have hq : (rtt : ℚ) ≤ 5003 := by exact_mod_cast hle
      have := h2.1
      rw [hd] at this
      norm_num at this
      linarith
    · simp at h
  · rintro ⟨h1, h2⟩
    have hq1 : (5004 : ℚ) ≤ rtt := by exact_mod_cast h1
    have hq2 : (rtt : ℚ) ≤ 333000 := by exact_mod_cast h2
    have hv : (rtt = 0 || rtt = 4294967295 || decide (rtt < 1000) || decide (rtt > 333000))
        = false := by
      simp only [Bool.or_eq_false_iff, decide_eq_false_iff_not]
      omega
    rw [hv]
    have hb : dist_calibrated rtt ≥ 0.15 ∧ dist_calibrated rtt ≤ 50.0 := by
      rw [hd]
      constructor
      · norm_num; linarith
      · norm_num; linarith
    simp [hb]


theorem sorted_getD_mono {s : List ℚ} (hs : s.Sorted (· ≤ ·)) {i j : Nat} (hij : i ≤ j)
    (hj : j < s.length) : s.getD i 0 ≤ s.getD j 0 := by
  rw [List.getD_eq_getElem _ _ hj, List.getD_eq_getElem _ _ (by omega)]
  rcases Nat.eq_or_lt_of_le hij with h | h
  · subst h; exact le_refl _
  · exact (List.pairwise_iff_getElem.mp hs) i j (by omega) hj h

/-- A filter keeps at least the cells `lo .. hi` of a list when they all pass the test. -/
theorem filter_length_ge_range (p : ℚ → Bool) : ∀ (s : List ℚ) (lo hi : Nat), lo ≤ hi →
    hi < s.length → (∀ i, lo ≤ i → i ≤ hi → p (s.getD i 0) = true) →
    hi - lo + 1 ≤ (s.filter p).length
  | [], _, _, _, hlen, _ => by simp at hlen
  | x :: rest, 0, 0, _, _, hp => by
    have := hp 0 (le_refl _) (le_refl _)
    simp only [List.getD_cons_zero] at this
    simp [List.filter_cons, this]
  | x :: rest, 0, hi + 1, _, hlen, hp => by
    have h0 := hp 0 (Nat.zero_le _) (Nat.zero_le _)
    simp only [List.getD_cons_zero] at h0
    have ih := filter_length_ge_range p rest 0 hi (Nat.zero_le _)
      (by simp only [List.length_cons] at hlen; omega)
      (fun i _ h2 => by
        have := hp (i + 1) (Nat.zero_le _) (by omega)
        simpa only [List.getD_cons_succ] using this)
    simp only [List.filter_cons, h0, if_true, List.length_cons]
    omega
  | x :: rest, lo + 1, hi + 1, hle, hlen, hp => by
    have ih := filter_length_ge_range p rest lo hi (by omega)
      (by simp only [List.length_cons] at hlen; omega)
      (fun i h1 h2 => by
        have := hp (i + 1) (by omega) (by omega)
        simpa only [List.getD_cons_succ] using this)
    have hmono : (rest.filter p).length ≤ ((x :: rest).filter p).length := by
      simp only [List.filter_cons]
      split <;> simp
    omega
  | x :: rest, lo + 1, 0, hle, _, _ => by omega

/-- The IQR filter keeps every element between the two quartile values, and at least
`3n/4 - n/4 + 1` elements. -/
theorem remove_outliers_iqr_keeps (data : List ℚ) (n : Nat) (h4 : 4 ≤ n)
    (hlen : n ≤ data.length) :
    3 * n / 4 - n / 4 + 1 ≤ (remove_outliers_iqr data n).2 ∧
    (∀ x ∈ data.take n,
      (qsort compare_floats (data.take n)).getD (n / 4) 0 ≤ x →
      x ≤ (qsort compare_floats (data.take n)).getD (3 * n / 4) 0 →
      x ∈ (remove_outliers_iqr data n).1.take (remove_outliers_iqr data n).2) := by
  obtain ⟨t1, t2, _⟩ := remove_outliers_iqr_take data n h4 hlen _ rfl
  have hsl : (qsort compare_floats (data.take n)).length = n := by
    rw [qsort_length, List.length_take]; omega
  have hsorted := qsort_sorted (data.take n)
  have hq : (qsort compare_floats (data.take n)).getD (n / 4) 0
      ≤ (qsort compare_floats (data.take n)).getD (3 * n / 4) 0 :=
    sorted_getD_mono hsorted (by omega) (by omega)
  constructor
  · rw [t2, ← ((qsort_perm (data.take n)).filter _).length_eq]
    apply filter_length_ge_range _ _ _ _ (by omega) (by omega)
    intro i h1 h2
    have a1 := sorted_getD_mono hsorted h1 (show i < _ by omega)
    have a2 := sorted_getD_mono hsorted h2 (show 3 * n / 4 < _ by omega)
    simp only [decide_eq_true_eq, ge_iff_le]
    constructor <;> nlinarith
  · intro x hx h1 h2
    rw [t1, List.mem_filter]
    refine ⟨hx, ?_⟩
    simp only [decide_eq_true_eq, ge_iff_le]
    constructor <;> nlinarith


/-- A successful measurement without RSSI fallback returns the cells filled from one
successful attempt. -/
theorem perform_out_attempt (pow : ℚ → ℚ → ℚ) (drv : Nat → DriverOutcome) (out : FtmOut)
    (hstart : ∀ i, i < (perform_ftm_measurement pow drv out).attempts →
      drv i ≠ .start_refused)
    (hok : (perform_ftm_measurement pow drv out).err = true) :
    ∃ j, j < (perform_ftm_measurement pow drv out).attempts ∧
      (run_attempt (drv j)).result = true ∧
      (perform_ftm_measurement pow drv out).out = attempt_out (run_attempt (drv j)) := by
  rw [perform_eq] at hstart hok ⊢
  split_ifs at hstart hok ⊢ with h0 c0 h1 r0 c1 r1
  · exact absurd h0 (hstart 0 (by simp))
  · exact ⟨0, by simp, c0.1, rfl⟩
  · exact absurd h1 (hstart 1 (by simp))
  · exact ⟨1, by simp, c1.1, rfl⟩
  · exact ⟨0, by simp, r0, rfl⟩
  · exact ⟨1, by simp, r1, rfl⟩

/-- A successful attempt comes from a report with surviving samples. -/
theorem run_attempt_report (o : DriverOutcome) (h : (run_attempt o).result = true) :
    ∃ entries, o = .report (some entries) ∧ surviving_distances entries ≠ [] := by
  cases o with
  | start_refused => simp [run_attempt, Attempt.init] at h
  | timeout => simp [run_attempt, Attempt.init] at h
  | failure_bit => simp [run_attempt, Attempt.init] at h
  | report d =>
    cases d with
    | none => simp [run_attempt, process_report, Attempt.init] at h
    | some entries =>
      refine ⟨entries, rfl, ?_⟩
      intro hS
      have := (process_report_survivors entries).2 hS
      simp only [run_attempt] at h
      rw [h] at this
      cases this

/-- Every accepted sample is at most the calibrated distance of `333000` ps. -/
theorem ftm_sample_le {rtt : Nat} {d : ℚ} (h : ftm_sample rtt = some d) :
    d ≤ 333000 * 1e-12 * 299792458 / 2 * 0.20 := by
  have hs : (ftm_sample rtt).isSome = true := by rw [h]; rfl
  obtain ⟨_, h2⟩ := (ftm_sample_isSome_iff rtt).mp hs
  have hq2 : (rtt : ℚ) ≤ 333000 := by exact_mod_cast h2
  rw [ftm_sample_eq_dist h, dist_calibrated_eq]
  norm_num
  linarith

/-- The distance of a successful attempt lies between `0.15` and the calibrated distance
of `333000` ps. -/
theorem run_attempt_distance_le (o : DriverOutcome) (h : (run_attempt o).result = true) :
    0.15 ≤ (run_attempt o).attempt_distance ∧
    (run_attempt o).attempt_distance ≤ 333000 * 1e-12 * 299792458 / 2 * 0.20 := by
  obtain ⟨entries, rfl, hS⟩ := run_attempt_report o h
  simp only [run_attempt]
  rw [(process_report_survivors entries).1 hS]
  simp only
  apply calculate_median_between _ _ _ _ (List.length_pos.mpr hS) (le_refl _)
  intro x hx
  rw [List.take_length] at hx
  have hacc := surviving_subset entries x hx
  unfold accepted_distances at hacc
  obtain ⟨rtt, _, hr⟩ := List.mem_filterMap.mp hacc
  exact ⟨(ftm_sample_bounds hr).1, ftm_sample_le hr⟩

/-- A report with an accepted sample has a surviving sample. -/
theorem surviving_ne_nil (entries : List Nat) (h : accepted_distances entries ≠ []) :
    surviving_distances entries ≠ [] := by
  unfold surviving_distances
  simp only
  split_ifs with h6
  · have hk := (remove_outliers_iqr_keeps (accepted_distances entries)
      (accepted_distances entries).length (by unfold MIN_VALID_SAMPLES at h6; omega)
      (le_refl _)).1
    obtain ⟨_, _, hle⟩ := ( remove_outliers_iqr_prefix (accepted_distances entries)
      (accepted_distances entries).length (by unfold MIN_VALID_SAMPLES at h6; omega)
      (le_refl _))
    intro hnil
    have := congrArg List.length hnil
    rw [List.length_take] at this
    simp only [List.length_nil] at this
    omega
  · exact h

/-- C28: for `n ≥ 4` values `remove_outliers_iqr` keeps at least `3n/4 - n/4 + 1` of them,
among them every element between the two quartile values, so the result is not empty; a
report with at least one accepted sample therefore always gives a successful attempt. -/
theorem remove_outliers_iqr_nonempty (data : List ℚ) (n : Nat) (h4 : 4 ≤ n)
    (hlen : n ≤ data.length) :
    3 * n / 4 - n / 4 + 1 ≤ (remove_outliers_iqr data n).2 ∧
    (∀ x ∈ data.take n,
      (qsort compare_floats (data.take n)).getD (n / 4) 0 ≤ x →
      x ≤ (qsort compare_floats (data.take n)).getD (3 * n / 4) 0 →
      x ∈ (remove_outliers_iqr data n).1.take (remove_outliers_iqr data n).2) ∧
    0 < (remove_outliers_iqr data n).2 ∧
    (∀ entries : List Nat, accepted_distances entries ≠ [] →
      (process_report (some entries)).result = true ∧
      0 < (process_report (some entries)).attempt_valid_count) := by
  obtain ⟨k1, k2⟩ := remove_outliers_iqr_keeps data n h4 hlen
  refine ⟨k1, k2, by omega, ?_⟩
  intro entries hV
  have hS := surviving_ne_nil entries hV
  rw [(process_report_survivors entries).1 hS]
  exact ⟨rfl, List.length_pos.mpr hS⟩

theorem remove_outliers_iqr_nonempty_witness :
    (remove_outliers_iqr [1, 2, 3, 4, 100] 5).2 = 4 ∧
    3 * 5 / 4 - 5 / 4 + 1 ≤ (remove_outliers_iqr [1, 2, 3, 4, 100] 5).2 ∧
    (process_report (some [100, 6000, 400000])).result = true := by
  have h := remove_outliers_iqr_nonempty [1, 2, 3, 4, 100] 5 (by decide) (by decide)
  refine ⟨by decide!, h.1, (h.2.2.2 [100, 6000, 400000] (by decide!)).1⟩


/-- The cast truncates: for `0 ≤ d ≤ 50` the value stored is the floor of the quotient. -/
theorem rtt_from_distance_floor (d : ℚ) (h0 : 0 ≤ d) (h50 : d ≤ 50) :
    ((rtt_from_distance d : Nat) : ℤ) = ⌊d / 0.20 * 2 / 0.299792458⌋ := by
  have hx : (d / FTM_CALIBRATION_FACTOR) * 2.0 / 0.299792458 = d / 0.20 * 2 / 0.299792458 := by
    unfold FTM_CALIBRATION_FACTOR; norm_num
  have hnn : (0 : ℚ) ≤ d / 0.20 * 2 / 0.299792458 := by
    norm_num
    positivity
  have hlt : d / 0.20 * 2 / 0.299792458 < 1700 := by
    norm_num
    rw [div_lt_iff₀ (by norm_num)]
    linarith
  have hf0 : 0 ≤ ⌊d / 0.20 * 2 / 0.299792458⌋ := Int.floor_nonneg.mpr hnn
  have hf1 : ⌊d / 0.20 * 2 / 0.299792458⌋ < 1700 := by
    have := Int.floor_le (d / 0.20 * 2 / 0.299792458)
    have h2 : ((⌊d / 0.20 * 2 / 0.299792458⌋ : ℤ) : ℚ) < (1700 : ℤ) := by
      push_cast; linarith
    exact_mod_cast h2
  unfold rtt_from_distance
  rw [hx]
  have hn : (⌊d / 0.20 * 2 / 0.299792458⌋).toNat < 2 ^ 32 := by omega
  rw [Nat.mod_eq_of_lt hn]
  exact Int.toNat_of_nonneg hf0

/-- The quotient the cast is applied to, for the calibrated distance of `p` ps, is `p / 1000`. -/
theorem rtt_quotient_dist (p : Nat) :
    dist_calibrated p / 0.20 * 2 / 0.299792458 = (p : ℚ) / 1000 := by
  rw [dist_calibrated_eq]
  norm_num
  ring

/-- When every accepted entry of a report has the same RTT `p`, a successful attempt
returns the calibrated distance of `p`. -/
theorem equal_samples_distance (entries : List Nat) (p : Nat)
    (hp : ∀ r ∈ accepted_rtts entries, r = p)
    (hr : (process_report (some entries)).result = true) :
    (process_report (some entries)).attempt_distance = dist_calibrated p := by
  obtain ⟨entries1, he, hS⟩ := run_attempt_report (.report (some entries)) hr
  have he1 : entries1 = entries := by
    injection he with he; injection he with he; exact he.symm
  subst he1
  rw [(process_report_survivors entries1).1 hS]
  simp only
  have hb := calculate_median_between (surviving_distances entries1)
    (surviving_distances entries1).length (dist_calibrated p) (dist_calibrated p)
    (List.length_pos.mpr hS) (le_refl _) (by
      intro x hx
      rw [List.take_length] at hx
      have hacc := surviving_subset entries1 x hx
      rw [accepted_distances_eq_map] at hacc
      obtain ⟨r, hr1, hr2⟩ := List.mem_map.mp hacc
      rw [← hr2, hp r hr1]
      exact ⟨le_refl _, le_refl _⟩)
  exact le_antisymm hb.2 hb.1

/-- The cast applied to the calibrated distance of an accepted `p` gives `p / 1000`. -/
theorem rtt_from_distance_dist (p : Nat) (h : p ≤ 333000) :
    rtt_from_distance (dist_calibrated p) = p / 1000 := by
  have h0 : (0 : ℚ) ≤ dist_calibrated p := by
    rw [dist_calibrated_eq]; positivity
  have h50 : dist_calibrated p ≤ 50 := by
    have hq : (p : ℚ) ≤ 333000 := by exact_mod_cast h
    rw [dist_calibrated_eq]
    norm_num
    linarith
  have hf := rtt_from_distance_floor (dist_calibrated p) h0 h50
  rw [rtt_quotient_dist] at hf
  have hc : ((p : ℚ) / 1000) = (((p : ℤ) : ℚ) / ((1000 : ℕ) : ℚ)) := by push_cast; rfl
  rw [hc, Rat.floor_intCast_div_natCast] at hf
  exact_mod_cast hf

/-- C21 (amended): when `perform_ftm_measurement` returns a result obtained from an FTM
report with best distance `d`, the reported `rtt_ns` is `d / 0.20 * 2 / 0.299792458`
truncated to an integer (its floor), not rounded to the nearest one. -/
theorem perform_rtt_floor (pow : ℚ → ℚ → ℚ) (drv : Nat → DriverOutcome) (out : FtmOut)
    (hstart : ∀ i, i < (perform_ftm_measurement pow drv out).attempts →
      drv i ≠ .start_refused)
    (hok : (perform_ftm_measurement pow drv out).err = true) :
    (((perform_ftm_measurement pow drv out).out.rtt_ns : Nat) : ℤ)
      = ⌊(perform_ftm_measurement pow drv out).out.distance / 0.20 * 2 / 0.299792458⌋ := by
  obtain ⟨j, _, hr, ho⟩ := perform_out_attempt pow drv out hstart hok
  obtain ⟨b1, b2⟩ := run_attempt_distance_le (drv j) hr
  rw [ho]
  simp only [attempt_out]
  apply rtt_from_distance_floor
  · linarith
  · have : (333000 * 1e-12 * 299792458 / 2 * 0.20 : ℚ) < 50 := by norm_num
    linarith

set_option maxRecDepth 100000 in
theorem perform_rtt_floor_witness :
    (perform_ftm_measurement (fun _ _ => 31.6227766)
      (fun _ => .report (some [5600])) ⟨0, 0, 0, 0⟩).out.rtt_ns = 5 ∧
    (((perform_ftm_measurement (fun _ _ => 31.6227766)
      (fun _ => .report (some [5600])) ⟨0, 0, 0, 0⟩).out.rtt_ns : Nat) : ℤ)
      = ⌊(perform_ftm_measurement (fun _ _ => 31.6227766)
          (fun _ => .report (some [5600])) ⟨0, 0, 0, 0⟩).out.distance
          / 0.20 * 2 / 0.299792458⌋ :=
  ⟨by decide!,
   perform_rtt_floor (fun _ _ => 31.6227766)
    (fun _ => .report (some [5600])) ⟨0, 0, 0, 0⟩
    (fun _ _ => by simp) (by decide!)⟩

set_option maxRecDepth 100000 in
/-- C21 (as stated) fails: a report of one entry of `5600` ps gives the distance
`1049273603/6250000000`, for which `d / 0.20 * 2 / 0.299792458 = 5.6` rounds to `6`,
while the reported `rtt_ns` is `5`. -/
theorem perform_rtt_round_counterexample :
    (perform_ftm_measurement (fun _ _ => 31.6227766)
      (fun _ => .report (some [5600])) ⟨0, 0, 0, 0⟩)
      = { err := true,
          out := { distance := 1049273603 / 6250000000, variance := 0, valid_count := 1,
                   rtt_ns := 5 },
          attempts := 1 } ∧
    round ((1049273603 / 6250000000 : ℚ) / 0.20 * 2 / 0.299792458) = 6 := by
  refine ⟨by decide!, ?_⟩
  rw [round_eq, Int.floor_eq_iff]
  norm_num

/-- C22: when `perform_ftm_measurement` returns a result obtained from an FTM report, the
reported `rtt_ns` differs from `(d / 0.20) * 2 / 0.299792458` by less than `1`; and when
the attempt the result comes from had accepted entries that all carry the same
`rtt_ps = p`, then `rtt_ns = p / 1000` rounded down. -/
theorem perform_rtt_within_one (pow : ℚ → ℚ → ℚ) (drv : Nat → DriverOutcome) (out : FtmOut)
    (hstart : ∀ i, i < (perform_ftm_measurement pow drv out).attempts →
      drv i ≠ .start_refused)
    (hok : (perform_ftm_measurement pow drv out).err = true) :
    |(((perform_ftm_measurement pow drv out).out.rtt_ns : Nat) : ℚ)
      - (perform_ftm_measurement pow drv out).out.distance / 0.20 * 2 / 0.299792458| < 1 ∧
    ∃ j, j < (perform_ftm_measurement pow drv out).attempts ∧
      (run_attempt (drv j)).result = true ∧
      (perform_ftm_measurement pow drv out).out.distance
        = (run_attempt (drv j)).attempt_distance ∧
      ∀ entries p, drv j = .report (some entries) → (∀ r ∈ accepted_rtts entries, r = p) →
        (perform_ftm_measurement pow drv out).out.rtt_ns = p / 1000 := by
  obtain ⟨j, hj, hr, ho⟩ := perform_out_attempt pow drv out hstart hok
  obtain ⟨b1, b2⟩ := run_attempt_distance_le (drv j) hr
  have h50 : (run_attempt (drv j)).attempt_distance ≤ 50 := by
    have : (333000 * 1e-12 * 299792458 / 2 * 0.20 : ℚ) < 50 := by norm_num
    linarith
  have hfl := rtt_from_distance_floor (run_attempt (drv j)).attempt_distance
    (by linarith) h50
  constructor
  · rw [ho]
    simp only [attempt_out]
    have hq : ((rtt_from_distance (run_attempt (drv j)).attempt_distance : Nat) : ℚ)
        = ((⌊(run_attempt (drv j)).attempt_distance / 0.20 * 2 / 0.299792458⌋ : ℤ) : ℚ) := by
      rw [← hfl]; push_cast; rfl
    rw [hq, abs_lt]
    have f1 := Int.floor_le ((run_attempt (drv j)).attempt_distance / 0.20 * 2 / 0.299792458)
    have f2 := Int.lt_floor_add_one
      ((run_attempt (drv j)).attempt_distance / 0.20 * 2 / 0.299792458)
    constructor <;> linarith
  · refine ⟨j, hj, hr, by rw [ho]; rfl, ?_⟩
    intro entries p hd hp
    rw [ho]
    simp only [attempt_out]
    rw [hd] at hr ⊢
    simp only [run_attempt] at hr ⊢
    rw [equal_samples_distance entries p hp hr]
    apply rtt_from_distance_dist
    obtain ⟨entries1, he, hS⟩ := run_attempt_report (.report (some entries)) hr
    have he1 : entries1 = entries := by
      injection he with he; injection he with he; exact he.symm
    subst he1
    obtain ⟨x, hx⟩ := List.exists_mem_of_ne_nil _ hS
    have hacc := surviving_subset entries1 x hx
    rw [accepted_distances_eq_map] at hacc
    obtain ⟨r, hr1, _⟩ := List.mem_map.mp hacc
    have hrp := hp r hr1
    subst hrp
    unfold accepted_rtts at hr1
    have hs := (List.mem_filter.mp hr1).2
    exact ((ftm_sample_isSome_iff r).mp hs).2

set_option maxRecDepth 100000 in
theorem perform_rtt_within_one_witness :
    (perform_ftm_measurement (fun _ _ => 31.6227766)
      (fun _ => .report (some [40999])) ⟨0, 0, 0, 0⟩).out.rtt_ns = 40 ∧
    |(((perform_ftm_measurement (fun _ _ => 31.6227766)
      (fun _ => .report (some [40999])) ⟨0, 0, 0, 0⟩).out.rtt_ns : Nat) : ℚ)
      - (perform_ftm_measurement (fun _ _ => 31.6227766)
          (fun _ => .report (some [40999])) ⟨0, 0, 0, 0⟩).out.distance
          / 0.20 * 2 / 0.299792458| < 1 :=
  ⟨by decide!,
   (perform_rtt_within_one (fun _ _ => 31.6227766)
    (fun _ => .report (some [40999])) ⟨0, 0, 0, 0⟩
    (fun _ _ => by simp) (by decide!)).1⟩

end Beacon

namespace Gateway

/-- The gain of an update with non-negative `P`, `Q`, `dt`, `v` and a positive divisor
lies in `[0, 1]`. -/
theorem kalman_gain_unit (kf : kalman_filter_state_t) (v dt : ℚ)
    (hP : 0 ≤ kf.P) (hQ : 0 ≤ kf.Q) (hdt : 0 ≤ dt) (hv : 0 ≤ v)
    (hD : 0 < kf.P + kf.Q * dt + v) :
    0 ≤ kalman_gain kf v dt ∧ kalman_gain kf v dt ≤ 1 := by
  have hPp : 0 ≤ kf.P + kf.Q * dt := add_nonneg hP (mul_nonneg hQ hdt)
  unfold kalman_gain
  constructor
  · exact div_nonneg hPp hD.le
  · rw [div_le_one hD]; linarith

/-- The update written with the gain: `x' = x + K (z - x)`, `P' = (1 - K) P_pred`. -/
theorem kalman_update_gain (kf : kalman_filter_state_t) (z v dt : ℚ) (now : Nat)
    (hinit : kf.initialized = true) :
    (kalman_update_values kf z v dt now).2.x = kf.x + kalman_gain kf v dt * (z - kf.x) ∧
    (kalman_update_values kf z v dt now).2.P
      = (1 - kalman_gain kf v dt) * (kf.P + kf.Q * dt) ∧
    (kalman_update_values kf z v dt now).1 = (kalman_update_values kf z v dt now).2.x := by
  have h2 : (1.0 : ℚ) = 1 := by norm_num
  simp only [kalman_update_values, hinit, kalman_gain, Bool.not_true, Bool.false_eq_true,
    if_false, h2]
  exact ⟨trivial, trivial, trivial⟩

/-- The bounds of one update with a positive gain divisor, on the values it assigns. -/
theorem kalman_values_bounded (kf : kalman_filter_state_t) (z v dt : ℚ) (now : Nat)
    (hinit : kf.initialized = true) (hP : 0 ≤ kf.P) (hQ : 0 ≤ kf.Q) (hdt : 0 ≤ dt)
    (hv : 0 ≤ v) (hD : 0 < kf.P + kf.Q * dt + v) :
    (kalman_update_values kf z v dt now).2.x = kf.x + kalman_gain kf v dt * (z - kf.x) ∧
    (kalman_update_values kf z v dt now).2.P
      = (1 - kalman_gain kf v dt) * (kf.P + kf.Q * dt) ∧
    (kalman_update_values kf z v dt now).1 = (kalman_update_values kf z v dt now).2.x ∧
    0 ≤ kalman_gain kf v dt ∧ kalman_gain kf v dt ≤ 1 ∧
    min kf.x z ≤ (kalman_update_values kf z v dt now).2.x ∧
    (kalman_update_values kf z v dt now).2.x ≤ max kf.x z ∧
    0 ≤ (kalman_update_values kf z v dt now).2.P ∧
    (kalman_update_values kf z v dt now).2.P ≤ min (kf.P + kf.Q * dt) v := by
  obtain ⟨g1, g2, g3⟩ := kalman_update_gain kf z v dt now hinit
  obtain ⟨k0, k1⟩ := kalman_gain_unit kf v dt hP hQ hdt hv hD
  have hPp : 0 ≤ kf.P + kf.Q * dt := add_nonneg hP (mul_nonneg hQ hdt)
  have hKv : (1 - kalman_gain kf v dt) * (kf.P + kf.Q * dt) = kalman_gain kf v dt * v := by
    unfold kalman_gain
    field_simp
    ring
  refine ⟨g1, g2, g3, k0, k1, ?_, ?_, ?_, ?_⟩
  · rw [g1]
    rcases le_total kf.x z with h | h
    · rw [min_eq_left h]
      nlinarith [mul_nonneg k0 (sub_nonneg.mpr h)]
    · rw [min_eq_right h]
      nlinarith [mul_nonneg (sub_nonneg.mpr k1) (sub_nonneg.mpr h)]
  · rw [g1]
    rcases le_total kf.x z with h | h
    · rw [max_eq_right h]
      nlinarith [mul_nonneg (sub_nonneg.mpr k1) (sub_nonneg.mpr h)]
    · rw [max_eq_left h]
      nlinarith [mul_nonneg k0 (sub_nonneg.mpr h)]
  · rw [g2]
    exact mul_nonneg (sub_nonneg.mpr k1) hPp
  · rw [le_min_iff]
    constructor
    · rw [g2]
      nlinarith [mul_nonneg k0 hPp]
    · rw [g2, hKv]
      nlinarith [mul_nonneg (sub_nonneg.mpr k1) hv]

/-- C30: for an initialized state with `P ≥ 0`, `Q ≥ 0` and an update with `dt ≥ 0`,
`v ≥ 0` and `P + Q*dt + v > 0`, `kalman_filter_update` returns a result, computed as
`x' = x + K (z - x)` and `P' = (1 - K)(P + Q*dt)` with a gain `0 ≤ K ≤ 1`; the new estimate
lies between the old estimate and the measurement, and `0 ≤ P' ≤ min (P + Q*dt) v`, so
`P ≥ 0` is preserved. -/
theorem kalman_update_bounded (kf : kalman_filter_state_t) (z v dt : ℚ) (now : Nat)
    (hinit : kf.initialized = true) (hP : 0 ≤ kf.P) (hQ : 0 ≤ kf.Q) (hdt : 0 ≤ dt)
    (hv : 0 ≤ v) (hD : 0 < kf.P + kf.Q * dt + v) :
    ∃ r, kalman_filter_update kf z v dt now = some r ∧
      r.2.x = kf.x + kalman_gain kf v dt * (z - kf.x) ∧
      r.2.P = (1 - kalman_gain kf v dt) * (kf.P + kf.Q * dt) ∧
      r.1 = r.2.x ∧
      0 ≤ kalman_gain kf v dt ∧ kalman_gain kf v dt ≤ 1 ∧
      min kf.x z ≤ r.2.x ∧ r.2.x ≤ max kf.x z ∧
      0 ≤ r.2.P ∧ r.2.P ≤ min (kf.P + kf.Q * dt) v :=
  ⟨_, kalman_update_exact_eq kf z v dt now hinit (ne_of_gt hD),
    kalman_values_bounded kf z v dt now hinit hP hQ hdt hv hD⟩

theorem kalman_update_bounded_witness :
    kalman_gain ⟨5, 1, 1 / 20, 0, 0, true⟩ (1 / 4) 1 = 21 / 26 ∧
    ∃ r, kalman_filter_update ⟨5, 1, 1 / 20, 0, 0, true⟩ 3 (1 / 4) 1 1000 = some r ∧
      r.2.x = 44 / 13 ∧ r.2.P = 21 / 104 ∧
      min (5 : ℚ) 3 ≤ r.2.x ∧ r.2.x ≤ max (5 : ℚ) 3 ∧
      r.2.P ≤ min ((1 : ℚ) + 1 / 20 * 1) (1 / 4) := by
  obtain ⟨r, h0, h⟩ := kalman_update_bounded ⟨5, 1, 1 / 20, 0, 0, true⟩ 3 (1 / 4) 1 1000 rfl
    (by norm_num) (by norm_num) (by norm_num) (by norm_num) (by norm_num)
  have hK : kalman_gain ⟨5, 1, 1 / 20, 0, 0, true⟩ (1 / 4) 1 = 21 / 26 := by
    simp only [kalman_gain]; norm_num
  refine ⟨hK, r, h0, ?_, ?_, h.2.2.2.2.2.1, h.2.2.2.2.2.2.1, h.2.2.2.2.2.2.2.2⟩
  · rw [h.1, hK]; norm_num
  · rw [h.2.1, hK]; norm_num

end Gateway

namespace Beacon

theorem getD_set_swap {α : Type} (a : List α) (d : α) (i j p : Nat) (hi : i < a.length)
    (hj : j < a.length) (hij : i ≠ j) :
    ((a.set i (a.getD j d)).set j (a.getD i d)).getD p d
      = if p = j then a.getD i d else if p = i then a.getD j d else a.getD p d := by
  simp only [List.getD_eq_getElem?_getD, List.getElem?_set, List.length_set]
  by_cases h1 : p = j
  · subst h1
    simp [hj]
  · by_cases h2 : p = i
    · subst h2
      simp [h1, hi, Ne.symm h1]
    · simp [h1, h2, Ne.symm h1, Ne.symm h2]

theorem cons_set_perm {α : Type} (d : α) : ∀ (t : List α) (j : Nat) (x : α), j < t.length →
    (t.getD j d :: t.set j x).Perm (x :: t)
  | [], _, _, h => by simp at h
  | y :: t, 0, x, _ => by
    simp only [List.getD_cons_zero, List.set_cons_zero]
    exact List.Perm.swap x y t
  | y :: t, j + 1, x, h => by
    simp only [List.getD_cons_succ, List.set_cons_succ]
    have ih := cons_set_perm d t j x (by simpa using h)
    exact ((List.Perm.swap y (t.getD j d) (t.set j x)).trans (ih.cons y)).trans
      (List.Perm.swap x y t)

/-- Exchanging two cells of an array permutes it. -/
theorem swap_perm {α : Type} (d : α) : ∀ (a : List α) (i j : Nat), i < j → j < a.length →
    ((a.set i (a.getD j d)).set j (a.getD i d)).Perm a
  | [], _, _, _, h => by simp at h
  | x :: t, 0, j + 1, _, h => by
    simp only [List.getD_cons_succ, List.set_cons_zero, List.set_cons_succ, List.getD_cons_zero]
    exact cons_set_perm d t j x (by simpa using h)
  | x :: t, i + 1, j + 1, hij, h => by
    simp only [List.getD_cons_succ, List.set_cons_succ]
    exact (swap_perm d t i j (by omega) (by simpa using h)).cons x


/-- The inner loop for index `i`: it permutes the array, touches only the cells
`i .. n-1`, leaves in cell `i` an element whose key is least among them, and keeps every
lower bound of the keys of those cells. -/
theorem exchange_inner_spec {α β : Type} [LinearOrder β] (test : α → α → Bool) (key : α → β)
    (htest : ∀ x y, test x y = true ↔ key x < key y) (d : α) (i n : Nat) :
    ∀ (k j : Nat) (a : List α), i < j → j + k = n → n ≤ a.length →
    (∀ q, i < q → q < j → key (a.getD i d) ≤ key (a.getD q d)) →
    (exchange_inner test d i k j a).Perm a ∧
    (exchange_inner test d i k j a).length = a.length ∧
    (∀ p, (p < i ∨ n ≤ p) → (exchange_inner test d i k j a).getD p d = a.getD p d) ∧
    (∀ q, i < q → q < n →
      key ((exchange_inner test d i k j a).getD i d)
        ≤ key ((exchange_inner test d i k j a).getD q d)) ∧
    (∀ b, (∀ q, i ≤ q → q < n → b ≤ key (a.getD q d)) →
      ∀ q, i ≤ q → q < n → b ≤ key ((exchange_inner test d i k j a).getD q d))
  | 0, j, a, _, hjk, _, hinv => by
    have hj : j = n := by omega
    subst hj
    simp only [exchange_inner]
    exact ⟨List.Perm.refl _, trivial, fun _ _ => trivial, hinv, fun _ hb => hb⟩
  | k + 1, j, a, hij, hjk, hlen, hinv => by
    simp only [exchange_inner]
    split_ifs with ht
    · have hg := fun p => getD_set_swap a d i j p (by omega) (by omega) (by omega)
      have hlt := (htest _ _).mp ht
      obtain ⟨p1, p2, p3, p4, p5⟩ := exchange_inner_spec test key htest d i n k (j + 1)
        ((a.set i (a.getD j d)).set j (a.getD i d)) (by omega) (by omega)
        (by simp only [List.length_set]; exact hlen)
        (by
          intro q h1 h2
          rw [hg i, hg q, if_neg (by omega), if_pos rfl]
          by_cases hq : q = j
          · rw [if_pos hq]; exact le_of_lt hlt
          · rw [if_neg hq, if_neg (by omega)]
            exact le_trans (le_of_lt hlt) (hinv q h1 (by omega)))
      refine ⟨p1.trans (swap_perm d a i j hij (by omega)), ?_, ?_, p4, ?_⟩
      · rw [p2]; simp only [List.length_set]
      · intro p hp
        rw [p3 p hp, hg p, if_neg (by omega), if_neg (by omega)]
      · intro b hb
        apply p5 b
        intro q h1 h2
        rw [hg q]
        split_ifs
        · exact hb i (le_refl _) (by omega)
        · exact hb j (by omega) (by omega)
        · exact hb q h1 h2
    · have hge : key (a.getD i d) ≤ key (a.getD j d) := by
        rw [← not_lt]
        exact fun h => ht ((htest _ _).mpr h)
      exact exchange_inner_spec test key htest d i n k (j + 1) a (by omega) (by omega) hlen
        (by
          intro q h1 h2
          by_cases hq : q = j
          · subst hq; exact hge
          · exact hinv q h1 (by omega))

/-- The outer loop: after it the first `n` cells are in non-decreasing key order. -/
theorem exchange_outer_spec {α β : Type} [LinearOrder β] (test : α → α → Bool) (key : α → β)
    (htest : ∀ x y, test x y = true ↔ key x < key y) (d : α) (n : Nat) :
    ∀ (k i : Nat) (a : List α), i + k + 1 = n → n ≤ a.length →
    (∀ p q, p < i → p < q → q < n → key (a.getD p d) ≤ key (a.getD q d)) →
    (exchange_outer test d n k i a).Perm a ∧
    (exchange_outer test d n k i a).length = a.length ∧
    (∀ p, n ≤ p → (exchange_outer test d n k i a).getD p d = a.getD p d) ∧
    (∀ p q, p < q → q < n →
      key ((exchange_outer test d n k i a).getD p d)
        ≤ key ((exchange_outer test d n k i a).getD q d))
  | 0, i, a, hik, _, hinv => by
    simp only [exchange_outer]
    refine ⟨List.Perm.refl _, trivial, fun _ _ => trivial, ?_⟩
    intro p q h1 h2
    exact hinv p q (by omega) h1 h2
  | k + 1, i, a, hik, hlen, hinv => by
    simp only [exchange_outer]
    obtain ⟨p1, p2, p3, p4, p5⟩ := exchange_inner_spec test key htest d i n (n - (i + 1))
      (i + 1) a (by omega) (by omega) hlen (by intro q h1 h2; omega)
    obtain ⟨o1, o2, o3, o4⟩ := exchange_outer_spec test key htest d n k (i + 1)
      (exchange_inner test d i (n - (i + 1)) (i + 1) a) (by omega) (by rw [p2]; exact hlen)
      (by
        intro p q h1 h2 h3
        by_cases hp : p = i
        · subst hp; exact p4 q h2 h3
        · have hpi : p < i := by omega
          rw [p3 p (Or.inl hpi)]
          by_cases hq : q < i
          · rw [p3 q (Or.inl hq)]
            exact hinv p q hpi h2 h3
          · exact p5 (key (a.getD p d))
              (fun q1 h4 h5 => hinv p q1 hpi (by omega) h5) q (by omega) h3)
    refine ⟨o1.trans p1, by rw [o2, p2], ?_, o4⟩
    intro p hp
    rw [o3 p hp, p3 p (Or.inr hp)]

theorem drop_eq_of_getD {α : Type} (d : α) (n : Nat) : ∀ (r a : List α),
    r.length = a.length → (∀ p, n ≤ p → r.getD p d = a.getD p d) → r.drop n = a.drop n := by
  intro r a hl h
  apply List.ext_getElem
  · simp only [List.length_drop, hl]
  · intro m h1 h2
    simp only [List.length_drop] at h1 h2
    rw [List.getElem_drop, List.getElem_drop]
    have := h (n + m) (by omega)
    rw [List.getD_eq_getElem _ _ (by omega), List.getD_eq_getElem _ _ (by omega)] at this
    exact this

/-- The two loops sort the first `count` cells: the result is a permutation of them in
non-decreasing key order, and the other cells are unchanged. -/
theorem exchange_sort_spec {α β : Type} [LinearOrder β] (test : α → α → Bool) (key : α → β)
    (htest : ∀ x y, test x y = true ↔ key x < key y) (d : α) (a : List α) (n : Nat)
    (hlen : n ≤ a.length) :
    ((exchange_sort test d a n).take n).Perm (a.take n) ∧
    (exchange_sort test d a n).length = a.length ∧
    (exchange_sort test d a n).drop n = a.drop n ∧
    ((exchange_sort test d a n).take n).Pairwise (fun x y => key x ≤ key y) := by
  unfold exchange_sort
  by_cases hn : n = 0
  · subst hn
    simp [exchange_outer]
  · obtain ⟨o1, o2, o3, o4⟩ := exchange_outer_spec test key htest d n (n - 1) 0 a (by omega)
      hlen (by intro p q h; omega)
    have hdrop := drop_eq_of_getD d n _ _ o2 o3
    refine ⟨?_, o2, hdrop, ?_⟩
    · have h1 : ((exchange_outer test d n (n - 1) 0 a).take n
          ++ (exchange_outer test d n (n - 1) 0 a).drop n).Perm (a.take n ++ a.drop n) := by
        rw [List.take_append_drop, List.take_append_drop]
        exact o1
      rw [hdrop] at h1
      exact (List.perm_append_right_iff _).mp h1
    · rw [List.pairwise_iff_getElem]
      intro p q hp hq hpq
      simp only [List.length_take] at hp hq
      rw [List.getElem_take, List.getElem_take]
      have := o4 p q hpq (by omega)
      rw [List.getD_eq_getElem _ _ (by omega), List.getD_eq_getElem _ _ (by omega)] at this
      exact this


theorem take_set_succ_gen {α : Type} (l : List α) (n : Nat) (e : α) (h : n < l.length) :
    (l.set n e).take (n + 1) = l.take n ++ [e] := by
  induction l generalizing n with
  | nil => simp at h
  | cons x rest ih =>
    cases n with
    | zero => simp
    | succ m =>
      simp only [List.length_cons] at h
      simp only [List.set_cons_succ, List.take_succ_cons, List.cons_append]
      rw [ih m (by omega)]

theorem take_succ_getD (l : List floor_info_t) (i : Nat) (h : i < l.length) :
    l.take (i + 1) = l.take i ++ [l.getD i floor_info_zero] := by
  rw [List.take_succ, List.getD_eq_getElem _ _ h, List.getElem?_eq_getElem h]
  rfl

/-- The tally loop counts, for each `v < 10`, the entries with floor `v`. -/
theorem tally_loop_spec (fl : List floor_info_t) : ∀ (k i : Nat) (fc : List Nat),
    fc.length = 10 → i + k ≤ 255 → i + k ≤ fl.length →
    (∀ v, v < 10 → fc.getD v 0 = ((fl.take i).map (fun e => e.floor)).count v) →
    (tally_loop fl k i fc).length = 10 ∧
    ∀ v, v < 10 →
      (tally_loop fl k i fc).getD v 0 = ((fl.take (i + k)).map (fun e => e.floor)).count v
  | 0, i, fc, hl, _, _, h => by
    simp only [tally_loop, Nat.add_zero]
    exact ⟨hl, h⟩
  | k + 1, i, fc, hl, h255, hlen, h => by
    have hi : i < fl.length := by omega
    have hcnt : ∀ v, ((fl.take i).map (fun e => e.floor)).count v ≤ i := by
      intro v
      refine le_trans (List.count_le_length _ _) ?_
      rw [List.length_map, List.length_take]
      omega
    have hstep : ∀ v, ((fl.take (i + 1)).map (fun e => e.floor)).count v
        = ((fl.take i).map (fun e => e.floor)).count v
          + (if (fl.getD i floor_info_zero).floor = v then 1 else 0) := by
      intro v
      rw [take_succ_getD fl i hi, List.map_append, List.count_append]
      simp only [List.map_cons, List.map_nil, List.count_cons, List.count_nil, zero_add,
        beq_iff_eq]
    simp only [tally_loop]
    have hidx : i + (k + 1) = (i + 1) + k := by omega
    rw [hidx]
    split_ifs with hf
    · apply tally_loop_spec fl k (i + 1) _ (by rw [List.length_set]; exact hl)
        (by omega) (by omega)
      intro v hv
      rw [hstep v]
      by_cases hvf : (fl.getD i floor_info_zero).floor = v
      · subst hvf
        rw [List.getD_eq_getElem?_getD, List.getElem?_set_self (by omega), Option.getD_some,
          h _ hf, if_pos rfl]
        have := hcnt (fl.getD i floor_info_zero).floor
        omega
      · rw [List.getD_eq_getElem?_getD, List.getElem?_set_ne hvf, ← List.getD_eq_getElem?_getD,
          h v hv, if_neg hvf]
        rfl
    · apply tally_loop_spec fl k (i + 1) fc hl (by omega) (by omega)
      intro v hv
      rw [hstep v, h v hv, if_neg (by omega)]
      rfl

/-- The search loop returns the lowest index holding the greatest counter, or `(0, 0)`
when every counter is zero. -/
theorem mode_loop_spec (fc : List Nat) : ∀ (k i mode mx : Nat), i + k = 10 →
    (∀ v, v < i → fc.getD v 0 ≤ mx) →
    ((mx = 0 ∧ mode = 0) ∨
      (mode < i ∧ fc.getD mode 0 = mx ∧ 0 < mx ∧ ∀ v, v < mode → fc.getD v 0 < mx)) →
    (∀ v, v < 10 → fc.getD v 0 ≤ (mode_loop fc k i mode mx).2) ∧
    (((mode_loop fc k i mode mx).2 = 0 ∧ (mode_loop fc k i mode mx).1 = 0) ∨
      ((mode_loop fc k i mode mx).1 < 10 ∧
        fc.getD (mode_loop fc k i mode mx).1 0 = (mode_loop fc k i mode mx).2 ∧
        0 < (mode_loop fc k i mode mx).2 ∧
        ∀ v, v < (mode_loop fc k i mode mx).1 → fc.getD v 0 < (mode_loop fc k i mode mx).2))
  | 0, i, mode, mx, hk, h1, h2 => by
    have hi : i = 10 := by omega
    subst hi
    simp only [mode_loop]
    exact ⟨h1, h2⟩
  | k + 1, i, mode, mx, hk, h1, h2 => by
    simp only [mode_loop]
    have hi10 : i % 256 = i := Nat.mod_eq_of_lt (by omega)
    split_ifs with hgt
    · rw [hi10]
      apply mode_loop_spec fc k (i + 1) i _ (by omega)
      · intro v hv
        rcases Nat.lt_succ_iff_lt_or_eq.mp hv with h | h
        · have := h1 v h; omega
        · subst h; exact le_refl _
      · right
        refine ⟨by omega, rfl, by omega, ?_⟩
        intro v hv
        have := h1 v hv
        omega
    · apply mode_loop_spec fc k (i + 1) mode mx (by omega)
      · intro v hv
        rcases Nat.lt_succ_iff_lt_or_eq.mp hv with h | h
        · exact h1 v h
        · subst h; omega
      · rcases h2 with h | ⟨a, b, c, d⟩
        · left; exact h
        · right; exact ⟨by omega, b, c, d⟩


theorem count_filter_lt (F : List Nat) (v : Nat) :
    (F.filter (fun f => decide (f < 10))).count v = if v < 10 then F.count v else 0 := by
  split_ifs with h
  · exact List.count_filter (by simpa using h)
  · apply List.count_eq_zero.mpr
    intro hm
    have := (List.mem_filter.mp hm).2
    simp only [decide_eq_true_eq] at this
    exact h this

/-- What `calculate_floor_mode` returns for globals within the array: the most frequent
value among the stored floors below `10`, the lowest on ties, `0` when there is none. -/
theorem calculate_floor_mode_state (s : FloorState) (h20 : s.floor_count ≤ 20)
    (hlen : s.floor_count ≤ s.floor_list.length) :
    calculate_floor_mode s < 10 ∧
    ((stored_floors s).filter (fun f => decide (f < 10)) = [] → calculate_floor_mode s = 0) ∧
    ((stored_floors s).filter (fun f => decide (f < 10)) ≠ [] →
      calculate_floor_mode s ∈ (stored_floors s).filter (fun f => decide (f < 10)) ∧
      ∀ v, ((stored_floors s).filter (fun f => decide (f < 10))).count v
            ≤ ((stored_floors s).filter (fun f => decide (f < 10))).count
                (calculate_floor_mode s) ∧
          (((stored_floors s).filter (fun f => decide (f < 10))).count v
            = ((stored_floors s).filter (fun f => decide (f < 10))).count
                (calculate_floor_mode s) → calculate_floor_mode s ≤ v)) := by
  by_cases h0 : s.floor_count = 0
  · have hF : stored_floors s = [] := by simp [stored_floors, h0]
    simp [calculate_floor_mode, h0, hF]
  · obtain ⟨_, ht⟩ := tally_loop_spec s.floor_list s.floor_count 0 (List.replicate 10 0)
      (by simp) (by omega) (by omega) (by
        intro v hv
        rw [List.getD_eq_getElem _ _ (by rw [List.length_replicate]; exact hv),
          List.getElem_replicate]
        simp)
    simp only [Nat.zero_add] at ht
    obtain ⟨m1, m2⟩ := mode_loop_spec
      (tally_loop s.floor_list s.floor_count 0 (List.replicate 10 0)) 10 0 0 0 rfl
      (by intro v hv; omega) (Or.inl ⟨rfl, rfl⟩)
    have hr : calculate_floor_mode s
        = (mode_loop (tally_loop s.floor_list s.floor_count 0 (List.replicate 10 0))
            10 0 0 0).1 := by
      simp [calculate_floor_mode, h0]
    rw [hr]
    generalize (mode_loop (tally_loop s.floor_list s.floor_count 0 (List.replicate 10 0))
      10 0 0 0) = res at m1 m2
    have hF : ∀ v, v < 10 →
        (tally_loop s.floor_list s.floor_count 0 (List.replicate 10 0)).getD v 0
          = (stored_floors s).count v := fun v hv => ht v hv
    generalize (tally_loop s.floor_list s.floor_count 0 (List.replicate 10 0)) = fc
      at m1 m2 hF
    generalize stored_floors s = F at hF
    have hmemT : ∀ x, x < 10 → 0 < F.count x →
        x ∈ F.filter (fun f => decide (f < 10)) := by
      intro x hx hc
      rw [List.mem_filter]
      exact ⟨List.count_pos_iff.mp hc, by simpa using hx⟩
    refine ⟨?_, ?_, ?_⟩
    · rcases m2 with ⟨_, h⟩ | ⟨h, _⟩
      · omega
      · exact h
    · intro hT
      rcases m2 with ⟨_, h⟩ | ⟨a, b, c, _⟩
      · exact h
      · have := hmemT res.1 a (by rw [← hF _ a, b]; exact c)
        rw [hT] at this
        simp at this
    · intro hT
      obtain ⟨x, hx⟩ := List.exists_mem_of_ne_nil _ hT
      obtain ⟨hxF, hx10⟩ := List.mem_filter.mp hx
      simp only [decide_eq_true_eq] at hx10
      have hxc : 0 < F.count x := List.count_pos_iff.mpr hxF
      have hM : 0 < res.2 := by
        have := m1 x hx10
        rw [hF x hx10] at this
        omega
      rcases m2 with ⟨h, _⟩ | ⟨a, b, c, d⟩
      · omega
      · refine ⟨hmemT res.1 a (by rw [← hF _ a, b]; exact c), ?_⟩
        intro v
        rw [count_filter_lt, count_filter_lt, if_pos a]
        split_ifs with hv
        · rw [← hF v hv, ← hF _ a, b]
          refine ⟨m1 v hv, ?_⟩
          intro heq
          by_contra hlt
          have := d v (by omega)
          omega
        · exact ⟨Nat.zero_le _, fun _ => by omega⟩

/-- The callback keeps `floor_count` within the array of `20` cells. -/
theorem floor_recv_cb_inv (s : FloorState) (p : FloorPacket)
    (h : s.floor_count ≤ 20 ∧ s.floor_list.length = 20) :
    (floor_recv_cb s p).floor_count ≤ 20 ∧ (floor_recv_cb s p).floor_list.length = 20 := by
  unfold floor_recv_cb
  split_ifs with hc
  · simp only [List.length_set]
    exact ⟨by omega, h.2⟩
  · exact h

theorem foldl_floor_recv_cb_inv : ∀ (packets : List FloorPacket) (s : FloorState),
    s.floor_count ≤ 20 ∧ s.floor_list.length = 20 →
    (packets.foldl floor_recv_cb s).floor_count ≤ 20 ∧
    (packets.foldl floor_recv_cb s).floor_list.length = 20
  | [], _, h => h
  | p :: rest, s, h => by
    rw [List.foldl_cons]
    exact foldl_floor_recv_cb_inv rest _ (floor_recv_cb_inv s p h)

theorem floor_discovery_inv (packets : List FloorPacket) :
    (floor_discovery packets).floor_count ≤ 20 ∧
    (floor_discovery packets).floor_list.length = 20 :=
  foldl_floor_recv_cb_inv packets _ ⟨by simp [FloorState.init], by simp [FloorState.init]⟩

/-- The stored floors after a run of the callback: the first bytes of the one-byte
packets, in order, as long as there is room. -/
theorem foldl_stored_floors : ∀ (packets : List FloorPacket) (s : FloorState),
    s.floor_count ≤ 20 ∧ s.floor_list.length = 20 →
    stored_floors (packets.foldl floor_recv_cb s)
      = (stored_floors s ++ (packets.filter (fun p : FloorPacket => decide (p.len = 1))).map
          (fun p : FloorPacket => p.data.getD 0 0 % 256)).take 20
  | [], s, h => by
    simp only [List.foldl_nil, List.filter_nil, List.map_nil, List.append_nil]
    rw [List.take_of_length_le]
    simp only [stored_floors, List.length_map, List.length_take]
    omega
  | p :: rest, s, h => by
    rw [List.foldl_cons, foldl_stored_floors rest _ (floor_recv_cb_inv s p h)]
    have hsl : (stored_floors s).length = s.floor_count := by
      simp only [stored_floors, List.length_map, List.length_take]
      omega
    by_cases hl : p.len = 1
    · by_cases hc : s.floor_count < 20
      · have hs : stored_floors (floor_recv_cb s p)
            = stored_floors s ++ [p.data.getD 0 0 % 256] := by
          simp only [floor_recv_cb, hl, hc, and_self, if_true, stored_floors]
          rw [take_set_succ_gen _ _ _ (by omega)]
          simp
        rw [hs]
        simp [List.filter_cons, hl]
      · have hs : floor_recv_cb s p = s := by
          simp [floor_recv_cb, hc]
        rw [hs, List.take_append_of_le_length (by omega),
          List.take_append_of_le_length (by omega)]
    · have hs : floor_recv_cb s p = s := by
        simp [floor_recv_cb, hl]
      rw [hs]
      simp [List.filter_cons, hl]

theorem floor_discovery_stored (packets : List FloorPacket) :
    stored_floors (floor_discovery packets)
      = ((packets.filter (fun p : FloorPacket => decide (p.len = 1))).map
          (fun p : FloorPacket => p.data.getD 0 0 % 256)).take 20 := by
  unfold floor_discovery
  rw [foldl_stored_floors packets _ ⟨by simp [FloorState.init], by simp [FloorState.init]⟩]
  simp [stored_floors, FloorState.init]


/-- The result depends only on the stored floors below `10`. -/
theorem calculate_floor_mode_congr (s t : FloorState)
    (hs : s.floor_count ≤ 20 ∧ s.floor_count ≤ s.floor_list.length)
    (ht : t.floor_count ≤ 20 ∧ t.floor_count ≤ t.floor_list.length)
    (h : (stored_floors t).filter (fun f => decide (f < 10))
        = (stored_floors s).filter (fun f => decide (f < 10))) :
    calculate_floor_mode t = calculate_floor_mode s := by
  obtain ⟨_, a2, a3⟩ := calculate_floor_mode_state s hs.1 hs.2
  obtain ⟨_, b2, b3⟩ := calculate_floor_mode_state t ht.1 ht.2
  rw [h] at b2 b3
  by_cases hT : (stored_floors s).filter (fun f => decide (f < 10)) = []
  · rw [a2 hT, b2 hT]
  · obtain ⟨_, a4⟩ := a3 hT
    obtain ⟨_, b4⟩ := b3 hT
    have c1 := a4 (calculate_floor_mode t)
    have c2 := b4 (calculate_floor_mode s)
    have heq := le_antisymm c1.1 c2.1
    exact le_antisymm (c2.2 heq.symm) (c1.2 heq)

/-- C23 (amended): when every report stored by `floor_recv_cb` (the first bytes of the
first 20 one-byte packets) has a floor in `0..9`, `calculate_floor_mode` returns the floor
that occurs most often among them, the lowest such floor when several are tied, and `0`
when there is no report. -/
theorem calculate_floor_mode_mode (packets : List FloorPacket)
    (h : ∀ f ∈ stored_floors (floor_discovery packets), f < 10) :
    stored_floors (floor_discovery packets)
      = ((packets.filter (fun p : FloorPacket => decide (p.len = 1))).map
          (fun p : FloorPacket => p.data.getD 0 0 % 256)).take 20 ∧
    (stored_floors (floor_discovery packets) = [] →
      calculate_floor_mode (floor_discovery packets) = 0) ∧
    (stored_floors (floor_discovery packets) ≠ [] →
      calculate_floor_mode (floor_discovery packets) ∈ stored_floors (floor_discovery packets) ∧
      ∀ v, (stored_floors (floor_discovery packets)).count v
            ≤ (stored_floors (floor_discovery packets)).count
                (calculate_floor_mode (floor_discovery packets)) ∧
          ((stored_floors (floor_discovery packets)).count v
            = (stored_floors (floor_discovery packets)).count
                (calculate_floor_mode (floor_discovery packets)) →
            calculate_floor_mode (floor_discovery packets) ≤ v)) := by
  obtain ⟨i1, i2⟩ := floor_discovery_inv packets
  obtain ⟨_, a2, a3⟩ := calculate_floor_mode_state (floor_discovery packets) i1 (by omega)
  have hT : (stored_floors (floor_discovery packets)).filter (fun f => decide (f < 10))
      = stored_floors (floor_discovery packets) :=
    List.filter_eq_self.mpr (fun f hf => by simpa using h f hf)
  rw [hT] at a2 a3
  exact ⟨floor_discovery_stored packets, a2, a3⟩

theorem calculate_floor_mode_mode_witness :
    stored_floors (floor_discovery ([3, 3, 2, 3, 1].map
      (fun f => (⟨[1, 2, 3, 4, 5, 6], [f], 1, -50, 6⟩ : FloorPacket)))) = [3, 3, 2, 3, 1] ∧
    calculate_floor_mode (floor_discovery ([3, 3, 2, 3, 1].map
      (fun f => (⟨[1, 2, 3, 4, 5, 6], [f], 1, -50, 6⟩ : FloorPacket)))) = 3 ∧
    calculate_floor_mode (floor_discovery []) = 0 ∧
    ∀ v, ([3, 3, 2, 3, 1] : List Nat).count v ≤ ([3, 3, 2, 3, 1] : List Nat).count 3 := by
  have h := calculate_floor_mode_mode ([3, 3, 2, 3, 1].map
      (fun f => (⟨[1, 2, 3, 4, 5, 6], [f], 1, -50, 6⟩ : FloorPacket))) (by decide)
  have hs : stored_floors (floor_discovery ([3, 3, 2, 3, 1].map
      (fun f => (⟨[1, 2, 3, 4, 5, 6], [f], 1, -50, 6⟩ : FloorPacket)))) = [3, 3, 2, 3, 1] := by
    decide
  have hr : calculate_floor_mode (floor_discovery ([3, 3, 2, 3, 1].map
      (fun f => (⟨[1, 2, 3, 4, 5, 6], [f], 1, -50, 6⟩ : FloorPacket)))) = 3 := by
    decide
  refine ⟨hs, hr, by decide, ?_⟩
  intro v
  have := ((h.2.2 (by rw [hs]; simp)).2 v).1
  rw [hr, hs] at this
  exact this

/-- C23 (as stated) fails: with the floors `-1, -1, 2` broadcast by three gateways the
most frequent floor is `-1`, and with the floors `12, 12, 3` it is `12`; in both cases
`calculate_floor_mode` returns the remaining floor. -/
theorem calculate_floor_mode_counterexample :
    calculate_floor_mode (floor_discovery ([-1, -1, 2].map
      (fun f : Int => (⟨[1, 2, 3, 4, 5, 6], [Gateway.floor_broadcast_byte f], 1, -50, 6⟩ :
        FloorPacket)))) = 2 ∧
    ([-1, -1, 2] : List Int).count (-1) = 2 ∧ ([-1, -1, 2] : List Int).count 2 = 1 ∧
    calculate_floor_mode (floor_discovery ([12, 12, 3].map
      (fun f : Int => (⟨[1, 2, 3, 4, 5, 6], [Gateway.floor_broadcast_byte f], 1, -50, 6⟩ :
        FloorPacket)))) = 3 ∧
    ([12, 12, 3] : List Int).count 12 = 2 ∧ ([12, 12, 3] : List Int).count 3 = 1 := by
  decide

/-- C27: `calculate_floor_mode` tallies only the stored reports whose floor byte is in
`0..9`.  Its result is below `10`; it is `0` when there is no such report and otherwise the
most frequent value among them, the lowest on ties; two runs whose stored reports agree
on the floors in `0..9` give the same result; and a gateway floor in `10..99` or in
`-99..-1` arrives as a byte of at least `10` (at least `157` for a negative floor). -/
theorem calculate_floor_mode_tally (packets : List FloorPacket) :
    calculate_floor_mode (floor_discovery packets) < 10 ∧
    ((stored_floors (floor_discovery packets)).filter (fun f => decide (f < 10)) = [] →
      calculate_floor_mode (floor_discovery packets) = 0) ∧
    ((stored_floors (floor_discovery packets)).filter (fun f => decide (f < 10)) ≠ [] →
      calculate_floor_mode (floor_discovery packets)
        ∈ (stored_floors (floor_discovery packets)).filter (fun f => decide (f < 10)) ∧
      ∀ v, ((stored_floors (floor_discovery packets)).filter (fun f => decide (f < 10))).count v
            ≤ ((stored_floors (floor_discovery packets)).filter
                (fun f => decide (f < 10))).count (calculate_floor_mode (floor_discovery packets)) ∧
          (((stored_floors (floor_discovery packets)).filter (fun f => decide (f < 10))).count v
            = ((stored_floors (floor_discovery packets)).filter
                (fun f => decide (f < 10))).count (calculate_floor_mode (floor_discovery packets)) →
            calculate_floor_mode (floor_discovery packets) ≤ v)) ∧
    (∀ packets1 : List FloorPacket,
      (stored_floors (floor_discovery packets1)).filter (fun f => decide (f < 10))
        = (stored_floors (floor_discovery packets)).filter (fun f => decide (f < 10)) →
      calculate_floor_mode (floor_discovery packets1)
        = calculate_floor_mode (floor_discovery packets)) ∧
    (∀ f : Int, (10 ≤ f → f ≤ 99 → Gateway.floor_broadcast_byte f = f.toNat ∧
        10 ≤ Gateway.floor_broadcast_byte f) ∧
      (-99 ≤ f → f < 0 → 157 ≤ Gateway.floor_broadcast_byte f ∧
        Gateway.floor_broadcast_byte f ≤ 255)) := by
  obtain ⟨i1, i2⟩ := floor_discovery_inv packets
  obtain ⟨a1, a2, a3⟩ := calculate_floor_mode_state (floor_discovery packets) i1 (by omega)
  refine ⟨a1, a2, a3, ?_, ?_⟩
  · intro packets1 h
    obtain ⟨j1, j2⟩ := floor_discovery_inv packets1
    exact calculate_floor_mode_congr _ _ ⟨i1, by omega⟩ ⟨j1, by omega⟩ h
  · intro f
    unfold Gateway.floor_broadcast_byte
    constructor
    · intro h1 h2; omega
    · intro h1 h2; omega


/-- The copy loop writes the slots `i .. i+k-1` from the results and leaves the others. -/
theorem fill_loop_spec (fr : List ftm_result_t) : ∀ (k i : Nat) (m : List measurement_t),
    m.length = 3 → i + k ≤ 3 →
    (fill_loop fr k i m).length = 3 ∧
    ∀ p, (fill_loop fr k i m).getD p measurement_zero
      = if i ≤ p ∧ p < i + k then
          { anchor_mac := (fr.getD p ftm_result_zero).mac,
            distance_meters := (fr.getD p ftm_result_zero).distance,
            variance := (fr.getD p ftm_result_zero).variance,
            rssi := (fr.getD p ftm_result_zero).rssi,
            sample_count := Int.toNat ((fr.getD p ftm_result_zero).sample_count % 256),
            rtt_nanoseconds := (fr.getD p ftm_result_zero).rtt_nanoseconds }
        else m.getD p measurement_zero
  | 0, i, m, hl, _ => by
    simp only [fill_loop]
    refine ⟨hl, fun p => ?_⟩
    rw [if_neg (by omega)]
  | k + 1, i, m, hl, hk => by
    simp only [fill_loop]
    obtain ⟨h1, h2⟩ := fill_loop_spec fr k (i + 1) (m.set i
      { anchor_mac := (fr.getD i ftm_result_zero).mac,
        distance_meters := (fr.getD i ftm_result_zero).distance,
        variance := (fr.getD i ftm_result_zero).variance,
        rssi := (fr.getD i ftm_result_zero).rssi,
        sample_count := Int.toNat ((fr.getD i ftm_result_zero).sample_count % 256),
        rtt_nanoseconds := (fr.getD i ftm_result_zero).rtt_nanoseconds })
      (by rw [List.length_set]; exact hl) (by omega)
    refine ⟨h1, fun p => ?_⟩
    rw [h2 p]
    by_cases hp : i + 1 ≤ p ∧ p < i + 1 + k
    · rw [if_pos hp, if_pos (by omega)]
    · rw [if_neg hp]
      by_cases hpi : p = i
      · subst hpi
        rw [if_pos (by omega), List.getD_eq_getElem?_getD, List.getElem?_set_self (by omega)]
        rfl
      · rw [if_neg (by omega), List.getD_eq_getElem?_getD,
          List.getElem?_set_ne (fun h => hpi h.symm), ← List.getD_eq_getElem?_getD]

/-- The sort by variance: a permutation of the results in non-decreasing variance order. -/
theorem sort_results_spec (obs : List ftm_result_t) :
    (sort_results obs).Perm obs ∧ (sort_results obs).length = obs.length ∧
    ∀ p q, p ≤ q → q < obs.length →
      ((sort_results obs).getD p ftm_result_zero).variance
        ≤ ((sort_results obs).getD q ftm_result_zero).variance := by
  obtain ⟨s1, s2, _, s4⟩ := exchange_sort_spec
    (fun a b : ftm_result_t => decide (a.variance < b.variance)) (fun a => a.variance)
    (fun x y => by simp) ftm_result_zero obs obs.length (le_refl _)
  have hs : sort_results obs
      = exchange_sort (fun a b : ftm_result_t => decide (a.variance < b.variance))
          ftm_result_zero obs obs.length := rfl
  rw [← hs] at s1 s2 s4
  rw [List.take_of_length_le (by omega), List.take_length] at s1
  rw [List.take_of_length_le (by omega)] at s4
  refine ⟨s1, s2, ?_⟩
  intro p q hpq hq
  rcases Nat.eq_or_lt_of_le hpq with h | h
  · subst h; exact le_refl _
  · rw [List.getD_eq_getElem _ _ (by omega), List.getD_eq_getElem _ _ (by omega)]
    exact (List.pairwise_iff_getElem.mp s4) p q (by omega) (by omega) h

/-- C24: for a non-empty list of `n` recorded observations with non-zero anchor MACs, the
packet has `k = min 3 n` filled slots `0 .. k-1`, holding the first `k` observations of a
permutation of the list in non-decreasing variance order; every observation left out has
a variance at least that of slot `k-1`; the slots `k .. 2` are zero (all-zero
`anchor_mac`); hence an empty slot is followed by empty slots only. -/
theorem pack_measurements_slots (obs : List ftm_result_t) (hne : obs ≠ [])
    (hmac : ∀ o ∈ obs, o.mac ≠ List.replicate 6 0) :
    ∃ m, pack_measurements obs = some m ∧ m.length = 3 ∧
      (sort_results obs).Perm obs ∧
      (∀ i, i < min 3 obs.length →
        m.getD i measurement_zero
          = { anchor_mac := ((sort_results obs).getD i ftm_result_zero).mac,
              distance_meters := ((sort_results obs).getD i ftm_result_zero).distance,
              variance := ((sort_results obs).getD i ftm_result_zero).variance,
              rssi := ((sort_results obs).getD i ftm_result_zero).rssi,
              sample_count :=
                Int.toNat (((sort_results obs).getD i ftm_result_zero).sample_count % 256),
              rtt_nanoseconds := ((sort_results obs).getD i ftm_result_zero).rtt_nanoseconds } ∧
        (sort_results obs).getD i ftm_result_zero ∈ obs ∧
        (m.getD i measurement_zero).anchor_mac ≠ List.replicate 6 0) ∧
      (∀ i j, i ≤ j → j < min 3 obs.length →
        (m.getD i measurement_zero).variance ≤ (m.getD j measurement_zero).variance) ∧
      (∀ o ∈ (sort_results obs).drop (min 3 obs.length),
        (m.getD (min 3 obs.length - 1) measurement_zero).variance ≤ o.variance) ∧
      (∀ i, min 3 obs.length ≤ i → i < 3 →
        (m.getD i measurement_zero).anchor_mac = List.replicate 6 0) ∧
      (∀ i j, i < j → j < 3 → (m.getD i measurement_zero).anchor_mac = List.replicate 6 0 →
        (m.getD j measurement_zero).anchor_mac = List.replicate 6 0) := by
  have hn : 0 < obs.length := List.length_pos.mpr hne
  obtain ⟨s1, s2, s3⟩ := sort_results_spec obs
  have hk : (if obs.length < 3 then obs.length else 3) = min 3 obs.length := by
    split_ifs <;> omega
  obtain ⟨f1, f2⟩ := fill_loop_spec (sort_results obs) (min 3 obs.length) 0
    (List.replicate 3 measurement_zero) (by simp) (by omega)
  have hz : ∀ p, (List.replicate 3 measurement_zero).getD p measurement_zero
      = measurement_zero := by
    intro p
    by_cases hp : p < 3
    · rw [List.getD_eq_getElem _ _ (by simpa using hp), List.getElem_replicate]
    · rw [List.getD_eq_default _ _ (by simp; omega)]
  have hmem : ∀ i, i < obs.length → (sort_results obs).getD i ftm_result_zero ∈ obs := by
    intro i hi
    rw [List.getD_eq_getElem _ _ (by omega)]
    exact s1.subset (List.getElem_mem _)
  have hfilled : ∀ i, i < min 3 obs.length →
      (fill_loop (sort_results obs) (min 3 obs.length) 0
        (List.replicate 3 measurement_zero)).getD i measurement_zero
        = { anchor_mac := ((sort_results obs).getD i ftm_result_zero).mac,
            distance_meters := ((sort_results obs).getD i ftm_result_zero).distance,
            variance := ((sort_results obs).getD i ftm_result_zero).variance,
            rssi := ((sort_results obs).getD i ftm_result_zero).rssi,
            sample_count :=
              Int.toNat (((sort_results obs).getD i ftm_result_zero).sample_count % 256),
            rtt_nanoseconds := ((sort_results obs).getD i ftm_result_zero).rtt_nanoseconds } := by
    intro i hi
    rw [f2 i, if_pos (by omega)]
  have hempty : ∀ i, min 3 obs.length ≤ i →
      (fill_loop (sort_results obs) (min 3 obs.length) 0
        (List.replicate 3 measurement_zero)).getD i measurement_zero = measurement_zero := by
    intro i hi
    rw [f2 i, if_neg (by omega), hz]
  refine ⟨_, by simp only [pack_measurements, hk, if_neg (show ¬ obs.length < 1 by omega)],
    f1, s1, ?_, ?_, ?_, ?_, ?_⟩
  · intro i hi
    refine ⟨hfilled i hi, hmem i (by omega), ?_⟩
    rw [hfilled i hi]
    exact hmac _ (hmem i (by omega))
  · intro i j hij hj
    rw [hfilled i (by omega), hfilled j hj]
    exact s3 i j hij (by omega)
  · intro o ho
    obtain ⟨t, ht, rfl⟩ := List.getElem_of_mem ho
    simp only [List.length_drop] at ht
    rw [List.getElem_drop, hfilled _ (by omega)]
    have := s3 (min 3 obs.length - 1) (min 3 obs.length + t) (by omega) (by omega)
    rw [← List.getD_eq_getElem _ ftm_result_zero (by omega)]
    exact this
  · intro i hi _
    rw [hempty i hi]
    rfl
  · intro i j hij hj hz0
    by_cases hi : i < min 3 obs.length
    · rw [hfilled i hi] at hz0
      exact absurd hz0 (hmac _ (hmem i (by omega)))
    · rw [hempty j (by omega)]
      rfl

theorem pack_measurements_slots_witness :
    pack_measurements
      [⟨[1, 1, 1, 1, 1, 1], 2, 5, -50, 8, 13⟩, ⟨[2, 2, 2, 2, 2, 2], 3, 1, -60, 20, 20⟩]
      = some [⟨[2, 2, 2, 2, 2, 2], 3, 1, -60, 20, 20⟩, ⟨[1, 1, 1, 1, 1, 1], 2, 5, -50, 8, 13⟩,
          measurement_zero] ∧
    ∃ m, pack_measurements
      [⟨[1, 1, 1, 1, 1, 1], 2, 5, -50, 8, 13⟩, ⟨[2, 2, 2, 2, 2, 2], 3, 1, -60, 20, 20⟩]
        = some m ∧
      (m.getD 2 measurement_zero).anchor_mac = List.replicate 6 0 := by
  obtain ⟨m, h1, _, _, _, _, _, h7, _⟩ := pack_measurements_slots
    [⟨[1, 1, 1, 1, 1, 1], 2, 5, -50, 8, 13⟩, ⟨[2, 2, 2, 2, 2, 2], 3, 1, -60, 20, 20⟩]
    (by simp) (by decide)
  exact ⟨by decide!, m, h1, h7 2 (by decide) (by decide)⟩


/-- The retry loop: the sends are made at increasing values of `retry` below the bound;
when it returns `ESP_OK` the last send, and no earlier one, was acknowledged; otherwise
all `k` sends were made and none was acknowledged. -/
theorem retry_loop_spec (send : Nat → SendOutcome) : ∀ (k r0 : Nat),
    (∀ x ∈ (retry_loop send k r0).2, r0 ≤ x ∧ x < r0 + k) ∧
    (retry_loop send k r0).2.Pairwise (· < ·) ∧
    (retry_loop send k r0).2.length ≤ k ∧
    ((retry_loop send k r0).1 = true → ∃ init last,
      (retry_loop send k r0).2 = init ++ [last] ∧
      ((send last).result_ok = true ∧ (send last).upload_successful = true) ∧
      ∀ x ∈ init, ¬ ((send x).result_ok = true ∧ (send x).upload_successful = true)) ∧
    ((retry_loop send k r0).1 = false →
      (retry_loop send k r0).2.length = k ∧
      ∀ x ∈ (retry_loop send k r0).2,
        ¬ ((send x).result_ok = true ∧ (send x).upload_successful = true))
  | 0, r0 => by simp [retry_loop]
  | k + 1, r0 => by
    obtain ⟨a, b, c, d, e⟩ := retry_loop_spec send k (r0 + 1)
    by_cases hack : (send r0).result_ok = true ∧ (send r0).upload_successful = true
    · have hr : retry_loop send (k + 1) r0 = (true, [r0]) := by
        simp [retry_loop, hack.1, hack.2]
      rw [hr]
      refine ⟨by simp, by simp, by simp, fun _ => ⟨[], r0, rfl, hack, by simp⟩, by simp⟩
    · have hr : retry_loop send (k + 1) r0
          = ((retry_loop send k (r0 + 1)).1, r0 :: (retry_loop send k (r0 + 1)).2) := by
        simp only [retry_loop]
        split_ifs with h1 h2
        · exact absurd ⟨h1, h2⟩ hack
        · rfl
        · rfl
      rw [hr]
      refine ⟨?_, ?_, ?_, ?_, ?_⟩
      · intro x hx
        rcases List.mem_cons.mp hx with h | h
        · subst h; omega
        · have := a x h; omega
      · rw [List.pairwise_cons]
        refine ⟨fun x hx => ?_, b⟩
        have := a x hx; omega
      · simp only [List.length_cons]; omega
      · intro h
        obtain ⟨init, last, h1, h2, h3⟩ := d h
        refine ⟨r0 :: init, last, by simp only [h1, List.cons_append], h2, ?_⟩
        intro x hx
        rcases List.mem_cons.mp hx with h | h
        · subst h; exact hack
        · exact h3 x h
      · intro h
        obtain ⟨h1, h2⟩ := e h
        refine ⟨by simp only [List.length_cons, h1], ?_⟩
        intro x hx
        rcases List.mem_cons.mp hx with h | h
        · subst h; exact hack
        · exact h2 x h

/-- The gateway loop: sends go to gateways `g0 .. g0+k-1` in increasing order, at most
`MAX_RETRY_ATTEMPTS` to each; when it returns `ESP_OK` the last send, and no earlier one,
was acknowledged; otherwise none was. -/
theorem gateway_loop_spec (peer_exist add_ok : Nat → Bool) (send : Nat → Nat → SendOutcome) :
    ∀ (k g0 : Nat),
    (∀ x ∈ (gateway_loop peer_exist add_ok send k g0).2,
      g0 ≤ x.1 ∧ x.1 < g0 + k ∧ x.2 < MAX_RETRY_ATTEMPTS) ∧
    (gateway_loop peer_exist add_ok send k g0).2.Pairwise
      (fun x y => x.1 < y.1 ∨ (x.1 = y.1 ∧ x.2 < y.2)) ∧
    (∀ g, ((gateway_loop peer_exist add_ok send k g0).2.filter
      (fun x => decide (x.1 = g))).length ≤ MAX_RETRY_ATTEMPTS) ∧
    ((gateway_loop peer_exist add_ok send k g0).1 = true → ∃ init last,
      (gateway_loop peer_exist add_ok send k g0).2 = init ++ [last] ∧
      ((send last.1 last.2).result_ok = true ∧ (send last.1 last.2).upload_successful = true) ∧
      ∀ x ∈ init,
        ¬ ((send x.1 x.2).result_ok = true ∧ (send x.1 x.2).upload_successful = true)) ∧
    ((gateway_loop peer_exist add_ok send k g0).1 = false →
      ∀ x ∈ (gateway_loop peer_exist add_ok send k g0).2,
        ¬ ((send x.1 x.2).result_ok = true ∧ (send x.1 x.2).upload_successful = true))
  | 0, g0 => by simp [gateway_loop]
  | k + 1, g0 => by
    obtain ⟨a, b, c, d, e⟩ := gateway_loop_spec peer_exist add_ok send k (g0 + 1)
    have hfilter0 : ∀ g, g ≤ g0 → (gateway_loop peer_exist add_ok send k (g0 + 1)).2.filter
        (fun x => decide (x.1 = g)) = [] := by
      intro g hg
      rw [List.filter_eq_nil_iff]
      intro x hx
      have := a x hx
      simp only [decide_eq_true_eq]
      omega
    by_cases hskip : (!peer_exist g0 && !add_ok g0) = true
    · have hr : gateway_loop peer_exist add_ok send (k + 1) g0
          = gateway_loop peer_exist add_ok send k (g0 + 1) := by
        simp only [gateway_loop, hskip, if_true]
      rw [hr]
      refine ⟨?_, b, c, d, e⟩
      intro x hx
      have := a x hx
      omega
    · obtain ⟨ra, rb, rc, rd, re⟩ := retry_loop_spec (send g0) MAX_RETRY_ATTEMPTS 0
      by_cases hok : (retry_loop (send g0) MAX_RETRY_ATTEMPTS 0).1 = true
      · have hr : gateway_loop peer_exist add_ok send (k + 1) g0
            = (true, (retry_loop (send g0) MAX_RETRY_ATTEMPTS 0).2.map
                (fun retry => (g0, retry))) := by
          simp only [gateway_loop, hskip, hok, if_true]
          rfl
        rw [hr]
        refine ⟨?_, ?_, ?_, ?_, by simp⟩
        · intro x hx
          obtain ⟨y, hy, rfl⟩ := List.mem_map.mp hx
          have := ra y hy
          simp only
          omega
        · rw [List.pairwise_map]
          exact rb.imp (fun h => Or.inr ⟨rfl, h⟩)
        · intro g
          refine le_trans (List.length_filter_le _ _) ?_
          rw [List.length_map]
          exact rc
        · intro _
          obtain ⟨init, last, h1, h2, h3⟩ := rd hok
          refine ⟨init.map (fun retry => (g0, retry)), (g0, last), by simp [h1], h2, ?_⟩
          intro x hx
          obtain ⟨y, hy, rfl⟩ := List.mem_map.mp hx
          exact h3 y hy
      · have hokf : (retry_loop (send g0) MAX_RETRY_ATTEMPTS 0).1 = false := by
          simpa using hok
        have hr : gateway_loop peer_exist add_ok send (k + 1) g0
            = ((gateway_loop peer_exist add_ok send k (g0 + 1)).1,
                (retry_loop (send g0) MAX_RETRY_ATTEMPTS 0).2.map (fun retry => (g0, retry))
                  ++ (gateway_loop peer_exist add_ok send k (g0 + 1)).2) := by
          simp only [gateway_loop, hskip, hokf]
          rfl
        rw [hr]
        obtain ⟨_, hnone⟩ := re hokf
        have hmapmem : ∀ x ∈ (retry_loop (send g0) MAX_RETRY_ATTEMPTS 0).2.map
            (fun retry => (g0, retry)), x.1 = g0 ∧ x.2 < MAX_RETRY_ATTEMPTS ∧
            ¬ ((send x.1 x.2).result_ok = true ∧ (send x.1 x.2).upload_successful = true) := by
          intro x hx
          obtain ⟨y, hy, rfl⟩ := List.mem_map.mp hx
          have := ra y hy
          exact ⟨rfl, by simp only; omega, hnone y hy⟩
        refine ⟨?_, ?_, ?_, ?_, ?_⟩
        · intro x hx
          rcases List.mem_append.mp hx with h | h
          · obtain ⟨h1, h2, _⟩ := hmapmem x h
            omega
          · have := a x h
            omega
        · rw [List.pairwise_append]
          refine ⟨?_, b, ?_⟩
          · rw [List.pairwise_map]
            exact rb.imp (fun h => Or.inr ⟨rfl, h⟩)
          · intro x hx y hy
            have h1 := (hmapmem x hx).1
            have h2 := a y hy
            left; omega
        · intro g
          rw [List.filter_append, List.length_append]
          by_cases hg : g ≤ g0
          · rw [hfilter0 g hg]
            refine le_trans (Nat.add_le_add_right (List.length_filter_le _ _) _) ?_
            rw [List.length_map]
            simpa using rc
          · have hnil : ((retry_loop (send g0) MAX_RETRY_ATTEMPTS 0).2.map
                (fun retry => (g0, retry))).filter (fun x => decide (x.1 = g)) = [] := by
              rw [List.filter_eq_nil_iff]
              intro x hx
              have := (hmapmem x hx).1
              simp only [decide_eq_true_eq]
              omega
            rw [hnil]
            simpa using c g
        · intro h
          obtain ⟨init, last, h1, h2, h3⟩ := d h
          refine ⟨(retry_loop (send g0) MAX_RETRY_ATTEMPTS 0).2.map (fun retry => (g0, retry))
            ++ init, last, by rw [h1, List.append_assoc], h2, ?_⟩
          intro x hx
          rcases List.mem_append.mp hx with hx1 | hx1
          · exact (hmapmem x hx1).2.2
          · exact h3 x hx1
        · intro h x hx
          rcases List.mem_append.mp hx with hx1 | hx1
          · exact (hmapmem x hx1).2.2
          · exact e h x hx1


/-- The sort of `send_data_with_retry`: the first `floor_count` cells are permuted into
non-increasing RSSI order. -/
theorem sort_floor_list_spec (s : FloorState) (hlen : s.floor_count ≤ s.floor_list.length)
    (peer_exist add_ok : Nat → Bool) (send : Nat → Nat → SendOutcome) :
    ((send_data_with_retry s peer_exist add_ok send).floor_list.take s.floor_count).Perm
      (s.floor_list.take s.floor_count) ∧
    ((send_data_with_retry s peer_exist add_ok send).floor_list.take s.floor_count).Pairwise
      (fun a b => a.rssi ≥ b.rssi) := by
  obtain ⟨s1, _, _, s4⟩ := exchange_sort_spec
    (fun a b : floor_info_t => decide (a.rssi > b.rssi)) (fun a => - a.rssi)
    (fun x y => by simp) floor_info_zero s.floor_list s.floor_count hlen
  refine ⟨s1, s4.imp (fun h => ?_)⟩
  simp only [neg_le_neg_iff] at h
  exact h

/-- C25: `send_data_with_retry` sorts the `n = floor_count` entries by descending RSSI and
addresses only the entries `gw < min 2 n` of the sorted list, in that order, with at most
`3` sends to each; it returns `ESP_OK` exactly at the first acknowledged send (the last
send made, no earlier one being acknowledged) and `ESP_FAIL` when none is acknowledged. -/
theorem send_data_with_retry_spec (s : FloorState)
    (hlen : s.floor_count ≤ s.floor_list.length)
    (peer_exist add_ok : Nat → Bool) (send : Nat → Nat → SendOutcome) :
    ((send_data_with_retry s peer_exist add_ok send).floor_list.take s.floor_count).Perm
      (s.floor_list.take s.floor_count) ∧
    ((send_data_with_retry s peer_exist add_ok send).floor_list.take s.floor_count).Pairwise
      (fun a b => a.rssi ≥ b.rssi) ∧
    (∀ x ∈ (send_data_with_retry s peer_exist add_ok send).sends,
      x.1 < min 2 s.floor_count ∧ x.2 < 3) ∧
    (send_data_with_retry s peer_exist add_ok send).sends.Pairwise
      (fun x y => x.1 < y.1 ∨ (x.1 = y.1 ∧ x.2 < y.2)) ∧
    (∀ g, ((send_data_with_retry s peer_exist add_ok send).sends.filter
      (fun x => decide (x.1 = g))).length ≤ 3) ∧
    ((send_data_with_retry s peer_exist add_ok send).err = true → ∃ init last,
      (send_data_with_retry s peer_exist add_ok send).sends = init ++ [last] ∧
      ((send last.1 last.2).result_ok = true ∧ (send last.1 last.2).upload_successful = true) ∧
      ∀ x ∈ init,
        ¬ ((send x.1 x.2).result_ok = true ∧ (send x.1 x.2).upload_successful = true)) ∧
    ((send_data_with_retry s peer_exist add_ok send).err = false →
      ∀ x ∈ (send_data_with_retry s peer_exist add_ok send).sends,
        ¬ ((send x.1 x.2).result_ok = true ∧ (send x.1 x.2).upload_successful = true)) := by
  obtain ⟨p1, p2⟩ := sort_floor_list_spec s hlen peer_exist add_ok send
  obtain ⟨a, b, c, d, e⟩ := gateway_loop_spec peer_exist add_ok send
    (if s.floor_count < 2 then s.floor_count else 2) 0
  have hk : (if s.floor_count < 2 then s.floor_count else 2) = min 2 s.floor_count := by
    split_ifs <;> omega
  rw [hk] at a b c d e
  refine ⟨p1, p2, ?_, ?_, ?_, ?_, ?_⟩
  · intro x hx
    simp only [send_data_with_retry, hk] at hx
    have := a x hx
    simp only [MAX_RETRY_ATTEMPTS] at this
    omega
  · simp only [send_data_with_retry, hk]
    exact b
  · simp only [send_data_with_retry, hk]
    exact c
  · simp only [send_data_with_retry, hk]
    exact d
  · simp only [send_data_with_retry, hk]
    exact e

theorem send_data_with_retry_spec_witness :
    (send_data_with_retry
      ⟨[⟨[1, 1, 1, 1, 1, 1], 3, -70, 1⟩, ⟨[2, 2, 2, 2, 2, 2], 3, -50, 6⟩] ++
        List.replicate 18 floor_info_zero, 2⟩
      (fun _ => false) (fun _ => true)
      (fun gw _ => if gw = 0 then ⟨true, false⟩ else ⟨true, true⟩)).err = true ∧
    (send_data_with_retry
      ⟨[⟨[1, 1, 1, 1, 1, 1], 3, -70, 1⟩, ⟨[2, 2, 2, 2, 2, 2], 3, -50, 6⟩] ++
        List.replicate 18 floor_info_zero, 2⟩
      (fun _ => false) (fun _ => true)
      (fun gw _ => if gw = 0 then ⟨true, false⟩ else ⟨true, true⟩)).sends
      = [(0, 0), (0, 1), (0, 2), (1, 0)] ∧
    (send_data_with_retry
      ⟨[⟨[1, 1, 1, 1, 1, 1], 3, -70, 1⟩, ⟨[2, 2, 2, 2, 2, 2], 3, -50, 6⟩] ++
        List.replicate 18 floor_info_zero, 2⟩
      (fun _ => false) (fun _ => true)
      (fun gw _ => if gw = 0 then ⟨true, false⟩ else ⟨true, true⟩)).floor_list.take 2
      = [⟨[2, 2, 2, 2, 2, 2], 3, -50, 6⟩, ⟨[1, 1, 1, 1, 1, 1], 3, -70, 1⟩] ∧
    ((send_data_with_retry
      ⟨[⟨[1, 1, 1, 1, 1, 1], 3, -70, 1⟩, ⟨[2, 2, 2, 2, 2, 2], 3, -50, 6⟩] ++
        List.replicate 18 floor_info_zero, 2⟩
      (fun _ => false) (fun _ => true)
      (fun gw _ => if gw = 0 then ⟨true, false⟩ else ⟨true, true⟩)).floor_list.take 2).Pairwise
      (fun a b => a.rssi ≥ b.rssi) :=
  ⟨by decide, by decide, by decide,
   (send_data_with_retry_spec
      ⟨[⟨[1, 1, 1, 1, 1, 1], 3, -70, 1⟩, ⟨[2, 2, 2, 2, 2, 2], 3, -50, 6⟩] ++
        List.replicate 18 floor_info_zero, 2⟩ (by decide)
      (fun _ => false) (fun _ => true)
      (fun gw _ => if gw = 0 then ⟨true, false⟩ else ⟨true, true⟩)).2.1⟩


theorem channel_search_iff (primary : Nat) : ∀ (l : List Nat),
    channel_search primary l = true ↔ primary ∈ l
  | [] => by simp [channel_search]
  | c :: rest => by
    simp only [channel_search, List.mem_cons]
    split_ifs with h
    · simp [h]
    · rw [channel_search_iff primary rest]
      constructor
      · exact Or.inr
      · rintro (h1 | h1)
        · exact absurd h1.symm h
        · exact h1

theorem scan_loop_append : ∀ (xs ys : List wifi_ap_record_t) (s : ScanLists),
    scan_loop (xs ++ ys) s = scan_loop ys (scan_loop xs s)
  | [], _, _ => rfl
  | x :: xs, ys, s => by
    show scan_loop (x :: (xs ++ ys)) s = _
    simp only [scan_loop]
    split_ifs <;> exact scan_loop_append xs ys _

/-- One more record at the end of the scan: a gateway record is appended to
`gateway_list`, and its channel to `unique_channel_list` unless it is already there. -/
theorem scan_gateways_snoc (xs : List wifi_ap_record_t) (ap : wifi_ap_record_t) :
    scan_gateways (xs ++ [ap])
      = if strcmp_zero ap.ssid WIFI_SSID = true then
          { gateway_list := (scan_gateways xs).gateway_list
              ++ [{ mac := ap.bssid, channel := ap.primary, rssi := ap.rssi }],
            unique_channel_list :=
              if ap.primary ∈ (scan_gateways xs).unique_channel_list then
                (scan_gateways xs).unique_channel_list
              else (scan_gateways xs).unique_channel_list ++ [ap.primary] }
        else scan_gateways xs := by
  unfold scan_gateways
  rw [scan_loop_append]
  generalize scan_loop xs { gateway_list := [], unique_channel_list := [] } = s
  have hlit : strcmp_zero ap.ssid
      [71, 97, 116, 101, 119, 97, 121, 95, 78, 101, 116, 119, 111, 114, 107]
      = strcmp_zero ap.ssid WIFI_SSID := rfl
  simp only [scan_loop, hlit, Bool.or_self]
  by_cases h1 : strcmp_zero ap.ssid WIFI_SSID = true
  · by_cases hm : ap.primary ∈ s.unique_channel_list
    · have hcs := (channel_search_iff ap.primary s.unique_channel_list).mpr hm
      simp [h1, hcs, hm]
    · have hcs : channel_search ap.primary s.unique_channel_list = false := by
        rw [← Bool.not_eq_true, channel_search_iff]; exact hm
      simp [h1, hcs, hm]
  · simp [h1]

/-- The two lists after the scan, in terms of the channels of the gateway records. -/
theorem scan_gateways_lists (ap_records : List wifi_ap_record_t) :
    (scan_gateways ap_records).gateway_list
      = (ap_records.filter (fun ap => strcmp_zero ap.ssid WIFI_SSID)).map
          (fun ap => { mac := ap.bssid, channel := ap.primary, rssi := ap.rssi }) ∧
    (scan_gateways ap_records).unique_channel_list.Nodup ∧
    (∀ c, c ∈ (scan_gateways ap_records).unique_channel_list ↔
      c ∈ (ap_records.filter (fun ap => strcmp_zero ap.ssid WIFI_SSID)).map
          (fun ap => ap.primary)) ∧
    (scan_gateways ap_records).unique_channel_list.Pairwise (fun c d =>
      ((ap_records.filter (fun ap => strcmp_zero ap.ssid WIFI_SSID)).map
          (fun ap => ap.primary)).indexOf c
        < ((ap_records.filter (fun ap => strcmp_zero ap.ssid WIFI_SSID)).map
          (fun ap => ap.primary)).indexOf d) := by
  induction ap_records using List.reverseRecOn with
  | nil => simp [scan_gateways, scan_loop]
  | append_singleton xs ap ih =>
    obtain ⟨i1, i2, i3, i4⟩ := ih
    rw [scan_gateways_snoc]
    by_cases hg : strcmp_zero ap.ssid WIFI_SSID = true
    · simp only [hg, if_true, List.filter_append, List.filter_cons, List.filter_nil,
        List.map_append, List.map_cons, List.map_nil]
      generalize hch : (xs.filter (fun ap => strcmp_zero ap.ssid WIFI_SSID)).map
        (fun ap => ap.primary) = chans at i3 i4
      have hidx : ∀ x, x ∈ chans → (chans ++ [ap.primary]).indexOf x = chans.indexOf x :=
        fun x hx => List.indexOf_append_of_mem hx
      have hpw : (scan_gateways xs).unique_channel_list.Pairwise (fun c d =>
          (chans ++ [ap.primary]).indexOf c < (chans ++ [ap.primary]).indexOf d) := by
        refine List.Pairwise.imp_of_mem ?_ i4
        intro c d hc hd h
        rw [hidx c ((i3 c).mp hc), hidx d ((i3 d).mp hd)]
        exact h
      refine ⟨by rw [i1], ?_, ?_, ?_⟩
      · split_ifs with hm
        · exact i2
        · exact List.Nodup.append i2 (List.nodup_singleton _) (by simpa using hm)
      · intro c
        split_ifs with hm
        · rw [i3 c, List.mem_append, List.mem_singleton]
          constructor
          · exact Or.inl
          · rintro (h | h)
            · exact h
            · subst h; exact (i3 _).mp hm
        · rw [List.mem_append, List.mem_append, i3 c]
      · split_ifs with hm
        · exact hpw
        · rw [List.pairwise_append]
          refine ⟨hpw, List.pairwise_singleton _ _, ?_⟩
          intro x hx y hy
          rw [List.mem_singleton] at hy
          subst hy
          have hxc := (i3 x).mp hx
          have hyc : ap.primary ∉ chans := fun h => hm ((i3 _).mpr h)
          rw [hidx x hxc, List.indexOf_append_of_not_mem hyc, List.indexOf_cons_self]
          have := List.indexOf_lt_length.mpr hxc
          omega
    · simp only [hg, Bool.false_eq_true, if_false, List.filter_append, List.filter_cons,
        List.filter_nil, List.append_nil]
      exact ⟨i1, i2, i3, i4⟩


/-- In one channel iteration gateway `g` is ranged once when it is on the current channel
and not at all otherwise. -/
theorem range_visits_count (c ci : Nat) : ∀ (l : List gateway_info_t) (g0 g : Nat),
    ((range_visits c ci l g0).filter (fun x => decide (x.2 = g))).length
      = if g0 ≤ g ∧ (l[g - g0]?).map (fun gw => gw.channel) = some c then 1 else 0
  | [], g0, g => by simp [range_visits]
  | gw :: rest, g0, g => by
    have ih := range_visits_count c ci rest (g0 + 1) g
    by_cases hg : g = g0
    · subst hg
      have hrest : ((range_visits c ci rest (g + 1)).filter
          (fun x => decide (x.2 = g))).length = 0 := by
        rw [ih, if_neg (by omega)]
      simp only [range_visits]
      split_ifs with h1 h2 h2
      · exact absurd h2.2 (by simpa using h1)
      · exact hrest
      · simp only [List.filter_cons, decide_True, if_true, List.length_cons, hrest]
      · exfalso
        apply h2
        refine ⟨le_refl _, ?_⟩
        simp only [Nat.sub_self, List.getElem?_cons_zero, Option.map_some']
        rw [not_not] at h1
        rw [h1]
    · have hhead : ∀ t : List (Nat × Nat),
          (((ci, g0) :: t).filter (fun x => decide (x.2 = g))).length
            = (t.filter (fun x => decide (x.2 = g))).length := by
        intro t
        rw [List.filter_cons, if_neg (by simpa using fun h => hg h.symm)]
      have hrhs : (g0 ≤ g ∧ ((gw :: rest)[g - g0]?).map (fun gw => gw.channel) = some c)
          ↔ (g0 + 1 ≤ g ∧ (rest[g - (g0 + 1)]?).map (fun gw => gw.channel) = some c) := by
        constructor
        · rintro ⟨h1, h2⟩
          have : g - g0 = (g - (g0 + 1)) + 1 := by omega
          rw [this, List.getElem?_cons_succ] at h2
          exact ⟨by omega, h2⟩
        · rintro ⟨h1, h2⟩
          have : g - g0 = (g - (g0 + 1)) + 1 := by omega
          rw [this, List.getElem?_cons_succ]
          exact ⟨by omega, h2⟩
      have hl : ((range_visits c ci (gw :: rest) g0).filter
          (fun x => decide (x.2 = g))).length
          = ((range_visits c ci rest (g0 + 1)).filter (fun x => decide (x.2 = g))).length := by
        simp only [range_visits]
        split_ifs
        · rfl
        · exact hhead _
      rw [hl, ih]
      exact if_congr hrhs.symm rfl rfl

/-- Over the whole channel loop gateway `g` is ranged as many times as its channel occurs
in the channel list. -/
theorem sweep_visits_count (gl : List gateway_info_t) : ∀ (chs : List Nat) (ci g : Nat)
    (hg : g < gl.length),
    ((sweep_visits gl chs ci).filter (fun x => decide (x.2 = g))).length
      = chs.count (gl[g]).channel
  | [], _, _, _ => by simp [sweep_visits]
  | c :: rest, ci, g, hg => by
    simp only [sweep_visits, List.filter_append, List.length_append]
    rw [range_visits_count, sweep_visits_count gl rest (ci + 1) g hg, List.count_cons]
    simp only [Nat.zero_le, Nat.sub_zero, true_and, List.getElem?_eq_getElem hg,
      Option.map_some', Option.some.injEq, beq_iff_eq]
    by_cases h : c = gl[g].channel
    · simp [h]; omega
    · have h1 : ¬ gl[g].channel = c := fun h1 => h h1.symm
      simp [h, h1]

/-- Every visit `(ch_idx, gw_idx)` ranges a gateway whose channel is the channel of that
iteration. -/
theorem range_visits_mem (c ci : Nat) : ∀ (l : List gateway_info_t) (g0 : Nat),
    ∀ x ∈ range_visits c ci l g0, x.1 = ci ∧ g0 ≤ x.2 ∧
      (l[x.2 - g0]?).map (fun gw => gw.channel) = some c
  | [], _, x, hx => by simp [range_visits] at hx
  | gw :: rest, g0, x, hx => by
    simp only [range_visits] at hx
    have ih := range_visits_mem c ci rest (g0 + 1) x
    have hrest : x ∈ range_visits c ci rest (g0 + 1) → x.1 = ci ∧ g0 ≤ x.2 ∧
        ((gw :: rest)[x.2 - g0]?).map (fun gw => gw.channel) = some c := by
      intro h
      obtain ⟨a, b, c1⟩ := ih h
      have : x.2 - g0 = (x.2 - (g0 + 1)) + 1 := by omega
      rw [this, List.getElem?_cons_succ]
      exact ⟨a, by omega, c1⟩
    split_ifs at hx with h1
    · exact hrest hx
    · rcases List.mem_cons.mp hx with h | h
      · subst h
        rw [not_not] at h1
        simp [h1]
      · exact hrest h

theorem sweep_visits_mem (gl : List gateway_info_t) : ∀ (chs : List Nat) (ci : Nat),
    ∀ x ∈ sweep_visits gl chs ci, ci ≤ x.1 ∧
      chs[x.1 - ci]? = (gl[x.2]?).map (fun gw => gw.channel) ∧ x.1 - ci < chs.length
  | [], _, x, hx => by simp [sweep_visits] at hx
  | c :: rest, ci, x, hx => by
    simp only [sweep_visits] at hx
    rcases List.mem_append.mp hx with h | h
    · obtain ⟨a, _, b⟩ := range_visits_mem c ci gl 0 x h
      rw [a]
      simp only [Nat.sub_zero] at b
      simp [b]
    · obtain ⟨a, b, c1⟩ := sweep_visits_mem gl rest (ci + 1) x h
      have : x.1 - ci = (x.1 - (ci + 1)) + 1 := by omega
      rw [this, List.getElem?_cons_succ]
      exact ⟨by omega, b, by simp only [List.length_cons]; omega⟩

/-- The gateway loop of one channel iteration ranges exactly the gateways of its visits,
in order: its result is `range_gateway` folded over `range_visits`. -/
theorem range_all_visits (pow : ℚ → ℚ → ℚ) (drv : Nat → Nat → Nat → DriverOutcome)
    (stack : Nat → Nat → ℚ × ℚ) (gl : List gateway_info_t) (c ci : Nat) :
    ∀ (l : List gateway_info_t) (g0 : Nat) (acc : List ftm_result_t),
    (∀ i, l[i]? = gl[g0 + i]?) →
    range_all pow (drv ci) (stack ci) c l g0 acc
      = (range_visits c ci l g0).foldl (fun acc x =>
          (gl[x.2]?).elim acc
            (fun gw => range_gateway pow gw (drv x.1 x.2) (stack x.1 x.2) acc)) acc
  | [], _, _, _ => by simp [range_all, range_visits]
  | gw :: rest, g0, acc, hsuf => by
    have h0 : gl[g0]? = some gw := by
      have := hsuf 0
      simpa using this.symm
    have hrest : ∀ i, rest[i]? = gl[g0 + 1 + i]? := by
      intro i
      have := hsuf (i + 1)
      rw [List.getElem?_cons_succ] at this
      rw [this]
      congr 1
      omega
    simp only [range_all, range_visits]
    split_ifs with hc
    · exact range_all_visits pow drv stack gl c ci rest (g0 + 1) acc hrest
    · rw [List.foldl_cons]
      simp only [h0, Option.elim]
      exact range_all_visits pow drv stack gl c ci rest (g0 + 1) _ hrest

/-- The channel loop ranges exactly the gateways of `sweep_visits`, in order: the results
it records are those of `range_gateway` (one `perform_ftm_measurement` call each) folded
over the visits. -/
theorem channel_sweep_visits (pow : ℚ → ℚ → ℚ) (drv : Nat → Nat → Nat → DriverOutcome)
    (stack : Nat → Nat → ℚ × ℚ) (gl : List gateway_info_t) :
    ∀ (chs : List Nat) (ci : Nat) (acc : List ftm_result_t),
    channel_sweep pow drv stack gl chs ci acc
      = (sweep_visits gl chs ci).foldl (fun acc x =>
          (gl[x.2]?).elim acc
            (fun gw => range_gateway pow gw (drv x.1 x.2) (stack x.1 x.2) acc)) acc
  | [], _, _ => by simp [channel_sweep, sweep_visits]
  | c :: rest, ci, acc => by
    simp only [channel_sweep, sweep_visits, List.foldl_append]
    rw [channel_sweep_visits pow drv stack gl rest (ci + 1),
      range_all_visits pow drv stack gl c ci gl 0 acc (by intro i; rw [Nat.zero_add])]

/-- C26: after the scan, `gateway_list` holds the access points whose SSID is
`"Gateway_Network"`, and `unique_channel_list` holds their channels without repetition,
in order of first appearance; the channel loop ranges (by `range_gateway`, one
`perform_ftm_measurement` call each) exactly the gateways of its visits, in order; every
visit ranges a gateway on the channel of its iteration, and every gateway of
`gateway_list` is ranged in exactly one iteration. -/
theorem scan_gateways_spec (ap_records : List wifi_ap_record_t) :
    (scan_gateways ap_records).gateway_list
      = (ap_records.filter (fun ap => strcmp_zero ap.ssid WIFI_SSID)).map
          (fun ap => { mac := ap.bssid, channel := ap.primary, rssi := ap.rssi }) ∧
    (scan_gateways ap_records).unique_channel_list.Nodup ∧
    (∀ c, c ∈ (scan_gateways ap_records).unique_channel_list ↔
      ∃ ap ∈ ap_records, strcmp_zero ap.ssid WIFI_SSID = true ∧ ap.primary = c) ∧
    (scan_gateways ap_records).unique_channel_list.Pairwise (fun c d =>
      ((ap_records.filter (fun ap => strcmp_zero ap.ssid WIFI_SSID)).map
          (fun ap => ap.primary)).indexOf c
        < ((ap_records.filter (fun ap => strcmp_zero ap.ssid WIFI_SSID)).map
          (fun ap => ap.primary)).indexOf d) ∧
    (∀ x ∈ sweep_visits (scan_gateways ap_records).gateway_list
        (scan_gateways ap_records).unique_channel_list 0,
      x.1 < (scan_gateways ap_records).unique_channel_list.length ∧
      (scan_gateways ap_records).unique_channel_list[x.1]?
        = ((scan_gateways ap_records).gateway_list[x.2]?).map (fun gw => gw.channel)) ∧
    (∀ g, g < (scan_gateways ap_records).gateway_list.length →
      ((sweep_visits (scan_gateways ap_records).gateway_list
        (scan_gateways ap_records).unique_channel_list 0).filter
          (fun x => decide (x.2 = g))).length = 1) ∧
    (∀ (pow : ℚ → ℚ → ℚ) (drv : Nat → Nat → Nat → DriverOutcome) (stack : Nat → Nat → ℚ × ℚ)
        (final_ftm_results : List ftm_result_t),
      channel_sweep pow drv stack (scan_gateways ap_records).gateway_list
          (scan_gateways ap_records).unique_channel_list 0 final_ftm_results
        = (sweep_visits (scan_gateways ap_records).gateway_list
            (scan_gateways ap_records).unique_channel_list 0).foldl (fun acc x =>
              ((scan_gateways ap_records).gateway_list[x.2]?).elim acc
                (fun gw => range_gateway pow gw (drv x.1 x.2) (stack x.1 x.2) acc))
            final_ftm_results) := by
  obtain ⟨l1, l2, l3, l4⟩ := scan_gateways_lists ap_records
  have hmem : ∀ c, c ∈ (scan_gateways ap_records).unique_channel_list ↔
      ∃ ap ∈ ap_records, strcmp_zero ap.ssid WIFI_SSID = true ∧ ap.primary = c := by
    intro c
    rw [l3 c, List.mem_map]
    constructor
    · rintro ⟨ap, h1, h2⟩
      obtain ⟨h3, h4⟩ := List.mem_filter.mp h1
      exact ⟨ap, h3, h4, h2⟩
    · rintro ⟨ap, h1, h2, h3⟩
      exact ⟨ap, List.mem_filter.mpr ⟨h1, h2⟩, h3⟩
  refine ⟨l1, l2, hmem, l4, ?_, ?_,
    fun pow drv stack acc => channel_sweep_visits pow drv stack _ _ 0 acc⟩
  · intro x hx
    obtain ⟨_, b, c⟩ := sweep_visits_mem _ _ 0 x hx
    simp only [Nat.sub_zero] at b c
    exact ⟨c, b⟩
  · intro g hg
    rw [sweep_visits_count _ _ 0 g hg]
    apply List.count_eq_one_of_mem l2
    rw [hmem]
    have hall : ∀ x ∈ (scan_gateways ap_records).gateway_list,
        ∃ ap ∈ ap_records, strcmp_zero ap.ssid WIFI_SSID = true ∧ ap.primary = x.channel := by
      intro x hx
      rw [l1] at hx
      obtain ⟨ap, h1, h2⟩ := List.mem_map.mp hx
      obtain ⟨h3, h4⟩ := List.mem_filter.mp h1
      refine ⟨ap, h3, h4, ?_⟩
      rw [← h2]
    exact hall _ (List.getElem_mem _)


set_option maxRecDepth 100000 in
theorem scan_gateways_spec_witness :
    scan_gateways [⟨[1], WIFI_SSID ++ [0, 0], 6, -50⟩, ⟨[2], [65, 0], 1, -50⟩,
      ⟨[3], WIFI_SSID ++ [0], 1, -55⟩, ⟨[4], WIFI_SSID ++ [0], 6, -60⟩]
      = { gateway_list := [⟨[1], 6, -50⟩, ⟨[3], 1, -55⟩, ⟨[4], 6, -60⟩],
          unique_channel_list := [6, 1] } ∧
    sweep_visits [⟨[1], 6, -50⟩, ⟨[3], 1, -55⟩, ⟨[4], 6, -60⟩] [6, 1] 0
      = [(0, 0), (0, 2), (1, 1)] ∧
    (channel_sweep (fun _ _ => 31.6227766) (fun _ _ _ => .report (some [40000]))
      (fun _ _ => (0, 0)) [⟨[1], 6, -50⟩, ⟨[3], 1, -55⟩, ⟨[4], 6, -60⟩] [6, 1] 0 []).map
        (fun r => (r.mac, r.rtt_nanoseconds)) = [([1], 40), ([4], 40), ([3], 40)] ∧
    (scan_gateways [⟨[1], WIFI_SSID ++ [0, 0], 6, -50⟩, ⟨[2], [65, 0], 1, -50⟩,
      ⟨[3], WIFI_SSID ++ [0], 1, -55⟩, ⟨[4], WIFI_SSID ++ [0], 6, -60⟩]).unique_channel_list.Nodup :=
  ⟨by decide, by decide, by decide!,
   (scan_gateways_spec [⟨[1], WIFI_SSID ++ [0, 0], 6, -50⟩, ⟨[2], [65, 0], 1, -50⟩,
      ⟨[3], WIFI_SSID ++ [0], 1, -55⟩, ⟨[4], WIFI_SSID ++ [0], 6, -60⟩]).2.1⟩


/-- The samples the collection loop stores are the calibrated distances of the entries
that pass the range tests, in report order. -/
theorem filterMap_ftm_sample : ∀ (entries : List Nat),
    entries.filterMap ftm_sample
      = (entries.filter (fun rtt : Nat => decide (1000 ≤ rtt ∧ rtt ≤ 333000 ∧
            0.15 ≤ (rtt : ℚ) * 1e-12 * 299792458 / 2 * 0.20 ∧
            (rtt : ℚ) * 1e-12 * 299792458 / 2 * 0.20 ≤ 50.0))).map
          (fun rtt : Nat => (rtt : ℚ) * 1e-12 * 299792458 / 2 * 0.20)
  | [] => rfl
  | x :: rest => by
    have ih := filterMap_ftm_sample rest
    obtain ⟨h1, h2, _⟩ := ftm_sample_iff x
    cases hs : ftm_sample x with
    | none =>
      have hc : ¬ (1000 ≤ x ∧ x ≤ 333000 ∧
          0.15 ≤ (x : ℚ) * 1e-12 * 299792458 / 2 * 0.20 ∧
          (x : ℚ) * 1e-12 * 299792458 / 2 * 0.20 ≤ 50.0) := by
        intro hc
        have := h2.mpr hc
        rw [hs] at this
        simp at this
      rw [List.filterMap_cons, hs, List.filter_cons, if_neg (by simpa using hc)]
      exact ih
    | some d =>
      obtain ⟨a, b, c, e, f⟩ := (h1 d).mp hs
      have hc : (1000 ≤ x ∧ x ≤ 333000 ∧
          0.15 ≤ (x : ℚ) * 1e-12 * 299792458 / 2 * 0.20 ∧
          (x : ℚ) * 1e-12 * 299792458 / 2 * 0.20 ≤ 50.0) := by
        rw [← c]; exact ⟨a, b, e, f⟩
      rw [List.filterMap_cons, hs, List.filter_cons, if_pos (by simpa using hc), List.map_cons,
        ih, c]

/-- C3: in the collection loop a report entry contributes a distance sample (the sample
is stored in `distances[valid_count]` and `valid_count` grows by one) exactly when
`1000 ≤ rtt_ps ≤ 333000` and the calibrated distance
`d = rtt_ps * 1e-12 * 299792458 / 2 * 0.20` satisfies `0.15 ≤ d ≤ 50.0`, and the sample is
`d`; so the loop over a report stores the distances of exactly those entries, in order.
The tests `rtt == 0` and `rtt == UINT32_MAX` never change the outcome. -/
theorem collect_loop_contributes (entries : List Nat) :
    (∀ (k i valid_count : Nat) (distances : List ℚ),
      collect_loop entries (k + 1) i valid_count distances
        = if 1000 ≤ entries.getD i 0 ∧ entries.getD i 0 ≤ 333000 ∧
              0.15 ≤ ((entries.getD i 0 : Nat) : ℚ) * 1e-12 * 299792458 / 2 * 0.20 ∧
              ((entries.getD i 0 : Nat) : ℚ) * 1e-12 * 299792458 / 2 * 0.20 ≤ 50.0 then
            collect_loop entries k (i + 1) (valid_count + 1)
              (distances.set valid_count
                (((entries.getD i 0 : Nat) : ℚ) * 1e-12 * 299792458 / 2 * 0.20))
          else collect_loop entries k (i + 1) valid_count distances) ∧
    (collect_loop entries entries.length 0 0 (List.replicate entries.length 0)).1.take
        (collect_loop entries entries.length 0 0 (List.replicate entries.length 0)).2
      = (entries.filter (fun rtt : Nat => decide (1000 ≤ rtt ∧ rtt ≤ 333000 ∧
            0.15 ≤ (rtt : ℚ) * 1e-12 * 299792458 / 2 * 0.20 ∧
            (rtt : ℚ) * 1e-12 * 299792458 / 2 * 0.20 ≤ 50.0))).map
          (fun rtt : Nat => (rtt : ℚ) * 1e-12 * 299792458 / 2 * 0.20) ∧
    (collect_loop entries entries.length 0 0 (List.replicate entries.length 0)).2
      = (entries.filter (fun rtt : Nat => decide (1000 ≤ rtt ∧ rtt ≤ 333000 ∧
            0.15 ≤ (rtt : ℚ) * 1e-12 * 299792458 / 2 * 0.20 ∧
            (rtt : ℚ) * 1e-12 * 299792458 / 2 * 0.20 ≤ 50.0))).length ∧
    (∀ rtt : Nat, rtt_invalid rtt = decide (rtt < 1000 ∨ rtt > 333000)) := by
  refine ⟨?_, ?_, ?_, fun rtt => (ftm_sample_iff rtt).2.2⟩
  · intro k i vc d
    obtain ⟨h1, h2, _⟩ := ftm_sample_iff (entries.getD i 0)
    rw [collect_loop]
    cases hs : ftm_sample (entries.getD i 0) with
    | none =>
      rw [if_neg]
      intro hc
      have := h2.mpr hc
      rw [hs] at this
      simp at this
    | some x =>
      obtain ⟨a, b, c, e, f⟩ := (h1 x).mp hs
      rw [if_pos (by rw [← c]; exact ⟨a, b, e, f⟩), c]
  · obtain ⟨c1, _, _⟩ := collect_loop_spec entries entries.length 0 0
      (List.replicate entries.length 0) (le_refl _) (by omega) (by simp)
    rw [c1, ← filterMap_ftm_sample]
    simp
  · obtain ⟨_, c2, _⟩ := collect_loop_spec entries entries.length 0 0
      (List.replicate entries.length 0) (le_refl _) (by omega) (by simp)
    rw [c2, List.drop_zero, List.take_length, filterMap_ftm_sample, List.length_map]
    simp

set_option maxRecDepth 100000 in
theorem collect_loop_contributes_witness :
    (collect_loop [0, 999, 1000, 5003, 5004, 333000, 333001, 4294967295] 8 0 0
      (List.replicate 8 0)).2 = 2 ∧
    (collect_loop [0, 999, 1000, 5003, 5004, 333000, 333001, 4294967295] 8 0 0
      (List.replicate 8 0)).1.take 2
      = [(5004 : ℚ) * 1e-12 * 299792458 / 2 * 0.20, (333000 : ℚ) * 1e-12 * 299792458 / 2 * 0.20] := by
  have h := collect_loop_contributes [0, 999, 1000, 5003, 5004, 333000, 333001, 4294967295]
  have hc : (collect_loop [0, 999, 1000, 5003, 5004, 333000, 333001, 4294967295] 8 0 0
      (List.replicate 8 0)).2 = 2 := by decide!
  refine ⟨hc, ?_⟩
  have h2 := h.2.1
  simp only [List.length_cons, List.length_nil] at h2
  rw [hc] at h2
  rw [h2]
  decide!

end Beacon
